import Mathlib

/-!
# PhotoSync backend: credential envelope and pooled connections

Shallow embedding of `internal/storage/pool_generic.go`, `internal/auth/jwt.go`,
`internal/api/middleware.go`, `internal/api/photos.go`, `internal/config/config.go`
and of the `Connect` and `Close` methods of the three storage backends, followed by
the properties proved about them.

Conventions of the embedding:

* a Go `string` or `[]byte` is a list of bytes (`Bytes`); an `error` of the
  storage backend is an opaque message;
* a `time.Time` is an integer number of nanoseconds, a `time.Duration` an
  integer number of nanoseconds;
* the storage backend is an interface value: every pool operation returns the
  list of backend calls it made, and the value a `Connect` call would return
  is an input of the operation;
* the pool operations are embedded as they run one at a time (the body
  executed while the pool mutex is held);
* the remote systems and their client libraries (SMB, NFS, S3), like the
  cryptographic and JSON libraries, are parameters: their answers are inputs and
  the calls made towards them are returned;
* a run-time panic is the value `none` (or a `panic` outcome), never silently a
  result.
-/

namespace PhotoSync

/-! ## Go strings and byte slices -/

/-- One byte. -/
abbrev Byte := Fin 256

/-- A Go `string` or `[]byte`: a sequence of bytes. The conversions `[]byte(s)` and
`string(b)` are the identity. -/
abbrev Bytes := List Byte

/-- The bytes of a text literal (one byte per character, used with ASCII text). -/
def ascii (s : String) : Bytes := s.toList.map (fun c => Fin.ofNat c.toNat)

/-- The byte with value `n % 256` (the conversion `byte(n)`). -/
def byteOf (n : Nat) : Byte := Fin.ofNat n

/-! ## `internal/storage/pool_generic.go` -/

/-- The handle `type Connection interface{}` of `backend.go`: an opaque value
compared by identity. -/
abbrev Connection := Nat

deriving instance DecidableEq for Except

/-- The struct `PooledGenericConnection`. -/
structure PooledGenericConnection where
  connection : Connection
  lastUsed : Int
  username : Bytes
deriving DecidableEq, Repr

/-- A call made on the `StorageBackend` interface by the pool. -/
inductive BackendCall where
  | connect (username password : Bytes)
  | close (conn : Connection)
deriving DecidableEq, Repr

/-- The struct `GenericConnectionPool`: the map `connections` as an
association list (first binding of a key wins) and the freshness window. -/
structure GenericConnectionPool where
  connections : List (Bytes × PooledGenericConnection)
  ttl : Int
deriving DecidableEq, Repr

/-- Outcome of one pool operation: the value returned, the pool afterwards and
the backend calls made, in order. -/
structure Step (α : Type) where
  result : α
  pool : GenericConnectionPool
  calls : List BackendCall
deriving Repr

/-- Map read `m[k]` with the comma-ok form. -/
def mapGet (m : List (Bytes × PooledGenericConnection)) (k : Bytes) :
    Option PooledGenericConnection :=
  match m with
  | [] => none
  | (k', v) :: rest => if k' = k then some v else mapGet rest k

/-- The builtin `delete(m, k)`. -/
def mapDelete (m : List (Bytes × PooledGenericConnection)) (k : Bytes) :
    List (Bytes × PooledGenericConnection) :=
  m.filter (fun kv => decide (kv.1 ≠ k))

/-- Map write `m[k] = v`. -/
def mapSet (m : List (Bytes × PooledGenericConnection)) (k : Bytes)
    (v : PooledGenericConnection) : List (Bytes × PooledGenericConnection) :=
  (k, v) :: mapDelete m k

/-- `NewGenericConnectionPool` (the sweep goroutine it starts is `cleanupPass`,
run by the scheduler). -/
def NewGenericConnectionPool (ttl : Int) : GenericConnectionPool :=
  { connections := [], ttl := ttl }

/-- The freshness test `time.Since(conn.lastUsed) < p.ttl` read at `now`. -/
def isFresh (p : GenericConnectionPool) (conn : PooledGenericConnection) (now : Int) : Bool :=
  decide (now - conn.lastUsed < p.ttl)

/-- The method `GetConnection`, run at clock reading `now` (every `time.Since` and
`time.Now` of one call reads `now`); `connectResult` is what
`p.backend.Connect(username, password)` returns if it is called. The `exists` and
`conn` tested before `Close` are those of the first lookup: the second lookup
declares its own. -/
def GetConnection (p : GenericConnectionPool) (username password : Bytes) (now : Int)
    (connectResult : Except String Connection) : Step (Except String Connection) :=
  -- conn, exists := p.connections[username]
  let outer := mapGet p.connections username
  let slow : Step (Except String Connection) :=
    -- if conn, exists := p.connections[username]; exists && fresh (shadowing lookup)
    let inner := mapGet p.connections username
    let rest : Step (Except String Connection) :=
      -- if exists { p.backend.Close(conn.connection) }   (outer variables)
      let closes : List BackendCall :=
        match outer with
        | some conn => [BackendCall.close conn.connection]
        | none => []
      -- connection, err := p.backend.Connect(username, password)
      match connectResult with
      | .error err =>
          { result := .error err, pool := p,
            calls := closes ++ [BackendCall.connect username password] }
      | .ok connection =>
          { result := .ok connection,
            pool := GenericConnectionPool.mk
              (mapSet p.connections username (PooledGenericConnection.mk connection now username))
              p.ttl,
            calls := closes ++ [BackendCall.connect username password] }
    match inner with
    | some conn =>
        if isFresh p conn now then
          { result := .ok conn.connection,
            pool := GenericConnectionPool.mk
              (mapSet p.connections username
                (PooledGenericConnection.mk conn.connection now conn.username))
              p.ttl,
            calls := [] }
        else rest
    | none => rest
  match outer with
  | some conn =>
      if isFresh p conn now then
        { result := .ok conn.connection,
          pool := GenericConnectionPool.mk
            (mapSet p.connections username
              (PooledGenericConnection.mk conn.connection now conn.username))
            p.ttl,
          calls := [] }
      else slow
  | none => slow

/-- One iteration of the `range p.connections` loop of `cleanup`, on the entry
`(username, conn)`, with the map and the calls made so far. -/
def cleanupEntry (ttl now : Int)
    (acc : List (Bytes × PooledGenericConnection) × List BackendCall)
    (kv : Bytes × PooledGenericConnection) :
    List (Bytes × PooledGenericConnection) × List BackendCall :=
  if now - kv.2.lastUsed > ttl then
    (mapDelete acc.1 kv.1, acc.2 ++ [BackendCall.close kv.2.connection])
  else acc

/-- One tick of `cleanup`: the body of `for range ticker.C`, with `now` the
value of `time.Now()` read under the lock. -/
def cleanupPass (p : GenericConnectionPool) (now : Int) : Step Unit :=
  let r := p.connections.foldl (cleanupEntry p.ttl now) (p.connections, [])
  { result := (), pool := { p with connections := r.1 }, calls := r.2 }

/-- The method `Close` of the pool. -/
def Close (p : GenericConnectionPool) : Step Unit :=
  { result := (),
    pool := { p with connections := [] },
    calls := p.connections.map (fun kv => BackendCall.close kv.2.connection) }

/-- One operation on the pool, with the clock reading and (for `GetConnection`)
the outcome the backend gives to `Connect`. -/
inductive PoolOp where
  | getConnection (username password : Bytes) (now : Int)
      (connectResult : Except String Connection)
  | sweep (now : Int)
  | close

/-- Run one operation: the pool afterwards and the backend calls made. -/
def runOp (p : GenericConnectionPool) : PoolOp → GenericConnectionPool × List BackendCall
  | .getConnection u pw now r => ((GetConnection p u pw now r).pool, (GetConnection p u pw now r).calls)
  | .sweep now => ((cleanupPass p now).pool, (cleanupPass p now).calls)
  | .close => ((Close p).pool, (Close p).calls)

/-- Run operations one after another, collecting the backend calls. -/
def runOps (p : GenericConnectionPool) : List PoolOp → GenericConnectionPool × List BackendCall
  | [] => (p, [])
  | op :: ops =>
      let s := runOp p op
      let t := runOps s.1 ops
      (t.1, s.2 ++ t.2)

/-- Number of `Connect` calls in a list of backend calls. -/
def connectCount (calls : List BackendCall) : Nat :=
  calls.countP (fun c => match c with | .connect _ _ => true | .close _ => false)

/-- Number of `Close` calls made on connection `c`. -/
def closeCount (calls : List BackendCall) (c : Connection) : Nat :=
  calls.count (BackendCall.close c)

/-! ## `encoding/base64`, as used by `jwt.go` and by the token library -/

/-- An `encoding/base64` encoding: its 64-character alphabet and whether it pads
with `=`. -/
structure Encoding where
  alphabet : Bytes
  padding : Bool

/-- The alphabet of `base64.StdEncoding`. -/
def encodeStd : Bytes :=
  ascii "ABCDEFGHIJKLMNOPQRSTUVWXYZabcdefghijklmnopqrstuvwxyz0123456789+/"

/-- The alphabet of `base64.URLEncoding`. -/
def encodeURL : Bytes :=
  ascii "ABCDEFGHIJKLMNOPQRSTUVWXYZabcdefghijklmnopqrstuvwxyz0123456789-_"

/-- The encoding `base64.StdEncoding` (padded). -/
def StdEncoding : Encoding := ⟨encodeStd, true⟩

/-- The encoding `base64.RawURLEncoding` (unpadded), used for token segments. -/
def RawURLEncoding : Encoding := ⟨encodeURL, false⟩

/-- The padding character `=`. -/
def padChar : Byte := 61

/-- Line feed and carriage return, which the decoder skips. -/
def isNewline (c : Byte) : Bool := c = 10 || c = 13

/-- Character of the alphabet for the 6-bit value `n`. -/
def Encoding.encodeChar (enc : Encoding) (n : Nat) : Byte := enc.alphabet.getD n 0

/-- The decode map: the 6-bit value of a character of the alphabet, `none` for any
other byte. -/
def Encoding.decodeChar (enc : Encoding) (c : Byte) : Option Nat :=
  let i := enc.alphabet.indexOf c
  if i < 64 then some i else none

/-- The method `EncodeToString`: three bytes give four characters, and a last group
of one or two bytes gives two or three characters, then padding if the encoding pads. -/
def Encoding.EncodeToString (enc : Encoding) : Bytes → Bytes
  | a :: b :: c :: rest =>
      enc.encodeChar (a.val / 4) :: enc.encodeChar (a.val % 4 * 16 + b.val / 16) ::
      enc.encodeChar (b.val % 16 * 4 + c.val / 64) :: enc.encodeChar (c.val % 64) ::
      Encoding.EncodeToString enc rest
  | [a, b] =>
      [enc.encodeChar (a.val / 4), enc.encodeChar (a.val % 4 * 16 + b.val / 16),
       enc.encodeChar (b.val % 16 * 4)] ++ (if enc.padding then [padChar] else [])
  | [a] =>
      [enc.encodeChar (a.val / 4), enc.encodeChar (a.val % 4 * 16)] ++
        (if enc.padding then [padChar, padChar] else [])
  | [] => []

/-- The quantum loop of `Decode` on input without newlines, non-strict mode: four
characters give three bytes; padding is accepted only in the last quantum of a padded
encoding, a short last quantum only in an unpadded one; unused low bits are ignored. -/
def Encoding.decodeQuanta (enc : Encoding) : Bytes → Option Bytes
  | [] => some []
  | [_] => none
  | [c0, c1] =>
      if enc.padding then none
      else do
        let d0 ← enc.decodeChar c0
        let d1 ← enc.decodeChar c1
        pure [byteOf (d0 * 4 + d1 / 16)]
  | [c0, c1, c2] =>
      if enc.padding then none
      else do
        let d0 ← enc.decodeChar c0
        let d1 ← enc.decodeChar c1
        let d2 ← enc.decodeChar c2
        pure [byteOf (d0 * 4 + d1 / 16), byteOf (d1 % 16 * 16 + d2 / 4)]
  | c0 :: c1 :: c2 :: c3 :: rest => do
      let d0 ← enc.decodeChar c0
      let d1 ← enc.decodeChar c1
      if enc.padding && c2 = padChar then
        if c3 = padChar && rest.isEmpty then pure [byteOf (d0 * 4 + d1 / 16)] else none
      else do
        let d2 ← enc.decodeChar c2
        if enc.padding && c3 = padChar then
          if rest.isEmpty then pure [byteOf (d0 * 4 + d1 / 16), byteOf (d1 % 16 * 16 + d2 / 4)]
          else none
        else do
          let d3 ← enc.decodeChar c3
          let tail ← Encoding.decodeQuanta enc rest
          pure (byteOf (d0 * 4 + d1 / 16) :: byteOf (d1 % 16 * 16 + d2 / 4) ::
            byteOf (d2 % 4 * 64 + d3) :: tail)

/-- The method `DecodeString`: newline characters are ignored; `none` stands for a
`CorruptInputError`. -/
def Encoding.DecodeString (enc : Encoding) (s : Bytes) : Option Bytes :=
  enc.decodeQuanta (s.filter (fun c => !isNewline c))

/-- The alphabet decodes each of its 64 characters to its index and contains none of
`=`, `.`, CR, LF. -/
def Encoding.WF (enc : Encoding) : Prop :=
  ∀ n : Fin 64, enc.decodeChar (enc.encodeChar n.val) = some n.val ∧
    enc.encodeChar n.val ≠ padChar ∧ enc.encodeChar n.val ≠ 46 ∧
    isNewline (enc.encodeChar n.val) = false

instance Encoding.decidableWF (enc : Encoding) : Decidable enc.WF := by
  unfold Encoding.WF; infer_instance

/-- The function `strings.Split(s, sep)` for a one-byte separator. -/
def splitOn (sep : Byte) : Bytes → List Bytes
  | [] => [[]]
  | c :: cs =>
      if c = sep then [] :: splitOn sep cs
      else
        match splitOn sep cs with
        | [] => [[c]]
        | h :: t => (c :: h) :: t

/-! ## Library primitives reached by `internal/auth/jwt.go` -/

/-- Hash functions of the HMAC signing methods. -/
inductive HashAlg where
  | SHA256 | SHA384 | SHA512
deriving DecidableEq, Repr

/-- The signing methods registered by `golang-jwt/jwt/v5`, by Go type. -/
inductive SigningMethod where
  | HMAC (h : HashAlg)
  | RSA (h : HashAlg)
  | RSAPSS (h : HashAlg)
  | ECDSA (h : HashAlg)
  | Ed25519
  | none
deriving DecidableEq, Repr

/-- The function `jwt.GetSigningMethod`: the method registered under an `alg` name. -/
def GetSigningMethod (alg : Bytes) : Option SigningMethod :=
  if alg = ascii "HS256" then some (.HMAC .SHA256)
  else if alg = ascii "HS384" then some (.HMAC .SHA384)
  else if alg = ascii "HS512" then some (.HMAC .SHA512)
  else if alg = ascii "RS256" then some (.RSA .SHA256)
  else if alg = ascii "RS384" then some (.RSA .SHA384)
  else if alg = ascii "RS512" then some (.RSA .SHA512)
  else if alg = ascii "PS256" then some (.RSAPSS .SHA256)
  else if alg = ascii "PS384" then some (.RSAPSS .SHA384)
  else if alg = ascii "PS512" then some (.RSAPSS .SHA512)
  else if alg = ascii "ES256" then some (.ECDSA .SHA256)
  else if alg = ascii "ES384" then some (.ECDSA .SHA384)
  else if alg = ascii "ES512" then some (.ECDSA .SHA512)
  else if alg = ascii "EdDSA" then some .Ed25519
  else if alg = ascii "none" then some .none
  else Option.none

/-- The struct `jwt.RegisteredClaims`; a `*NumericDate` is an optional time. -/
structure RegisteredClaims where
  Issuer : Bytes
  Subject : Bytes
  Audience : List Bytes
  ExpiresAt : Option Int
  NotBefore : Option Int
  IssuedAt : Option Int
  ID : Bytes
deriving DecidableEq, Repr

/-- The struct `JWTClaims` (`RegisteredClaims` is embedded). -/
structure JWTClaims where
  Username : Bytes
  EncryptedPassword : Bytes
  registered : RegisteredClaims
deriving DecidableEq, Repr

/-- The struct `JWTManager`. -/
structure JWTManager where
  secretKey : Bytes
  encryptionKey : Bytes
  issuer : Bytes
  expiry : Int
deriving DecidableEq, Repr

/-- The errors of `jwt.go` and of the libraries it calls. -/
inductive AuthError where
  | keySizeError (n : Nat)
  | randError
  | corruptInput
  | ciphertextTooShort
  | messageAuthenticationFailed
  | failedToEncryptPassword (cause : AuthError)
  | tokenMalformed
  | tokenUnverifiable
  | unexpectedSigningMethod
  | tokenSignatureInvalid
  | tokenInvalidClaims (expired notValidYet : Bool)
  | invalidToken
deriving DecidableEq, Repr

/-- The functions of `crypto/aes` with `crypto/cipher` (AES-GCM), `crypto/hmac` and
`encoding/json` that the code reaches; they are outside the repository and enter the
embedding as parameters.

* `gcmSeal key nonce plaintext additionalData` is `gcm.Seal(nil, ...)`: ciphertext
  followed by the tag;
* `gcmOpen key nonce ciphertext additionalData` is `gcm.Open(nil, ...)`, `none` when
  authentication fails;
* `hmac h key message` is the HMAC of `message` under `key` with hash `h`;
* `marshalHeader alg` is the JSON of the header with `typ` = `JWT` and `alg`;
* `headerAlg` decodes a JSON header and reads `Header["alg"].(string)`: `none` when
  the JSON is invalid, `some none` when there is no string `alg`;
* `marshalClaims`, `unmarshalClaims` are `json.Marshal` and `json.Unmarshal` on
  `JWTClaims`. -/
structure Primitives where
  gcmSeal : Bytes → Bytes → Bytes → Bytes → Bytes
  gcmOpen : Bytes → Bytes → Bytes → Bytes → Option Bytes
  hmac : HashAlg → Bytes → Bytes → Bytes
  marshalHeader : Bytes → Bytes
  headerAlg : Bytes → Option (Option Bytes)
  marshalClaims : JWTClaims → Bytes
  unmarshalClaims : Bytes → Option JWTClaims

/-- The key lengths `aes.NewCipher` accepts. -/
def validAESKeySize (n : Nat) : Bool := n = 16 || n = 24 || n = 32

/-- The value `gcm.NonceSize()` of the standard GCM. -/
def gcmNonceSize : Nat := 12

/-- The constructor `jwt.NewNumericDate`: the time truncated to `jwt.TimePrecision`,
one second (times and durations are in nanoseconds). -/
def NewNumericDate (t : Int) : Int := t - t % 1000000000

/-- The method `Token.SigningString`: the encoded header, a dot, the encoded claims. -/
def SigningString (lib : Primitives) (alg : Bytes) (claims : JWTClaims) : Bytes :=
  RawURLEncoding.EncodeToString (lib.marshalHeader alg) ++ [46] ++
    RawURLEncoding.EncodeToString (lib.marshalClaims claims)

/-- The method `Token.SignedString` for `jwt.SigningMethodHS256` and a `[]byte` key:
the signing string, a dot, the encoded HMAC-SHA256 of the signing string. -/
def SignedString (lib : Primitives) (claims : JWTClaims) (key : Bytes) : Bytes :=
  SigningString lib (ascii "HS256") claims ++ [46] ++
    RawURLEncoding.EncodeToString
      (lib.hmac .SHA256 key (SigningString lib (ascii "HS256") claims))

/-- The method `Verify` of a signing method, given a `[]byte` key: an HMAC method
compares the signature with the HMAC of the signing string; every other method
rejects a `[]byte` key. -/
def SigningMethod.Verify (lib : Primitives) (method : SigningMethod) (text sig key : Bytes) :
    Bool :=
  match method with
  | .HMAC h => decide (lib.hmac h key text = sig)
  | _ => false

/-- The default `jwt.Validator` (no parser option is passed): `exp`, when present,
must be after `now`; `nbf`, when present, must not be after `now`; issuer, audience,
subject and `iat` are not examined. -/
def validateClaims (claims : JWTClaims) (now : Int) : Except AuthError Unit :=
  let expired : Bool :=
    match claims.registered.ExpiresAt with
    | some exp => !decide (now < exp)
    | Option.none => false
  let notValidYet : Bool :=
    match claims.registered.NotBefore with
    | some nbf => decide (now < nbf)
    | Option.none => false
  if expired || notValidYet then .error (.tokenInvalidClaims expired notValidYet) else .ok ()

/-- The function `jwt.ParseWithClaims(tokenString, &JWTClaims{}, keyFunc)` with the
default parser, at clock reading `now`: the claims of the token when `token.Valid` is
set, an error otherwise. -/
def ParseWithClaims (lib : Primitives) (tokenString : Bytes)
    (keyFunc : SigningMethod → Except AuthError Bytes) (now : Int) :
    Except AuthError JWTClaims :=
  match splitOn 46 tokenString with
  | [seg0, seg1, seg2] =>
    match RawURLEncoding.DecodeString seg0 with
    | Option.none => .error .tokenMalformed
    | some headerBytes =>
    match lib.headerAlg headerBytes with
    | Option.none => .error .tokenMalformed
    | some alg? =>
    match RawURLEncoding.DecodeString seg1 with
    | Option.none => .error .tokenMalformed
    | some claimBytes =>
    match lib.unmarshalClaims claimBytes with
    | Option.none => .error .tokenMalformed
    | some claims =>
    match alg?.bind GetSigningMethod with
    | Option.none => .error .tokenUnverifiable
    | some method =>
    match RawURLEncoding.DecodeString seg2 with
    | Option.none => .error .tokenMalformed
    | some sig =>
    match keyFunc method with
    | .error _ => .error .tokenUnverifiable
    | .ok key =>
    if method.Verify lib (seg0 ++ [46] ++ seg1) sig key then
      match validateClaims claims now with
      | .error e => .error e
      | .ok _ => .ok claims
    else .error .tokenSignatureInvalid
  | _ => .error .tokenMalformed

/-! ## `internal/auth/jwt.go` -/

/-- The function `NewJWTManager`. -/
def NewJWTManager (secretKey encryptionKey issuer : Bytes) (expiry : Int) : JWTManager :=
  { secretKey := secretKey, encryptionKey := encryptionKey, issuer := issuer, expiry := expiry }

/-- The method `encrypt`; `randRead` is the content `rand.Read` gives the nonce buffer,
`none` when `rand.Read` fails. -/
def JWTManager.encrypt (lib : Primitives) (m : JWTManager) (plaintext : Bytes)
    (randRead : Option Bytes) : Except AuthError Bytes :=
  -- block, err := aes.NewCipher(m.encryptionKey); gcm, err := cipher.NewGCM(block)
  if validAESKeySize m.encryptionKey.length then
    match randRead with
    | Option.none => .error .randError
    | some nonce =>
      -- ciphertext := gcm.Seal(nonce, nonce, []byte(plaintext), nil)
      let ciphertext := nonce ++ lib.gcmSeal m.encryptionKey nonce plaintext []
      .ok (StdEncoding.EncodeToString ciphertext)
  else .error (.keySizeError m.encryptionKey.length)

/-- The method `decrypt`. -/
def JWTManager.decrypt (lib : Primitives) (m : JWTManager) (ciphertext : Bytes) :
    Except AuthError Bytes :=
  match StdEncoding.DecodeString ciphertext with
  | Option.none => .error .corruptInput
  | some data =>
    if validAESKeySize m.encryptionKey.length then
      if data.length < gcmNonceSize then .error .ciphertextTooShort
      else
        match lib.gcmOpen m.encryptionKey (data.take gcmNonceSize) (data.drop gcmNonceSize) [] with
        | Option.none => .error .messageAuthenticationFailed
        | some plaintext => .ok plaintext
    else .error (.keySizeError m.encryptionKey.length)

/-- The method `DecryptPassword`. -/
def JWTManager.DecryptPassword (lib : Primitives) (m : JWTManager) (encryptedPassword : Bytes) :
    Except AuthError Bytes :=
  m.decrypt lib encryptedPassword

/-- The claims `Generate` builds; `nowExp` and `nowIat` are its two readings of
`time.Now()`. -/
def JWTManager.newClaims (m : JWTManager) (username encryptedPassword : Bytes)
    (nowExp nowIat : Int) : JWTClaims :=
  { Username := username,
    EncryptedPassword := encryptedPassword,
    registered :=
      { Issuer := m.issuer, Subject := [], Audience := [],
        ExpiresAt := some (NewNumericDate (nowExp + m.expiry)),
        NotBefore := Option.none,
        IssuedAt := some (NewNumericDate nowIat), ID := [] } }

/-- The method `Generate` (signing with HS256 and a `[]byte` key does not fail). -/
def JWTManager.Generate (lib : Primitives) (m : JWTManager) (username password : Bytes)
    (randRead : Option Bytes) (nowExp nowIat : Int) : Except AuthError Bytes :=
  match m.encrypt lib password randRead with
  | .error err => .error (.failedToEncryptPassword err)
  | .ok encryptedPassword =>
    .ok (SignedString lib (m.newClaims username encryptedPassword nowExp nowIat) m.secretKey)

/-- The key function `Validate` passes to the parser. -/
def JWTManager.keyFunc (m : JWTManager) (method : SigningMethod) : Except AuthError Bytes :=
  match method with
  | .HMAC _ => .ok m.secretKey
  | _ => .error .unexpectedSigningMethod

/-- The method `Validate`, at clock reading `now`. When the parser returns no error
it has set `token.Valid` and the claims are the `*JWTClaims` passed in, so the
`invalid token` branch is not taken. -/
def JWTManager.Validate (lib : Primitives) (m : JWTManager) (tokenString : Bytes) (now : Int) :
    Except AuthError JWTClaims :=
  match ParseWithClaims lib tokenString m.keyFunc now with
  | .error err => .error err
  | .ok claims => .ok claims

/-! ## A small instance of the library primitives

The primitives above are parameters of the embedding. `refPrimitives` is an instance
built from simple functions (a keyed checksum in place of HMAC and of the GCM tag, a
byte shift in place of the cipher, comma-separated fields in place of JSON); it is
used to run the embedding on concrete inputs. -/

/-- A keyed checksum of two bytes. -/
def refMac (key message : Bytes) : Bytes :=
  let s := (key ++ 0 :: message).foldl (fun acc b => (acc * 31 + b.val + 7) % 65521) 1
  [byteOf (s / 256), byteOf s]

/-- Seal: every byte shifted by the first key byte, then the checksum of the result. -/
def refSeal (key nonce plaintext additionalData : Bytes) : Bytes :=
  let ct := plaintext.map (fun b => b + key.headD 0)
  ct ++ refMac (key ++ nonce) (ct ++ additionalData)

/-- Open: check the two-byte checksum, then shift back. -/
def refOpen (key nonce ciphertext additionalData : Bytes) : Option Bytes :=
  if ciphertext.length < 2 then Option.none
  else
    let ct := ciphertext.take (ciphertext.length - 2)
    let tag := ciphertext.drop (ciphertext.length - 2)
    if tag = refMac (key ++ nonce) (ct ++ additionalData) then
      some (ct.map (fun b => b - key.headD 0))
    else Option.none

/-- A whole number of seconds in decimal. -/
def refEncodeNat (n : Nat) : Bytes := (Nat.toDigits 10 n).map (fun c => byteOf c.toNat)

/-- Read a decimal number. -/
def refDecodeNat (bs : Bytes) : Option Nat :=
  if bs.isEmpty then Option.none
  else bs.foldl (fun acc b =>
    match acc with
    | some n => if 48 ≤ b.val ∧ b.val ≤ 57 then some (n * 10 + (b.val - 48)) else Option.none
    | Option.none => Option.none) (some 0)

/-- A numeric date as seconds: empty when absent, with a minus sign before 1970. -/
def refEncodeTime : Option Int → Bytes
  | Option.none => []
  | some t =>
    if 0 ≤ t then refEncodeNat (t / 1000000000).toNat
    else 45 :: refEncodeNat (-(t / 1000000000)).toNat

/-- Read a numeric date written by `refEncodeTime`. -/
def refDecodeTime : Bytes → Option (Option Int)
  | [] => some Option.none
  | c :: cs =>
    if c = 45 then (refDecodeNat cs).map (fun n => some (-(n : Int) * 1000000000))
    else (refDecodeNat (c :: cs)).map (fun n => some ((n : Int) * 1000000000))

/-- Claims as nine comma-separated fields, texts in base64url, each audience entry
after a semicolon. -/
def refMarshalClaims (c : JWTClaims) : Bytes :=
  RawURLEncoding.EncodeToString c.Username ++ [44] ++
  RawURLEncoding.EncodeToString c.EncryptedPassword ++ [44] ++
  RawURLEncoding.EncodeToString c.registered.Issuer ++ [44] ++
  RawURLEncoding.EncodeToString c.registered.Subject ++ [44] ++
  (c.registered.Audience.map (fun a => 59 :: RawURLEncoding.EncodeToString a)).flatten ++ [44] ++
  refEncodeTime c.registered.ExpiresAt ++ [44] ++
  refEncodeTime c.registered.NotBefore ++ [44] ++
  refEncodeTime c.registered.IssuedAt ++ [44] ++
  RawURLEncoding.EncodeToString c.registered.ID

/-- Read the audience entries. -/
def refDecodeAudience (bs : Bytes) : Option (List Bytes) :=
  match splitOn 59 bs with
  | [] :: entries => entries.mapM RawURLEncoding.DecodeString
  | _ => Option.none

/-- Read claims written by `refMarshalClaims`. -/
def refUnmarshalClaims (bs : Bytes) : Option JWTClaims :=
  match splitOn 44 bs with
  | [f0, f1, f2, f3, f4, f5, f6, f7, f8] => do
    let username ← RawURLEncoding.DecodeString f0
    let encryptedPassword ← RawURLEncoding.DecodeString f1
    let issuer ← RawURLEncoding.DecodeString f2
    let subject ← RawURLEncoding.DecodeString f3
    let audience ← refDecodeAudience f4
    let expiresAt ← refDecodeTime f5
    let notBefore ← refDecodeTime f6
    let issuedAt ← refDecodeTime f7
    let id ← RawURLEncoding.DecodeString f8
    pure { Username := username, EncryptedPassword := encryptedPassword,
           registered := { Issuer := issuer, Subject := subject, Audience := audience,
                           ExpiresAt := expiresAt, NotBefore := notBefore,
                           IssuedAt := issuedAt, ID := id } }
  | _ => Option.none

/-- The instance: the header is written as its bare `alg` name. -/
def refPrimitives : Primitives :=
  { gcmSeal := refSeal,
    gcmOpen := refOpen,
    hmac := fun h key message =>
      refMac key ((match h with | .SHA256 => 1 | .SHA384 => 2 | .SHA512 => 3) :: message),
    marshalHeader := fun alg => alg,
    headerAlg := fun bs => some (some bs),
    marshalClaims := refMarshalClaims,
    unmarshalClaims := refUnmarshalClaims }

/-- A manager with a 32-byte encryption key, issuer `photosync` and a lifetime of one
second, for the concrete runs. -/
def demoManager : JWTManager :=
  NewJWTManager (ascii "signing-secret") (ascii "0123456789abcdef0123456789abcdef")
    (ascii "photosync") 1000000000

/-- The same keys and lifetime under another issuer name. -/
def otherIssuerManager : JWTManager :=
  NewJWTManager (ascii "signing-secret") (ascii "0123456789abcdef0123456789abcdef")
    (ascii "elsewhere") 1000000000

/-- Twelve bytes for the nonce. -/
def demoNonce : Bytes := ascii "abcdefghijkl"

/-- The encrypted password `encrypt` writes for a password and a nonce when the key is
accepted: the base64 of the nonce followed by the sealed password. -/
def JWTManager.sealed (lib : Primitives) (m : JWTManager) (password nonce : Bytes) : Bytes :=
  StdEncoding.EncodeToString (nonce ++ lib.gcmSeal m.encryptionKey nonce password [])

/-- The staleness test of the sweep, `now.Sub(conn.lastUsed) > p.ttl`. -/
def sweepStale (ttl now : Int) (kv : Bytes × PooledGenericConnection) : Bool :=
  decide (now - kv.2.lastUsed > ttl)

/-- The keys of the map are pairwise distinct, as in a Go map. -/
def keysNodup (m : List (Bytes × PooledGenericConnection)) : Prop :=
  (m.map (fun kv => kv.1)).Nodup

/-- The backend calls `GetConnection` makes before `Connect` on its slow path:
one `Close` on the connection of the entry found, none when there is no entry. -/
def staleCloses (p : GenericConnectionPool) (u : Bytes) : List BackendCall :=
  match mapGet p.connections u with
  | some conn => [BackendCall.close conn.connection]
  | none => []

/-- The operation is a `GetConnection` call whose clock reading lies in `[t1, t2]`
(so neither a sweep pass nor a pool `Close`). -/
def PoolOp.isGetWithin (t1 t2 : Int) : PoolOp → Bool
  | .getConnection _ _ now _ => decide (t1 ≤ now ∧ now ≤ t2)
  | .sweep _ => false
  | .close => false

/-- The byte `b` with bit `k` (0 the least significant) inverted. -/
def flipByte (b : Byte) (k : Nat) : Byte := byteOf (b.val ^^^ 2 ^ k)

/-- The string `s` with bit `i` inverted: bit `i % 8` of byte `i / 8`. -/
def flipBit : Bytes → Nat → Bytes
  | [], _ => []
  | b :: bs, i => if i < 8 then flipByte b i :: bs else b :: flipBit bs (i - 8)

/-- The token `demoManager` generates for `alice` at 0.5 s. -/
def demoToken : Bytes :=
  SignedString refPrimitives
    (demoManager.newClaims (ascii "alice")
      (demoManager.sealed refPrimitives (ascii "hunter2") demoNonce) 500000000 500000000)
    demoManager.secretKey

/-! ## `internal/api/middleware.go` -/

/-- The struct `models.FileInfo` (`ModTime` in nanoseconds). -/
structure FileInfo where
  Name : Bytes
  Size : Int
  ModTime : Int
deriving DecidableEq, Repr

/-- What a handler writes to the `http.ResponseWriter`: the text of `http.Error`, the
JSON of a list of files, of one file or of an upload response, raw data, or nothing. -/
inductive Body where
  | text (msg : Bytes)
  | fileList (files : List FileInfo)
  | fileInfo (file : FileInfo)
  | uploaded (message filename : Bytes)
  | raw (data : Bytes)
  | empty
deriving DecidableEq, Repr

/-- An HTTP response: status code and body. -/
structure Response where
  status : Nat
  body : Body
deriving DecidableEq, Repr

/-- The function `http.Error(w, msg, code)`: the status `code` and the plain-text body
`msg` (written with a final newline). -/
def httpError (msg : String) (code : Nat) : Response :=
  { status := code, body := Body.text (ascii msg ++ [10]) }

/-- The constant `http.StatusUnauthorized`. -/
def StatusUnauthorized : Nat := 401

/-- What the handler returned by `JWTMiddleware` does with a request: it answers
itself, or it calls `next.ServeHTTP` with the context value `claims`. -/
inductive MiddlewareOutcome where
  | respond (r : Response)
  | next (claims : JWTClaims)
deriving DecidableEq, Repr

/-- The function `JWTMiddleware`, applied to a request whose `Authorization` header
is `authHeader` (empty when the header is absent), at clock reading `now`. -/
def JWTMiddleware (lib : Primitives) (jwtManager : JWTManager) (authHeader : Bytes) (now : Int) :
    MiddlewareOutcome :=
  if authHeader = [] then
    .respond (httpError "missing authorization header" StatusUnauthorized)
  else
    -- parts := strings.Split(authHeader, " ")
    let parts := splitOn 32 authHeader
    if parts.length ≠ 2 ∨ parts.getD 0 [] ≠ ascii "Bearer" then
      .respond (httpError "invalid authorization header" StatusUnauthorized)
    else
      let token := parts.getD 1 []
      match jwtManager.Validate lib token now with
      | .error _ => .respond (httpError "invalid token" StatusUnauthorized)
      | .ok claims => .next claims

/-! ## `internal/api/photos.go` -/

/-- The struct `PhotoHandler`; its `backend` is an interface value, whose replies are
an input of each handler. -/
structure PhotoHandler where
  pool : GenericConnectionPool
  jwtManager : JWTManager

/-- What the storage backend returns to the calls one request may make on it:
`Connect` (reached through the pool), `List`, `Upload`, `Download`, `Delete`. For
`Upload` and `Delete`, `none` is the `nil` error. -/
structure BackendReplies where
  connect : Except String Connection
  list : Except String (List FileInfo)
  upload : Option String
  download : Except String Bytes
  delete : Option String

/-- A call a photo handler makes on the pool or on the backend; `backend` wraps the
`Connect` and `Close` calls the pool makes inside `GetConnection`. -/
inductive HandlerCall where
  | getConnection (username password : Bytes)
  | backend (call : BackendCall)
  | list (conn : Connection) (username : Bytes)
  | upload (conn : Connection) (username filename data : Bytes)
  | download (conn : Connection) (username filename : Bytes)
  | delete (conn : Connection) (username filename : Bytes)
deriving DecidableEq, Repr

/-- Outcome of a photo handler: the response written, the pool afterwards and the
calls made on pool and backend, in order. -/
structure HandlerResult where
  response : Response
  pool : GenericConnectionPool
  calls : List HandlerCall
deriving DecidableEq, Repr

/-- The calls of `h.pool.GetConnection(username, password)`: the call itself, then the
backend calls the pool made. -/
def poolCalls (username password : Bytes) (g : Step (Except String Connection)) :
    List HandlerCall :=
  HandlerCall.getConnection username password :: g.calls.map HandlerCall.backend

/-- The handler `ListPhotos`; `claims` is the context value set by the middleware. -/
def PhotoHandler.ListPhotos (lib : Primitives) (h : PhotoHandler) (claims : JWTClaims)
    (now : Int) (env : BackendReplies) : HandlerResult :=
  match h.jwtManager.DecryptPassword lib claims.EncryptedPassword with
  | .error _ => ⟨httpError "authentication error" StatusUnauthorized, h.pool, []⟩
  | .ok password =>
    let g := GetConnection h.pool claims.Username password now env.connect
    match g.result with
    | .error _ =>
      ⟨httpError "failed to connect to storage" 500, g.pool, poolCalls claims.Username password g⟩
    | .ok conn =>
      match env.list with
      | .error _ =>
        ⟨httpError "failed to list photos" 500, g.pool,
          poolCalls claims.Username password g ++ [.list conn claims.Username]⟩
      | .ok files =>
        ⟨⟨200, .fileList files⟩, g.pool,
          poolCalls claims.Username password g ++ [.list conn claims.Username]⟩

/-- The handler `UploadPhoto`; `parseForm` is the error of `r.ParseMultipartForm`
(`none` for `nil`) and `formFile` the result of `r.FormFile("photo")`: the file name
and the content. -/
def PhotoHandler.UploadPhoto (lib : Primitives) (h : PhotoHandler) (claims : JWTClaims)
    (parseForm : Option String) (formFile : Except String (Bytes × Bytes))
    (now : Int) (env : BackendReplies) : HandlerResult :=
  match parseForm with
  | some _ => ⟨httpError "failed to parse form" 400, h.pool, []⟩
  | Option.none =>
  match formFile with
  | .error _ => ⟨httpError "no photo provided" 400, h.pool, []⟩
  | .ok (filename, data) =>
  match h.jwtManager.DecryptPassword lib claims.EncryptedPassword with
  | .error _ => ⟨httpError "authentication error" StatusUnauthorized, h.pool, []⟩
  | .ok password =>
    let g := GetConnection h.pool claims.Username password now env.connect
    match g.result with
    | .error _ =>
      ⟨httpError "failed to connect to storage" 500, g.pool, poolCalls claims.Username password g⟩
    | .ok conn =>
      match env.upload with
      | some _ =>
        ⟨httpError "failed to upload photo" 500, g.pool,
          poolCalls claims.Username password g ++ [.upload conn claims.Username filename data]⟩
      | Option.none =>
        ⟨⟨201, .uploaded (ascii "photo uploaded successfully") filename⟩, g.pool,
          poolCalls claims.Username password g ++ [.upload conn claims.Username filename data]⟩

/-- The handler `DownloadPhoto`; `photoID` is `chi.URLParam(r, "id")`. -/
def PhotoHandler.DownloadPhoto (lib : Primitives) (h : PhotoHandler) (claims : JWTClaims)
    (photoID : Bytes) (now : Int) (env : BackendReplies) : HandlerResult :=
  match h.jwtManager.DecryptPassword lib claims.EncryptedPassword with
  | .error _ => ⟨httpError "authentication error" StatusUnauthorized, h.pool, []⟩
  | .ok password =>
    let g := GetConnection h.pool claims.Username password now env.connect
    match g.result with
    | .error _ =>
      ⟨httpError "failed to connect to storage" 500, g.pool, poolCalls claims.Username password g⟩
    | .ok conn =>
      match env.download with
      | .error _ =>
        ⟨httpError "photo not found" 404, g.pool,
          poolCalls claims.Username password g ++ [.download conn claims.Username photoID]⟩
      | .ok data =>
        ⟨⟨200, .raw data⟩, g.pool,
          poolCalls claims.Username password g ++ [.download conn claims.Username photoID]⟩

/-- The handler `DeletePhoto`. -/
def PhotoHandler.DeletePhoto (lib : Primitives) (h : PhotoHandler) (claims : JWTClaims)
    (photoID : Bytes) (now : Int) (env : BackendReplies) : HandlerResult :=
  match h.jwtManager.DecryptPassword lib claims.EncryptedPassword with
  | .error _ => ⟨httpError "authentication error" StatusUnauthorized, h.pool, []⟩
  | .ok password =>
    let g := GetConnection h.pool claims.Username password now env.connect
    match g.result with
    | .error _ =>
      ⟨httpError "failed to connect to storage" 500, g.pool, poolCalls claims.Username password g⟩
    | .ok conn =>
      match env.delete with
      | some _ =>
        ⟨httpError "failed to delete photo" 500, g.pool,
          poolCalls claims.Username password g ++ [.delete conn claims.Username photoID]⟩
      | Option.none =>
        ⟨⟨204, .empty⟩, g.pool,
          poolCalls claims.Username password g ++ [.delete conn claims.Username photoID]⟩

/-- The handler `GetPhotoInfo`. -/
def PhotoHandler.GetPhotoInfo (lib : Primitives) (h : PhotoHandler) (claims : JWTClaims)
    (photoID : Bytes) (now : Int) (env : BackendReplies) : HandlerResult :=
  match h.jwtManager.DecryptPassword lib claims.EncryptedPassword with
  | .error _ => ⟨httpError "authentication error" StatusUnauthorized, h.pool, []⟩
  | .ok password =>
    let g := GetConnection h.pool claims.Username password now env.connect
    match g.result with
    | .error _ =>
      ⟨httpError "failed to connect to storage" 500, g.pool, poolCalls claims.Username password g⟩
    | .ok conn =>
      match env.list with
      | .error _ =>
        ⟨httpError "failed to get photo info" 500, g.pool,
          poolCalls claims.Username password g ++ [.list conn claims.Username]⟩
      | .ok files =>
        match files.find? (fun file => decide (file.Name = photoID)) with
        | some file =>
          ⟨⟨200, .fileInfo file⟩, g.pool,
            poolCalls claims.Username password g ++ [.list conn claims.Username]⟩
        | Option.none =>
          ⟨httpError "photo not found" 404, g.pool,
            poolCalls claims.Username password g ++ [.list conn claims.Username]⟩

/-- The handler `GetThumbnail`. -/
def PhotoHandler.GetThumbnail (lib : Primitives) (h : PhotoHandler) (claims : JWTClaims)
    (photoID : Bytes) (now : Int) (env : BackendReplies) : HandlerResult :=
  h.DownloadPhoto lib claims photoID now env

/-! ## `internal/config/config.go` -/

/-- The struct `AuthConfig` (`Type_` is its field `Type`). -/
structure AuthConfig where
  Type_ : Bytes
deriving DecidableEq, Repr

/-- The struct `StorageConfig` (`Type_` is its field `Type`). -/
structure StorageConfig where
  Type_ : Bytes
deriving DecidableEq, Repr

/-- The struct `TLSConfig`. -/
structure TLSConfig where
  CertFile : Bytes
  KeyFile : Bytes
deriving DecidableEq, Repr

/-- The struct `ServerConfig`. -/
structure ServerConfig where
  Host : Bytes
  Port : Bytes
  TLS : TLSConfig
deriving DecidableEq, Repr

/-- The struct `LDAPConfig`. -/
structure LDAPConfig where
  Server : Bytes
  BaseDN : Bytes
  BindDN : Bytes
  BindPass : Bytes
  UserFilter : Bytes
deriving DecidableEq, Repr

/-- The struct `LDAPGenericConfig`. -/
structure LDAPGenericConfig where
  Server : Bytes
  BaseDN : Bytes
  BindDN : Bytes
  BindPass : Bytes
  UserFilter : Bytes
  UserDNPattern : Bytes
deriving DecidableEq, Repr

/-- The struct `LocalAuthConfig`. -/
structure LocalAuthConfig where
  UsersFile : Bytes
deriving DecidableEq, Repr

/-- The struct `OAuth2Config`. -/
structure OAuth2Config where
  Provider : Bytes
  ClientID : Bytes
  ClientSecret : Bytes
  RedirectURL : Bytes
deriving DecidableEq, Repr

/-- The struct `SMBConfig`. -/
structure SMBConfig where
  Server : Bytes
  Port : Int
  Share : Bytes
  Path : Bytes
  Domain : Bytes
deriving DecidableEq, Repr

/-- The struct `S3Config`. -/
structure S3Config where
  Endpoint : Bytes
  Region : Bytes
  Bucket : Bytes
  AccessKey : Bytes
  SecretKey : Bytes
  PathPrefix : Bytes
  UseSSL : Bool
deriving DecidableEq, Repr

/-- The struct `NFSConfig`. -/
structure NFSConfig where
  Server : Bytes
  Export : Bytes
  Path : Bytes
deriving DecidableEq, Repr

/-- The struct `JWTConfig`. -/
structure JWTConfig where
  SecretKey : Bytes
  EncryptionKey : Bytes
  Issuer : Bytes
  Expiry : Bytes
deriving DecidableEq, Repr

/-- The struct `PoolConfig`. -/
structure PoolConfig where
  ConnectionTTL : Bytes
deriving DecidableEq, Repr

/-- The struct `LoggingConfig`. -/
structure LoggingConfig where
  Level : Bytes
deriving DecidableEq, Repr

/-- The struct `Config`. -/
structure Config where
  Server : ServerConfig
  Auth : AuthConfig
  Storage : StorageConfig
  LDAP : LDAPConfig
  LDAPGeneric : LDAPGenericConfig
  LocalAuth : LocalAuthConfig
  OAuth2 : OAuth2Config
  SMB : SMBConfig
  S3 : S3Config
  NFS : NFSConfig
  JWT : JWTConfig
  Pool : PoolConfig
  Logging : LoggingConfig
deriving DecidableEq, Repr

/-- The slice expression `s[lo:hi]`: `none` is the run-time panic for bounds out of
range. -/
def goSlice (s : Bytes) (lo hi : Nat) : Option Bytes :=
  if lo ≤ hi ∧ hi ≤ s.length then some ((s.drop lo).take (hi - lo)) else Option.none

/-- The loop of `containsSubstring` from index `i`, with `fuel` bounding the number of
iterations; `none` is a panic of the slice expression (or exhausted fuel). -/
def containsSubstringLoop (s substr : Bytes) : Nat → Nat → Option Bool
  | 0, _ => Option.none
  | fuel + 1, i =>
    -- i <= len(s)-len(substr), in `int`
    if (i : Int) ≤ (s.length : Int) - (substr.length : Int) then
      match goSlice s i (i + substr.length) with
      | Option.none => Option.none
      | some w => if w = substr then some true else containsSubstringLoop s substr fuel (i + 1)
    else some false

/-- The function `containsSubstring`: the loop runs at most `len(s) + 1` times. -/
def containsSubstring (s substr : Bytes) : Option Bool :=
  containsSubstringLoop s substr (s.length + 2) 0

/-- The slice `placeholders` of `containsPlaceholder`. -/
def placeholders : List Bytes :=
  [ascii "CHANGE_ME", ascii "YOUR_VALUE_HERE", ascii "REQUIRED", ascii "PLACEHOLDER",
   ascii "CHANGEME"]

/-- The `range placeholders` loop of `containsPlaceholder`, with the short-circuit
evaluation of its condition. -/
def containsPlaceholderLoop (s : Bytes) : List Bytes → Option Bool
  | [] => some false
  | p :: ps =>
    let cond : Option Bool :=
      if s.length > 0 then
        if s = p then some true
        else if s.length > p.length then containsSubstring s p
        else some false
      else some false
    match cond with
    | Option.none => Option.none
    | some true => some true
    | some false => containsPlaceholderLoop s ps

/-- The function `containsPlaceholder`. -/
def containsPlaceholder (s : Bytes) : Option Bool :=
  containsPlaceholderLoop s placeholders

/-- The condition `s == "" || containsPlaceholder(s)`. -/
def emptyOrPlaceholder (s : Bytes) : Option Bool :=
  if s = [] then some true else containsPlaceholder s

/-- The method `validateJWT`: `some none` is the `nil` error, `some (some msg)` an
error, `none` a panic. -/
def Config.validateJWT (c : Config) : Option (Option String) :=
  match emptyOrPlaceholder c.JWT.SecretKey with
  | Option.none => Option.none
  | some true => some (some "jwt secret_key must be set (no placeholders allowed)")
  | some false =>
    match emptyOrPlaceholder c.JWT.EncryptionKey with
    | Option.none => Option.none
    | some true => some (some "jwt encryption_key must be set (no placeholders allowed)")
    | some false =>
      if c.JWT.EncryptionKey.length ≠ 32 then
        some (some "jwt encryption_key must be exactly 32 bytes")
      else some Option.none

/-- The method `validateAuth`. -/
def Config.validateAuth (c : Config) (authType : Bytes) : Option (Option String) :=
  if authType = ascii "active_directory" then
    if c.LDAP.Server = [] then some (some "ldap server is required for active_directory auth")
    else if c.LDAP.BaseDN = [] then
      some (some "ldap base_dn is required for active_directory auth")
    else some Option.none
  else if authType = ascii "ldap" then
    if c.LDAPGeneric.Server = [] then some (some "ldap_generic server is required for ldap auth")
    else if c.LDAPGeneric.BaseDN = [] then
      some (some "ldap_generic base_dn is required for ldap auth")
    else some Option.none
  else if authType = ascii "local" then
    if c.LocalAuth.UsersFile = [] then
      some (some "local_auth users_file is required for local auth")
    else some Option.none
  else if authType = ascii "oauth2" then
    if c.OAuth2.Provider = [] then some (some "oauth2 provider is required for oauth2 auth")
    else
      match emptyOrPlaceholder c.OAuth2.ClientID with
      | Option.none => Option.none
      | some true => some (some "oauth2 client_id must be set (no placeholders)")
      | some false =>
        match emptyOrPlaceholder c.OAuth2.ClientSecret with
        | Option.none => Option.none
        | some true => some (some "oauth2 client_secret must be set (no placeholders)")
        | some false => some Option.none
  else some Option.none

/-- The method `validateStorage`. -/
def Config.validateStorage (c : Config) (storageType : Bytes) : Option (Option String) :=
  if storageType = ascii "smb" then
    if c.SMB.Server = [] then some (some "smb server is required for smb storage")
    else if c.SMB.Share = [] then some (some "smb share is required for smb storage")
    else some Option.none
  else if storageType = ascii "s3" then
    if c.S3.Bucket = [] then some (some "s3 bucket is required for s3 storage")
    else
      match containsPlaceholder c.S3.AccessKey with
      | Option.none => Option.none
      | some true => some (some "s3 access_key and secret_key must be set (no placeholders)")
      | some false =>
        match containsPlaceholder c.S3.SecretKey with
        | Option.none => Option.none
        | some true => some (some "s3 access_key and secret_key must be set (no placeholders)")
        | some false => some Option.none
  else if storageType = ascii "nfs" then
    if c.NFS.Server = [] then some (some "nfs server is required for nfs storage")
    else if c.NFS.Export = [] then some (some "nfs export is required for nfs storage")
    else some Option.none
  else some Option.none

/-- The method `Validate`: `some none` is the `nil` error, `some (some msg)` an error,
`none` a panic. -/
def Config.Validate (c : Config) : Option (Option String) :=
  if c.Server.Host = [] then some (some "server host is required")
  else if c.Server.Port = [] then some (some "server port is required")
  else
    match c.validateJWT with
    | Option.none => Option.none
    | some (some err) => some (some err)
    | some Option.none =>
      let authType := if c.Auth.Type_ = [] then ascii "active_directory" else c.Auth.Type_
      match c.validateAuth authType with
      | Option.none => Option.none
      | some (some err) => some (some err)
      | some Option.none =>
        let storageType := if c.Storage.Type_ = [] then ascii "smb" else c.Storage.Type_
        match c.validateStorage storageType with
        | Option.none => Option.none
        | some (some err) => some (some err)
        | some Option.none => some Option.none

/-- The manager `main` builds from a loaded configuration and the parsed expiry. -/
def Config.jwtManager (c : Config) (jwtExpiry : Int) : JWTManager :=
  NewJWTManager c.JWT.SecretKey c.JWT.EncryptionKey c.JWT.Issuer jwtExpiry

/-- A configuration that `Validate` accepts, for the concrete runs. -/
def demoConfig : Config :=
  { Server := ⟨ascii "0.0.0.0", ascii "8443", ⟨[], []⟩⟩,
    Auth := ⟨ascii "local"⟩,
    Storage := ⟨ascii "s3"⟩,
    LDAP := ⟨[], [], [], [], []⟩,
    LDAPGeneric := ⟨[], [], [], [], [], []⟩,
    LocalAuth := ⟨ascii "users.yaml"⟩,
    OAuth2 := ⟨[], [], [], []⟩,
    SMB := ⟨ascii "files.example", 445, ascii "photos", [], ascii "CORP"⟩,
    S3 := ⟨[], ascii "eu-west-1", ascii "photos", ascii "AKIAEXAMPLE", ascii "s3-secret", [], true⟩,
    NFS := ⟨ascii "nfs.example", ascii "/export/photos", []⟩,
    JWT := ⟨ascii "signing-secret", ascii "0123456789abcdef0123456789abcdef",
            ascii "photosync", ascii "1s"⟩,
    Pool := ⟨ascii "5m"⟩,
    Logging := ⟨ascii "info"⟩ }

/-! ## `internal/storage/smb_backend.go`, `s3.go`, `nfs.go`: `Connect` and `Close` -/

/-- The struct `SMBConnection`; the session and the share are handles of the SMB
library. -/
structure SMBConnection where
  session : Nat
  share : Nat
  username : Bytes
deriving DecidableEq, Repr

/-- The struct `S3Connection`. -/
structure S3Connection where
  username : Bytes
deriving DecidableEq, Repr

/-- The struct `NFSConnection`; the mount is a handle of the NFS library. -/
structure NFSConnection where
  mount : Nat
  username : Bytes
deriving DecidableEq, Repr

/-- A value of the interface type `Connection` as the backends see it: `nil`, or a
pointer to the connection struct of one backend. -/
inductive ConnectionValue where
  | nil
  | smb (c : SMBConnection)
  | s3 (c : S3Connection)
  | nfs (c : NFSConnection)
deriving DecidableEq, Repr

/-- A call a backend makes towards the remote system, with the identity it presents:
`net.Dial`, the SMB session setup of `smb2.Dialer.Dial` with its NTLM initiator,
`Session.Mount`, `Session.Logoff`, closing the TCP connection, `nfs.DialMount`,
`Mount` with its `AUTH_UNIX` credential, and `Target.Close`. -/
inductive RemoteCall where
  | tcpDial (server : Bytes) (port : Int)
  | tcpClose
  | smbSessionSetup (user password domain : Bytes)
  | smbMount (session : Nat) (share : Bytes)
  | smbLogoff (session : Nat)
  | nfsDialMount (server : Bytes)
  | nfsMount (exportPath machineName : Bytes) (uid gid : Nat)
  | nfsClose (mount : Nat)
deriving DecidableEq, Repr

/-- What the SMB server and library answer: the error of `net.Dial` (`none` for
`nil`), the answer to a session setup as a function of user, password and domain,
the answer to `Mount`, and the error of `Logoff`. -/
structure SMBRemote where
  dial : Option String
  session : Bytes → Bytes → Bytes → Except String Nat
  mount : Except String Nat
  logoff : Option String

/-- What the NFS server and library answer: the error of `nfs.DialMount`, and the
answer to `Mount` as a function of the export and of the `AUTH_UNIX` machine name,
uid and gid. -/
structure NFSRemote where
  dialMount : Option String
  mount : Bytes → Bytes → Nat → Nat → Except String Nat

/-- The struct `SMBBackend`. -/
structure SMBBackend where
  config : SMBConfig

/-- The static credentials and endpoint of the `s3.Client` built by `NewS3Backend`. -/
structure S3Client where
  region : Bytes
  accessKey : Bytes
  secretKey : Bytes
  sessionToken : Bytes
  baseEndpoint : Option Bytes
deriving DecidableEq, Repr

/-- The struct `S3Backend`. -/
structure S3Backend where
  config : S3Config
  client : S3Client

/-- The struct `NFSBackend`. -/
structure NFSBackend where
  config : NFSConfig

/-- The function `NewSMBBackend`. -/
def NewSMBBackend (cfg : SMBConfig) : SMBBackend := ⟨cfg⟩

/-- The function `NewS3Backend`: the client holds the access key and secret key of the
configuration. -/
def NewS3Backend (cfg : S3Config) : S3Backend :=
  { config := cfg,
    client :=
      { region := cfg.Region, accessKey := cfg.AccessKey, secretKey := cfg.SecretKey,
        sessionToken := [],
        baseEndpoint := if cfg.Endpoint ≠ [] then some cfg.Endpoint else Option.none } }

/-- The function `NewNFSBackend`. -/
def NewNFSBackend (cfg : NFSConfig) : NFSBackend := ⟨cfg⟩

/-- The method `SMBBackend.Connect`: the connection or the error, and the calls made
towards the remote system. -/
def SMBBackend.Connect (b : SMBBackend) (remote : SMBRemote) (username password : Bytes) :
    Except String ConnectionValue × List RemoteCall :=
  match remote.dial with
  | some err =>
    (.error ("failed to connect to SMB server: " ++ err),
      [.tcpDial b.config.Server b.config.Port])
  | Option.none =>
    match remote.session username password b.config.Domain with
    | .error err =>
      (.error ("failed to establish SMB session: " ++ err),
        [.tcpDial b.config.Server b.config.Port,
         .smbSessionSetup username password b.config.Domain, .tcpClose])
    | .ok session =>
      match remote.mount with
      | .error err =>
        (.error ("failed to mount share: " ++ err),
          [.tcpDial b.config.Server b.config.Port,
           .smbSessionSetup username password b.config.Domain,
           .smbMount session b.config.Share, .smbLogoff session])
      | .ok share =>
        (.ok (.smb ⟨session, share, username⟩),
          [.tcpDial b.config.Server b.config.Port,
           .smbSessionSetup username password b.config.Domain,
           .smbMount session b.config.Share])

/-- The method `S3Backend.Connect`. -/
def S3Backend.Connect (_b : S3Backend) (username _password : Bytes) :
    Except String ConnectionValue × List RemoteCall :=
  (.ok (.s3 ⟨username⟩), [])

/-- The method `NFSBackend.Connect`; the credential is
`rpc.NewAuthUnix("photosync", 1000, 1000)`. -/
def NFSBackend.Connect (b : NFSBackend) (remote : NFSRemote) (username _password : Bytes) :
    Except String ConnectionValue × List RemoteCall :=
  match remote.dialMount with
  | some err =>
    (.error ("failed to connect to NFS server: " ++ err), [.nfsDialMount b.config.Server])
  | Option.none =>
    match remote.mount b.config.Export (ascii "photosync") 1000 1000 with
    | .error err =>
      (.error ("failed to mount NFS export: " ++ err),
        [.nfsDialMount b.config.Server,
         .nfsMount b.config.Export (ascii "photosync") 1000 1000])
    | .ok target =>
      (.ok (.nfs ⟨target, username⟩),
        [.nfsDialMount b.config.Server,
         .nfsMount b.config.Export (ascii "photosync") 1000 1000])

/-- How a call of `Close` ends: it returns `nil`, it returns an error, or it panics
(a failed type assertion). -/
inductive CloseOutcome where
  | ok
  | error (msg : String)
  | panic
deriving DecidableEq, Repr

/-- The method `SMBBackend.Close`; `logoff` is what `session.Logoff()` returns to this
call (`none` for `nil`). -/
def SMBBackend.Close (_b : SMBBackend) (logoff : Option String) (conn : ConnectionValue) :
    CloseOutcome × List RemoteCall :=
  match conn with
  | .nil => (.ok, [])
  | .smb smbConn =>
    (match logoff with
     | Option.none => CloseOutcome.ok
     | some err => CloseOutcome.error err,
     [.smbLogoff smbConn.session])
  | _ => (.panic, [])

/-- The method `S3Backend.Close`. -/
def S3Backend.Close (_b : S3Backend) (_conn : ConnectionValue) :
    CloseOutcome × List RemoteCall :=
  (.ok, [])

/-- The method `NFSBackend.Close`; the result of `mount.Close()` is dropped. -/
def NFSBackend.Close (_b : NFSBackend) (conn : ConnectionValue) :
    CloseOutcome × List RemoteCall :=
  match conn with
  | .nil => (.ok, [])
  | .nfs nfsConn => (.ok, [.nfsClose nfsConn.mount])
  | _ => (.panic, [])

/-- A remote SMB server that knows one account, `alice` with password `hunter2`. -/
def demoSMBRemote : SMBRemote :=
  { dial := Option.none,
    session := fun user password _ =>
      if user = ascii "alice" ∧ password = ascii "hunter2" then .ok 7
      else .error "logon failure",
    mount := .ok 3,
    logoff := Option.none }

/-- A remote NFS server that lets the machine `photosync` with uid 1000 mount. -/
def demoNFSRemote : NFSRemote :=
  { dialMount := Option.none,
    mount := fun _ machineName uid _ =>
      if machineName = ascii "photosync" ∧ uid = 1000 then .ok 5 else .error "access denied" }

/-- The successful `Connect` calls of one pool operation run on pool `p`: the pair of
the username passed to `Connect` and the connection it returned, when the operation
is a `GetConnection` that did call `Connect` and `Connect` succeeded. -/
def opConnects (p : GenericConnectionPool) : PoolOp → List (Bytes × Connection)
  | .getConnection u pw now (.ok c) =>
    if BackendCall.connect u pw ∈ (GetConnection p u pw now (.ok c)).calls then [(u, c)] else []
  | _ => []

/-- The successful `Connect` calls of a run of operations, in order. -/
def runConnects (p : GenericConnectionPool) : List PoolOp → List (Bytes × Connection)
  | [] => []
  | op :: ops => opConnects p op ++ runConnects (runOp p op).1 ops

/-- Every entry is stored under its own username and holds a connection that a
`Connect` call of the log `L` returned for that username. -/
def entriesFrom (p : GenericConnectionPool) (L : List (Bytes × Connection)) : Prop :=
  ∀ k e, (k, e) ∈ p.connections → e.username = k ∧ (k, e.connection) ∈ L

/-- The string `p` occurs in `s` as a contiguous substring: `s` is some bytes, then
`p`, then some bytes. This is the containment the specification speaks of, against
which `containsSubstring` and `containsPlaceholder` are compared. -/
def occursIn (p s : Bytes) : Prop := ∃ before after, s = before ++ p ++ after

/-- A token whose header names the method `alg`, with the claims of `demoToken` and the
signature bytes `sig`, written with `refPrimitives`. -/
def demoTokenWithAlg (alg sig : Bytes) : Bytes :=
  RawURLEncoding.EncodeToString (refPrimitives.marshalHeader alg) ++ [46] ++
    RawURLEncoding.EncodeToString (refPrimitives.marshalClaims
      (demoManager.newClaims (ascii "alice")
        (demoManager.sealed refPrimitives (ascii "hunter2") demoNonce) 500000000 500000000)) ++
    [46] ++ RawURLEncoding.EncodeToString sig

/-! ## Concurrent calls of `GetConnection` -/

/-- The method `GetConnection` from the statement after `p.mu.RUnlock()` on: `outer` is
the pair `conn, exists` that the first lookup gave under the read lock (`none` when
`exists` is false), and `p` is the pool at the time the rest of the body runs, as one
step. The fast-path test, the section under `p.mu.Lock()`, the `Close` decided on
`outer`, the `Connect` and the installation are those of `GetConnection`. The fast
path tests and refreshes `lastUsed` through the pointer it looked up; here the test is
made on the value the lookup saw and the refresh on the entry stored under
`username`. -/
def GetConnectionAt (outer : Option PooledGenericConnection) (p : GenericConnectionPool)
    (username password : Bytes) (now : Int)
    (connectResult : Except String Connection) : Step (Except String Connection) :=
  let slow : Step (Except String Connection) :=
    -- if conn, exists := p.connections[username]; exists && fresh (shadowing lookup)
    let inner := mapGet p.connections username
    let rest : Step (Except String Connection) :=
      -- if exists { p.backend.Close(conn.connection) }   (outer variables)
      let closes : List BackendCall :=
        match outer with
        | some conn => [BackendCall.close conn.connection]
        | none => []
      -- connection, err := p.backend.Connect(username, password)
      match connectResult with
      | .error err =>
          { result := .error err, pool := p,
            calls := closes ++ [BackendCall.connect username password] }
      | .ok connection =>
          { result := .ok connection,
            pool := GenericConnectionPool.mk
              (mapSet p.connections username (PooledGenericConnection.mk connection now username))
              p.ttl,
            calls := closes ++ [BackendCall.connect username password] }
    match inner with
    | some conn =>
        if isFresh p conn now then
          { result := .ok conn.connection,
            pool := GenericConnectionPool.mk
              (mapSet p.connections username
                (PooledGenericConnection.mk conn.connection now conn.username))
              p.ttl,
            calls := [] }
        else rest
    | none => rest
  match outer with
  | some conn =>
      if isFresh p conn now then
        { result := .ok conn.connection,
          pool := GenericConnectionPool.mk
            (mapSet p.connections username
              (PooledGenericConnection.mk conn.connection now conn.username))
            p.ttl,
          calls := [] }
      else slow
  | none => slow

/-- An event of a concurrent run of `GetConnection` calls for one username: call `id`
makes its first lookup (the three lines under the read lock), or call `id` runs the
rest of its body at clock reading `now`, `connectResult` being what `Connect` returns
to it if it calls it. -/
inductive ConcEvent where
  | lookup (id : Nat)
  | finish (id : Nat) (password : Bytes) (now : Int) (connectResult : Except String Connection)
deriving DecidableEq

/-- The state of a concurrent run: the pool, the calls that have made their first
lookup and not yet returned (with what the lookup gave), what the returned calls
returned, and the backend calls made so far. -/
structure ConcState where
  pool : GenericConnectionPool
  pending : List (Nat × Option PooledGenericConnection)
  returned : List (Nat × Except String Connection)
  calls : List BackendCall

/-- The state before any call has started. -/
def concStart (p : GenericConnectionPool) : ConcState :=
  { pool := p, pending := [], returned := [], calls := [] }

/-- One event of a concurrent run of calls for `username`. A `finish` of a call that
is not pending does nothing. -/
def concStep (username : Bytes) (s : ConcState) : ConcEvent → ConcState
  | .lookup id =>
    { s with pending := (id, mapGet s.pool.connections username) :: s.pending }
  | .finish id password now connectResult =>
    match s.pending.lookup id with
    | none => s
    | some outer =>
      { pool := (GetConnectionAt outer s.pool username password now connectResult).pool,
        pending := s.pending.filter (fun x => decide (x.1 ≠ id)),
        returned := s.returned ++
          [(id, (GetConnectionAt outer s.pool username password now connectResult).result)],
        calls := s.calls ++
          (GetConnectionAt outer s.pool username password now connectResult).calls }

/-- Run the events of a schedule one after another. -/
def concRun (username : Bytes) (s : ConcState) : List ConcEvent → ConcState
  | [] => s
  | ev :: evs => concRun username (concStep username s ev) evs

/-- The events are an interleaving of calls in which every call makes its first lookup
once and then runs the rest of its body once: `pend` are the calls between the two,
`started` the calls that have made their lookup. -/
def isInterleaving : List ConcEvent → List Nat → List Nat → Bool
  | [], pend, _ => pend.isEmpty
  | .lookup id :: evs, pend, started =>
    decide (id ∉ started) && isInterleaving evs (id :: pend) (id :: started)
  | .finish id _ _ _ :: evs, pend, started =>
    decide (id ∈ pend) && isInterleaving evs (pend.filter (fun x => decide (x ≠ id))) started

/-- Number of calls made in a schedule: its `lookup` events. -/
def callCount (evs : List ConcEvent) : Nat :=
  evs.countP (fun ev => match ev with | .lookup _ => true | .finish _ _ _ _ => false)

/-- Number of entries stored under `username`. -/
def entryCount (p : GenericConnectionPool) (username : Bytes) : Nat :=
  (p.connections.filter (fun kv => decide (kv.1 = username))).length

/-- The `finish` event runs at a clock reading in `[t0, t0 + ttl)` and `Connect`, if
called, succeeds; a `lookup` event reads no clock. -/
def ConcEvent.okWithin (t0 ttl : Int) : ConcEvent → Bool
  | .lookup _ => true
  | .finish _ _ now (.ok _) => decide (t0 ≤ now) && decide (now - t0 < ttl)
  | .finish _ _ _ (.error _) => false

/-- What holds of the pool throughout a run of calls for `username` that starts on a
pool with no entry for it and whose clock readings lie in `[t0, t0 + ttl)`: either no
call has returned and there is no entry, or one `Connect` has been made, no `Close`,
and the entry, every first lookup still pending and every returned call hold its
connection. -/
def ConcInv (username : Bytes) (t0 ttl : Int) (s : ConcState) : Prop :=
  keysNodup s.pool.connections ∧ s.pool.ttl = ttl ∧
  ((mapGet s.pool.connections username = none ∧ s.calls = [] ∧ s.returned = [] ∧
      ∀ x ∈ s.pending, x.2 = none) ∨
   (∃ c e, mapGet s.pool.connections username = some e ∧ e.connection = c ∧
      t0 ≤ e.lastUsed ∧ connectCount s.calls = 1 ∧ (∀ c2, closeCount s.calls c2 = 0) ∧
      (∀ x ∈ s.returned, x.2 = .ok c) ∧
      ∀ x ∈ s.pending, ∀ e2, x.2 = some e2 → e2.connection = c ∧ t0 ≤ e2.lastUsed))

/-! ## Properties of the pool -/

theorem mapGet_mapSet_self (m : List (Bytes × PooledGenericConnection)) (k : Bytes)
    (v : PooledGenericConnection) : mapGet (mapSet m k v) k = some v := by
  simp [mapSet, mapGet]

theorem mapGet_mapDelete_ne (m : List (Bytes × PooledGenericConnection)) (k k' : Bytes)
    (h : k' ≠ k) : mapGet (mapDelete m k) k' = mapGet m k' := by
  induction m with
  | nil => rfl
  | cons kv rest ih =>
    obtain ⟨a, b⟩ := kv
    by_cases hak : a = k
    · subst hak
      have hne : ¬ a = k' := fun e => h e.symm
      have : mapDelete ((a, b) :: rest) a = mapDelete rest a := by
        simp [mapDelete]
      rw [this, ih]
      simp [mapGet, hne]
    · have : mapDelete ((a, b) :: rest) k = (a, b) :: mapDelete rest k := by
        simp [mapDelete, hak]
      rw [this]
      simp only [mapGet]
      rw [ih]

theorem mapGet_mapSet_ne (m : List (Bytes × PooledGenericConnection)) (k k' : Bytes)
    (v : PooledGenericConnection) (h : k' ≠ k) :
    mapGet (mapSet m k v) k' = mapGet m k' := by
  have hne : ¬ k = k' := fun e => h e.symm
  simp only [mapSet, mapGet, hne, if_false]
  exact mapGet_mapDelete_ne m k k' h

/-- Fast path of `GetConnection`: a fresh entry is refreshed and returned. -/
theorem GetConnection_of_fresh (p : GenericConnectionPool) (u pw : Bytes) (now : Int)
    (r : Except String Connection) (conn : PooledGenericConnection)
    (hget : mapGet p.connections u = some conn) (hfresh : now - conn.lastUsed < p.ttl) :
    GetConnection p u pw now r =
      { result := .ok conn.connection,
        pool := GenericConnectionPool.mk
          (mapSet p.connections u (PooledGenericConnection.mk conn.connection now conn.username))
          p.ttl,
        calls := [] } := by
  simp [GetConnection, hget, isFresh, hfresh]

/-- Slow path of `GetConnection` on a stale entry. -/
theorem GetConnection_of_stale (p : GenericConnectionPool) (u pw : Bytes) (now : Int)
    (r : Except String Connection) (conn : PooledGenericConnection)
    (hget : mapGet p.connections u = some conn) (hstale : ¬ now - conn.lastUsed < p.ttl) :
    GetConnection p u pw now r =
      match r with
      | .error err =>
          { result := .error err, pool := p,
            calls := [BackendCall.close conn.connection, BackendCall.connect u pw] }
      | .ok c =>
          { result := .ok c,
            pool := GenericConnectionPool.mk
              (mapSet p.connections u (PooledGenericConnection.mk c now u)) p.ttl,
            calls := [BackendCall.close conn.connection, BackendCall.connect u pw] } := by
  cases r <;> simp [GetConnection, hget, isFresh, hstale]

/-- Slow path of `GetConnection` when the username has no entry. -/
theorem GetConnection_of_absent (p : GenericConnectionPool) (u pw : Bytes) (now : Int)
    (r : Except String Connection) (hget : mapGet p.connections u = none) :
    GetConnection p u pw now r =
      match r with
      | .error err =>
          { result := .error err, pool := p, calls := [BackendCall.connect u pw] }
      | .ok c =>
          { result := .ok c,
            pool := GenericConnectionPool.mk
              (mapSet p.connections u (PooledGenericConnection.mk c now u)) p.ttl,
            calls := [BackendCall.connect u pw] } := by
  cases r <;> simp [GetConnection, hget]

/-- C4. Slow path of `GetConnection`: when the pool holds no fresh entry for `u` at
`now` (no entry, or `now - lastUsed >= ttl`) and `Connect(u, p)` succeeds with `c`,
the backend calls are exactly one `Close` on the stale entry's connection (none when
there was no entry) followed by exactly one `Connect(u, p)`; afterwards the map
sends `u` to the entry `(c, now, u)`, and `c` is returned. -/
theorem C4_slow_path_installs (p : GenericConnectionPool) (u pw : Bytes) (now : Int)
    (c : Connection)
    (hnofresh : ∀ conn, mapGet p.connections u = some conn → p.ttl ≤ now - conn.lastUsed) :
    (GetConnection p u pw now (.ok c)).result = .ok c ∧
    (GetConnection p u pw now (.ok c)).calls = staleCloses p u ++ [BackendCall.connect u pw] ∧
    connectCount (GetConnection p u pw now (.ok c)).calls = 1 ∧
    (∀ conn, mapGet p.connections u = some conn →
      closeCount (GetConnection p u pw now (.ok c)).calls conn.connection = 1 ∧
      ∀ d, d ≠ conn.connection → closeCount (GetConnection p u pw now (.ok c)).calls d = 0) ∧
    (mapGet p.connections u = none →
      ∀ d, closeCount (GetConnection p u pw now (.ok c)).calls d = 0) ∧
    mapGet (GetConnection p u pw now (.ok c)).pool.connections u =
      some (PooledGenericConnection.mk c now u) := by
  cases hget : mapGet p.connections u with
  | none =>
    rw [GetConnection_of_absent p u pw now _ hget]
    simp [staleCloses, hget, connectCount, closeCount, mapGet_mapSet_self]
  | some conn =>
    have hstale : ¬ now - conn.lastUsed < p.ttl := not_lt.mpr (hnofresh conn hget)
    rw [GetConnection_of_stale p u pw now _ conn hget hstale]
    simp only [staleCloses, hget, connectCount, closeCount, mapGet_mapSet_self]
    refine ⟨trivial, rfl, by simp, ?_, by simp, trivial⟩
    intro conn' h'
    cases h'
    refine ⟨by simp, ?_⟩
    intro d hd
    have : ¬ conn.connection = d := fun e => hd e.symm
    simp [List.count_cons, this]

/-- C4, at a stale entry: `alice` holds connection 1 last used at 0, the window is 5,
the call comes at 9 and `Connect` gives 2. -/
theorem C4_slow_path_installs_witness :
    (GetConnection ⟨[((ascii "alice"), ⟨1, 0, (ascii "alice")⟩)], 5⟩ (ascii "alice") (ascii "pw") 9 (.ok 2)).calls
      = [BackendCall.close 1, BackendCall.connect (ascii "alice") (ascii "pw")] ∧
    mapGet (GetConnection ⟨[((ascii "alice"), ⟨1, 0, (ascii "alice")⟩)], 5⟩ (ascii "alice") (ascii "pw") 9 (.ok 2)).pool.connections
      (ascii "alice") = some ⟨2, 9, (ascii "alice")⟩ := by
  have h := C4_slow_path_installs ⟨[((ascii "alice"), ⟨1, 0, (ascii "alice")⟩)], 5⟩ (ascii "alice") (ascii "pw") 9 2
    (by intro conn hc; simp [mapGet] at hc; subst hc; decide)
  exact ⟨h.2.1, h.2.2.2.2.2⟩

/-- C5. Connect failure: when `GetConnection(u, p)` calls `Connect` and `Connect`
returns `err`, `GetConnection` returns `err` (and no connection), `Connect` was called
exactly once, and the pool (map and window) is what it was before the call. -/
theorem C5_connect_failure_atomic (p : GenericConnectionPool) (u pw : Bytes) (now : Int)
    (err : String)
    (hcalled : BackendCall.connect u pw ∈ (GetConnection p u pw now (.error err)).calls) :
    (GetConnection p u pw now (.error err)).result = .error err ∧
    connectCount (GetConnection p u pw now (.error err)).calls = 1 ∧
    (GetConnection p u pw now (.error err)).pool = p := by
  cases hget : mapGet p.connections u with
  | none =>
    rw [GetConnection_of_absent p u pw now _ hget]
    simp [connectCount]
  | some conn =>
    by_cases hfresh : now - conn.lastUsed < p.ttl
    · rw [GetConnection_of_fresh p u pw now _ conn hget hfresh] at hcalled
      simp at hcalled
    · rw [GetConnection_of_stale p u pw now _ conn hget hfresh]
      simp [connectCount]

/-- C5, on the empty pool: the failed call leaves the pool empty. -/
theorem C5_connect_failure_atomic_witness :
    (GetConnection (NewGenericConnectionPool 5) (ascii "alice") (ascii "pw") 0 (.error "refused")).result
      = .error "refused" ∧
    (GetConnection (NewGenericConnectionPool 5) (ascii "alice") (ascii "pw") 0 (.error "refused")).pool
      = NewGenericConnectionPool 5 := by
  have h := C5_connect_failure_atomic (NewGenericConnectionPool 5) (ascii "alice") (ascii "pw") 0 "refused"
    (by decide)
  exact ⟨h.1, h.2.2⟩

/-- C9. Shutdown drains the pool: `Close()` calls backend `Close` once per entry of
the map, on that entry's connection (so a connection is closed as many times as
entries hold it), makes no other backend call, and leaves the map empty; a second
`Close()` right after makes no backend call and leaves the map empty. -/
theorem C9_close_drains (p : GenericConnectionPool) :
    (∀ c, closeCount (Close p).calls c =
      (p.connections.filter (fun kv => decide (kv.2.connection = c))).length) ∧
    (Close p).calls.length = p.connections.length ∧
    connectCount (Close p).calls = 0 ∧
    (Close p).pool.connections = [] ∧
    (Close (Close p).pool).calls = [] ∧
    (Close (Close p).pool).pool.connections = [] := by
  refine ⟨?_, by simp [Close], ?_, rfl, rfl, rfl⟩
  · intro c
    simp only [Close, closeCount]
    induction p.connections with
    | nil => rfl
    | cons kv rest ih =>
      by_cases h : kv.2.connection = c
      · simp [List.filter_cons, h, ih]
      · have hne : ¬ BackendCall.close kv.2.connection = BackendCall.close c := by
          intro e; exact h (BackendCall.close.inj e)
        simp [List.filter_cons, h, List.count_cons, hne, ih]
  · simp only [Close, connectCount]
    induction p.connections with
    | nil => rfl
    | cons kv rest ih => simp [ih]

/-- C8, refuted as stated: on a pool that has been shut down, `GetConnection` calls
backend `Connect` and hands out the new connection instead of failing. -/
theorem C8_sealing_counterexample :
    (GetConnection (Close ⟨[((ascii "alice"), ⟨1, 0, (ascii "alice")⟩)], 5⟩).pool (ascii "alice") (ascii "pw") 1 (.ok 2)).result
      = .ok 2 ∧
    (GetConnection (Close ⟨[((ascii "alice"), ⟨1, 0, (ascii "alice")⟩)], 5⟩).pool (ascii "alice") (ascii "pw") 1 (.ok 2)).calls
      = [BackendCall.connect (ascii "alice") (ascii "pw")] := by
  decide

/-- C8 as amended. After pool `Close()` the pool is not sealed: it is in the state of a
newly built pool of the same TTL. The first `GetConnection(u, pw)` after it calls
backend `Connect(u, pw)` exactly once, makes no other backend call and returns what
`Connect` returned; when `Connect` succeeds the new connection is installed as the only
entry, under `u` with the clock reading of the call, and when `Connect` fails the pool
stays empty. A further `GetConnection(u, ·)` within the TTL of that entry returns the
installed connection and makes no backend call. In every pool state, an error returned
by `GetConnection` is the error of a `Connect` that it called: there is no error of a
closed pool. -/
theorem C8_after_close_not_sealed (p : GenericConnectionPool) (u pw pw2 : Bytes)
    (now now2 : Int) (c : Connection) (e : String) (r2 : Except String Connection) :
    (Close p).pool = NewGenericConnectionPool p.ttl ∧
    GetConnection (Close p).pool u pw now (.ok c) =
      { result := .ok c,
        pool := ⟨[(u, ⟨c, now, u⟩)], p.ttl⟩,
        calls := [BackendCall.connect u pw] } ∧
    GetConnection (Close p).pool u pw now (.error e) =
      { result := .error e,
        pool := (Close p).pool,
        calls := [BackendCall.connect u pw] } ∧
    (now2 - now < p.ttl →
      (GetConnection (GetConnection (Close p).pool u pw now (.ok c)).pool u pw2 now2 r2).result
        = .ok c ∧
      (GetConnection (GetConnection (Close p).pool u pw now (.ok c)).pool u pw2 now2 r2).calls
        = []) ∧
    (∀ (q : GenericConnectionPool) (err : String),
      (GetConnection q u pw now r2).result = .error err →
        r2 = .error err ∧ BackendCall.connect u pw ∈ (GetConnection q u pw now r2).calls) := by
  have hget : mapGet (Close p).pool.connections u = none := rfl
  refine ⟨rfl, ?_, ?_, ?_, ?_⟩
  · rw [GetConnection_of_absent _ u pw now _ hget]
    rfl
  · rw [GetConnection_of_absent _ u pw now _ hget]
  · intro hlt
    rw [GetConnection_of_absent _ u pw now _ hget]
    have hg : mapGet (GenericConnectionPool.mk
        (mapSet (Close p).pool.connections u (PooledGenericConnection.mk c now u))
        (Close p).pool.ttl).connections u = some ⟨c, now, u⟩ := mapGet_mapSet_self _ _ _
    rw [GetConnection_of_fresh _ u pw2 now2 r2 ⟨c, now, u⟩ hg hlt]
    exact ⟨rfl, rfl⟩
  · intro q err h
    cases hq : mapGet q.connections u with
    | none =>
      rw [GetConnection_of_absent q u pw now _ hq] at h ⊢
      cases r2 with
      | error e2 =>
        simp only [Except.error.injEq] at h
        subst h
        exact ⟨rfl, List.mem_singleton_self _⟩
      | ok c2 => cases h
    | some conn =>
      by_cases hfresh : now - conn.lastUsed < q.ttl
      · rw [GetConnection_of_fresh q u pw now _ conn hq hfresh] at h
        cases h
      · rw [GetConnection_of_stale q u pw now _ conn hq hfresh] at h ⊢
        cases r2 with
        | error e2 =>
          simp only [Except.error.injEq] at h
          subst h
          exact ⟨rfl, by simp⟩
        | ok c2 => cases h

/-- C8 as amended, run on a pool that held a connection of `alice` when it was shut
down: the call at clock reading 1 installs connection 2, the call at 3 reuses it. -/
theorem C8_after_close_not_sealed_witness :
    (Close ⟨[((ascii "alice"), ⟨1, 0, (ascii "alice")⟩)], 5⟩).pool = NewGenericConnectionPool 5 ∧
    GetConnection (Close ⟨[((ascii "alice"), ⟨1, 0, (ascii "alice")⟩)], 5⟩).pool
        (ascii "alice") (ascii "pw") 1 (.ok 2) =
      { result := .ok 2,
        pool := ⟨[(ascii "alice", ⟨2, 1, ascii "alice"⟩)], 5⟩,
        calls := [BackendCall.connect (ascii "alice") (ascii "pw")] } ∧
    (GetConnection (GetConnection (Close ⟨[((ascii "alice"), ⟨1, 0, (ascii "alice")⟩)], 5⟩).pool
      (ascii "alice") (ascii "pw") 1 (.ok 2)).pool (ascii "alice") (ascii "pw") 3 (.ok 9)).result
      = .ok 2 ∧
    (GetConnection (GetConnection (Close ⟨[((ascii "alice"), ⟨1, 0, (ascii "alice")⟩)], 5⟩).pool
      (ascii "alice") (ascii "pw") 1 (.ok 2)).pool (ascii "alice") (ascii "pw") 3 (.ok 9)).calls
      = [] :=
  have h := C8_after_close_not_sealed ⟨[((ascii "alice"), ⟨1, 0, (ascii "alice")⟩)], 5⟩
    (ascii "alice") (ascii "pw") (ascii "pw") 1 3 2 "refused" (.ok 9)
  ⟨h.1, h.2.1, (h.2.2.2.1 (by decide)).1, (h.2.2.2.1 (by decide)).2⟩

theorem cleanup_foldl (ttl now : Int) :
    ∀ (l A : List (Bytes × PooledGenericConnection)) (C : List BackendCall),
      l.foldl (cleanupEntry ttl now) (A, C) =
        (A.filter (fun kv => decide (kv.1 ∉ (l.filter (sweepStale ttl now)).map (fun e => e.1))),
         C ++ (l.filter (sweepStale ttl now)).map (fun e => BackendCall.close e.2.connection))
  | [], A, C => by simp
  | kv :: l, A, C => by
    by_cases hs : now - kv.2.lastUsed > ttl
    · have h1 : sweepStale ttl now kv = true := by simp [sweepStale, hs]
      have hstep : cleanupEntry ttl now (A, C) kv =
          (mapDelete A kv.1, C ++ [BackendCall.close kv.2.connection]) := by
        simp [cleanupEntry, hs]
      rw [List.foldl_cons, hstep, cleanup_foldl ttl now l]
      simp only [List.filter_cons, h1, if_true, List.map_cons, mapDelete, List.filter_filter,
        List.append_assoc, List.singleton_append, List.mem_cons, not_or]
      refine Prod.ext ?_ rfl
      apply List.filter_congr
      intro x _
      simp [Bool.and_comm]
    · have h1 : sweepStale ttl now kv = false := by simp [sweepStale, hs]
      have hstep : cleanupEntry ttl now (A, C) kv = (A, C) := by
        simp [cleanupEntry, hs]
      rw [List.foldl_cons, hstep, cleanup_foldl ttl now l,
        List.filter_cons_of_neg (by simp [h1])]

/-- What one sweep pass does on a map with distinct keys: it closes, once each, the
connections of the entries with `now - lastUsed > ttl`, removes those entries, and
keeps every other entry as it is. -/
theorem cleanupPass_spec (p : GenericConnectionPool) (now : Int) (hk : keysNodup p.connections) :
    (cleanupPass p now).pool.connections =
      p.connections.filter (fun kv => !sweepStale p.ttl now kv) ∧
    (cleanupPass p now).calls =
      (p.connections.filter (sweepStale p.ttl now)).map
        (fun e => BackendCall.close e.2.connection) := by
  unfold cleanupPass
  rw [cleanup_foldl]
  refine ⟨?_, by simp⟩
  apply List.filter_congr
  intro x hx
  by_cases hs : sweepStale p.ttl now x = true
  · have : x.1 ∈ (p.connections.filter (sweepStale p.ttl now)).map (fun e => e.1) :=
      List.mem_map.mpr ⟨x, List.mem_filter.mpr ⟨hx, hs⟩, rfl⟩
    simp [hs, this]
  · have hno : x.1 ∉ (p.connections.filter (sweepStale p.ttl now)).map (fun e => e.1) := by
      intro hmem
      obtain ⟨y, hy, hyx⟩ := List.mem_map.mp hmem
      obtain ⟨hy1, hy2⟩ := List.mem_filter.mp hy
      have hinj := List.inj_on_of_nodup_map hk hy1 hx hyx
      rw [hinj] at hy2
      exact hs hy2
    simp [hs, hno]

/-- C7, at the boundary: an entry last used at 0 with window 5 is stale for
`GetConnection` at time 5 (`5 - 0 < 5` is false), yet the sweep pass at time 5
closes nothing and keeps the entry, its test being `now - lastUsed > ttl`. -/
theorem C7_sweep_keeps_boundary_entry :
    isFresh ⟨[((ascii "alice"), ⟨1, 0, (ascii "alice")⟩)], 5⟩ ⟨1, 0, (ascii "alice")⟩ 5 = false ∧
    (cleanupPass ⟨[((ascii "alice"), ⟨1, 0, (ascii "alice")⟩)], 5⟩ 5).calls = [] ∧
    (cleanupPass ⟨[((ascii "alice"), ⟨1, 0, (ascii "alice")⟩)], 5⟩ 5).pool.connections
      = [((ascii "alice"), ⟨1, 0, (ascii "alice")⟩)] := by
  decide

/-- C6, violated: `alice` connects at 0 (connection 1); at 5 the entry is stale,
`GetConnection` closes connection 1, `Connect` fails and the closed entry stays in
the map; the next `GetConnection` at 6 closes connection 1 a second time. -/
theorem C6_double_close_after_failed_reconnect :
    closeCount (runOps (NewGenericConnectionPool 5)
      [PoolOp.getConnection (ascii "alice") (ascii "pw") 0 (.ok 1),
       PoolOp.getConnection (ascii "alice") (ascii "pw") 5 (.error "refused"),
       PoolOp.getConnection (ascii "alice") (ascii "pw") 6 (.error "refused")]).2 1 = 2 := by
  decide

theorem GetConnection_ttl (p : GenericConnectionPool) (u pw : Bytes) (now : Int)
    (r : Except String Connection) : (GetConnection p u pw now r).pool.ttl = p.ttl := by
  cases hget : mapGet p.connections u with
  | none =>
    rw [GetConnection_of_absent p u pw now _ hget]
    cases r <;> rfl
  | some conn =>
    by_cases hfresh : now - conn.lastUsed < p.ttl
    · rw [GetConnection_of_fresh p u pw now _ conn hget hfresh]
    · rw [GetConnection_of_stale p u pw now _ conn hget hfresh]
      cases r <;> rfl

/-- `GetConnection(u, ·)` leaves the binding of every other username as it was. -/
theorem GetConnection_other (p : GenericConnectionPool) (u v pw : Bytes) (now : Int)
    (r : Except String Connection) (hne : v ≠ u) :
    mapGet (GetConnection p u pw now r).pool.connections v = mapGet p.connections v := by
  cases hget : mapGet p.connections u with
  | none =>
    rw [GetConnection_of_absent p u pw now _ hget]
    cases r
    · rfl
    · exact mapGet_mapSet_ne _ _ _ _ hne
  | some conn =>
    by_cases hfresh : now - conn.lastUsed < p.ttl
    · rw [GetConnection_of_fresh p u pw now _ conn hget hfresh]
      exact mapGet_mapSet_ne _ _ _ _ hne
    · rw [GetConnection_of_stale p u pw now _ conn hget hfresh]
      cases r
      · rfl
      · exact mapGet_mapSet_ne _ _ _ _ hne

/-- A successful `GetConnection(u, ·)` at `now` leaves `u` bound to the connection it
returned, last used at `now`. -/
theorem GetConnection_ok_entry (p : GenericConnectionPool) (u pw : Bytes) (now : Int)
    (r : Except String Connection) (c : Connection)
    (hok : (GetConnection p u pw now r).result = .ok c) :
    ∃ e, mapGet (GetConnection p u pw now r).pool.connections u = some e ∧
      e.connection = c ∧ e.lastUsed = now := by
  cases hget : mapGet p.connections u with
  | none =>
    rw [GetConnection_of_absent p u pw now _ hget] at hok ⊢
    cases r with
    | error err => simp at hok
    | ok c' =>
      simp only [Except.ok.injEq] at hok
      exact ⟨_, mapGet_mapSet_self _ _ _, hok, rfl⟩
  | some conn =>
    by_cases hfresh : now - conn.lastUsed < p.ttl
    · rw [GetConnection_of_fresh p u pw now _ conn hget hfresh] at hok ⊢
      simp only [Except.ok.injEq] at hok
      exact ⟨_, mapGet_mapSet_self _ _ _, hok, rfl⟩
    · rw [GetConnection_of_stale p u pw now _ conn hget hfresh] at hok ⊢
      cases r with
      | error err => simp at hok
      | ok c' =>
        simp only [Except.ok.injEq] at hok
        exact ⟨_, mapGet_mapSet_self _ _ _, hok, rfl⟩

/-- Between `t1` and `t2`, with `t2 - t1` inside the window, `GetConnection` calls
keep `u` bound to the same connection, last used within `[t1, t2]`. -/
theorem runOps_keeps_entry (u : Bytes) (c : Connection) (t1 t2 : Int) (mid : List PoolOp) :
    ∀ q : GenericConnectionPool, t2 - t1 < q.ttl →
      (∀ op ∈ mid, op.isGetWithin t1 t2 = true) →
      (∃ e, mapGet q.connections u = some e ∧ e.connection = c ∧
        t1 ≤ e.lastUsed ∧ e.lastUsed ≤ t2) →
      (runOps q mid).1.ttl = q.ttl ∧
      ∃ e, mapGet (runOps q mid).1.connections u = some e ∧ e.connection = c ∧
        t1 ≤ e.lastUsed ∧ e.lastUsed ≤ t2 := by
  induction mid with
  | nil => intro q _ _ h; exact ⟨rfl, h⟩
  | cons op ops ih =>
    intro q hwin hmid hinv
    have hop := hmid op (List.mem_cons_self _ _)
    have hops : ∀ o ∈ ops, o.isGetWithin t1 t2 = true :=
      fun o ho => hmid o (List.mem_cons_of_mem _ ho)
    cases op with
    | sweep now => simp [PoolOp.isGetWithin] at hop
    | close => simp [PoolOp.isGetWithin] at hop
    | getConnection v pw now r =>
      simp only [PoolOp.isGetWithin, decide_eq_true_eq] at hop
      obtain ⟨e, hget, hc, hlo, hhi⟩ := hinv
      have httl : (GetConnection q v pw now r).pool.ttl = q.ttl := GetConnection_ttl q v pw now r
      have hstep : ∃ e', mapGet (GetConnection q v pw now r).pool.connections u = some e' ∧
          e'.connection = c ∧ t1 ≤ e'.lastUsed ∧ e'.lastUsed ≤ t2 := by
        by_cases hvu : v = u
        · subst hvu
          have hfresh : now - e.lastUsed < q.ttl := by omega
          rw [GetConnection_of_fresh q v pw now r e hget hfresh]
          exact ⟨_, mapGet_mapSet_self _ _ _, hc, hop.1, hop.2⟩
        · have hne : u ≠ v := fun h => hvu h.symm
          rw [GetConnection_other q v u pw now r hne]
          exact ⟨e, hget, hc, hlo, hhi⟩
      have := ih (GetConnection q v pw now r).pool (by rw [httl]; exact hwin) hops hstep
      simp only [runOps, runOp]
      exact ⟨this.1.trans httl, this.2⟩

/-- C3. Reuse within the freshness window: if `GetConnection(u, p)` at `t1` returns
connection `c`, only `GetConnection` calls (any usernames, any `Connect` outcomes,
clock within `[t1, t2]`) run until `t2`, no sweep pass and no pool `Close`, and
`t2 - t1 < ttl`, then `GetConnection(u, p')` at `t2` returns the same `c` and makes
no backend call; when the pool had no entry for `u` before the first call, `Connect`
is invoked exactly once over the two calls. -/
theorem C3_reuse_within_ttl (p : GenericConnectionPool) (u pw pw' : Bytes) (t1 t2 : Int)
    (r1 r2 : Except String Connection) (c : Connection) (mid : List PoolOp)
    (hfirst : (GetConnection p u pw t1 r1).result = .ok c)
    (hmid : ∀ op ∈ mid, op.isGetWithin t1 t2 = true)
    (hle : t1 ≤ t2) (hwin : t2 - t1 < p.ttl) :
    (GetConnection (runOps (GetConnection p u pw t1 r1).pool mid).1 u pw' t2 r2).result = .ok c ∧
    (GetConnection (runOps (GetConnection p u pw t1 r1).pool mid).1 u pw' t2 r2).calls = [] ∧
    (mapGet p.connections u = none →
      connectCount ((GetConnection p u pw t1 r1).calls ++
        (GetConnection (runOps (GetConnection p u pw t1 r1).pool mid).1 u pw' t2 r2).calls) = 1) := by
  obtain ⟨e, hget, hc, hlu⟩ := GetConnection_ok_entry p u pw t1 r1 c hfirst
  have httl := GetConnection_ttl p u pw t1 r1
  obtain ⟨httl2, e2, hget2, hc2, hlo2, hhi2⟩ :=
    runOps_keeps_entry u c t1 t2 mid (GetConnection p u pw t1 r1).pool
      (by rw [httl]; exact hwin) hmid ⟨e, hget, hc, by omega, by omega⟩
  have hfresh : t2 - e2.lastUsed < (runOps (GetConnection p u pw t1 r1).pool mid).1.ttl := by
    rw [httl2, httl]; omega
  rw [GetConnection_of_fresh _ u pw' t2 r2 e2 hget2 hfresh]
  refine ⟨by simp [hc2], rfl, ?_⟩
  intro habs
  rw [GetConnection_of_absent p u pw t1 r1 habs]
  cases r1 <;> simp [connectCount]

/-- C3, from the empty pool: `alice` connects at 0, `bob` connects at 2, and `alice`
asks again at 4 with window 5. -/
theorem C3_reuse_within_ttl_witness :
    (GetConnection (runOps (GetConnection (NewGenericConnectionPool 5) (ascii "alice") (ascii "pw") 0 (.ok 1)).pool
      [PoolOp.getConnection (ascii "bob") (ascii "pw2") 2 (.ok 2)]).1 (ascii "alice") (ascii "other") 4 (.ok 3)).result = .ok 1 ∧
    (GetConnection (runOps (GetConnection (NewGenericConnectionPool 5) (ascii "alice") (ascii "pw") 0 (.ok 1)).pool
      [PoolOp.getConnection (ascii "bob") (ascii "pw2") 2 (.ok 2)]).1 (ascii "alice") (ascii "other") 4 (.ok 3)).calls = [] := by
  have h := C3_reuse_within_ttl (NewGenericConnectionPool 5) (ascii "alice") (ascii "pw") (ascii "other") 0 4
    (.ok 1) (.ok 3) 1 [PoolOp.getConnection (ascii "bob") (ascii "pw2") 2 (.ok 2)]
    (by decide) (by decide) (by decide) (by decide)
  exact ⟨h.1, h.2.1⟩

/-! ## Properties of the encodings -/

theorem StdEncoding_WF : StdEncoding.WF := by decide

theorem RawURLEncoding_WF : RawURLEncoding.WF := by decide

theorem Encoding.WF.dec {enc : Encoding} (h : enc.WF) (n : Nat) (hn : n < 64) :
    enc.decodeChar (enc.encodeChar n) = some n := (h ⟨n, hn⟩).1

theorem Encoding.WF.ne_pad {enc : Encoding} (h : enc.WF) (n : Nat) (hn : n < 64) :
    (enc.encodeChar n = padChar) = False := eq_false (h ⟨n, hn⟩).2.1

theorem Encoding.WF.ne_dot {enc : Encoding} (h : enc.WF) (n : Nat) (hn : n < 64) :
    enc.encodeChar n ≠ 46 := (h ⟨n, hn⟩).2.2.1

theorem Encoding.WF.not_newline {enc : Encoding} (h : enc.WF) (n : Nat) (hn : n < 64) :
    isNewline (enc.encodeChar n) = false := (h ⟨n, hn⟩).2.2.2

theorem byteOf_eq (a : Byte) (n : Nat) (h : n = a.val) : byteOf n = a := by
  subst h
  apply Fin.ext
  simp [byteOf, Fin.ofNat]

/-- Decoding quantum by quantum inverts `EncodeToString`. -/
theorem decodeQuanta_EncodeToString (enc : Encoding) (h : enc.WF) :
    ∀ bs : Bytes, enc.decodeQuanta (enc.EncodeToString bs) = some bs
  | [] => rfl
  | [a] => by
    have ha := a.isLt
    cases hp : enc.padding
    · simp [Encoding.EncodeToString, Encoding.decodeQuanta, hp,
        h.dec _ (show a.val / 4 < 64 by omega), h.dec _ (show a.val % 4 * 16 < 64 by omega)]
      exact byteOf_eq a _ (by omega)
    · simp [Encoding.EncodeToString, Encoding.decodeQuanta, hp,
        h.dec _ (show a.val / 4 < 64 by omega), h.dec _ (show a.val % 4 * 16 < 64 by omega)]
      exact byteOf_eq a _ (by omega)
  | [a, b] => by
    have ha := a.isLt
    have hb := b.isLt
    cases hp : enc.padding
    · simp [Encoding.EncodeToString, Encoding.decodeQuanta, hp,
        h.dec _ (show a.val / 4 < 64 by omega),
        h.dec _ (show a.val % 4 * 16 + b.val / 16 < 64 by omega),
        h.dec _ (show b.val % 16 * 4 < 64 by omega)]
      exact ⟨byteOf_eq a _ (by omega), byteOf_eq b _ (by omega)⟩
    · simp [Encoding.EncodeToString, Encoding.decodeQuanta, hp,
        h.dec _ (show a.val / 4 < 64 by omega),
        h.dec _ (show a.val % 4 * 16 + b.val / 16 < 64 by omega),
        h.dec _ (show b.val % 16 * 4 < 64 by omega),
        h.ne_pad _ (show b.val % 16 * 4 < 64 by omega)]
      exact ⟨byteOf_eq a _ (by omega), byteOf_eq b _ (by omega)⟩
  | a :: b :: c :: rest => by
    have ha := a.isLt
    have hb := b.isLt
    have hc := c.isLt
    have ih := decodeQuanta_EncodeToString enc h rest
    simp [Encoding.EncodeToString, Encoding.decodeQuanta,
        h.dec _ (show a.val / 4 < 64 by omega),
        h.dec _ (show a.val % 4 * 16 + b.val / 16 < 64 by omega),
        h.dec _ (show b.val % 16 * 4 + c.val / 64 < 64 by omega),
        h.dec _ (show c.val % 64 < 64 by omega),
        h.ne_pad _ (show b.val % 16 * 4 + c.val / 64 < 64 by omega),
        h.ne_pad _ (show c.val % 64 < 64 by omega), ih]
    exact ⟨byteOf_eq a _ (by omega), byteOf_eq b _ (by omega), byteOf_eq c _ (by omega)⟩

/-- Every byte `EncodeToString` writes is a character of the alphabet or `=`. -/
theorem EncodeToString_forall (enc : Encoding) (P : Byte → Prop)
    (hP : ∀ n, n < 64 → P (enc.encodeChar n)) (hpad : P padChar) :
    ∀ bs : Bytes, ∀ x ∈ enc.EncodeToString bs, P x
  | [] => by simp [Encoding.EncodeToString]
  | [a] => by
    have ha := a.isLt
    intro x hx
    simp only [Encoding.EncodeToString, List.mem_append, List.mem_cons, List.mem_singleton,
      List.not_mem_nil, or_false] at hx
    rcases hx with (hx | hx) | hx
    · subst hx; exact hP _ (by omega)
    · subst hx; exact hP _ (by omega)
    · split at hx
      · simp only [List.mem_cons, List.mem_singleton, List.not_mem_nil, or_false, or_self] at hx
        subst hx; exact hpad
      · simp at hx
  | [a, b] => by
    have ha := a.isLt
    have hb := b.isLt
    intro x hx
    simp only [Encoding.EncodeToString, List.mem_append, List.mem_cons, List.mem_singleton,
      List.not_mem_nil, or_false] at hx
    rcases hx with (hx | hx | hx) | hx
    · subst hx; exact hP _ (by omega)
    · subst hx; exact hP _ (by omega)
    · subst hx; exact hP _ (by omega)
    · split at hx
      · simp only [List.mem_singleton] at hx
        subst hx; exact hpad
      · simp at hx
  | a :: b :: c :: rest => by
    have ha := a.isLt
    have hb := b.isLt
    have hc := c.isLt
    have ih := EncodeToString_forall enc P hP hpad rest
    intro x hx
    simp only [Encoding.EncodeToString, List.mem_cons] at hx
    rcases hx with hx | hx | hx | hx | hx
    · subst hx; exact hP _ (by omega)
    · subst hx; exact hP _ (by omega)
    · subst hx; exact hP _ (by omega)
    · subst hx; exact hP _ (by omega)
    · exact ih x hx

/-- The output of `EncodeToString` holds no newline character. -/
theorem EncodeToString_no_newline (enc : Encoding) (h : enc.WF) (bs : Bytes) :
    ∀ x ∈ enc.EncodeToString bs, isNewline x = false :=
  EncodeToString_forall enc (fun x => isNewline x = false)
    (fun n hn => h.not_newline n hn) (by decide) bs

/-- The output of `EncodeToString` holds no dot. -/
theorem EncodeToString_no_dot (enc : Encoding) (h : enc.WF) (bs : Bytes) :
    (46 : Byte) ∉ enc.EncodeToString bs := fun hmem =>
  EncodeToString_forall enc (fun x => x ≠ 46)
    (fun n hn => h.ne_dot n hn) (by decide) bs 46 hmem rfl

/-- The round trip of `encoding/base64`: `DecodeString` inverts `EncodeToString`. -/
theorem DecodeString_EncodeToString (enc : Encoding) (h : enc.WF) (bs : Bytes) :
    enc.DecodeString (enc.EncodeToString bs) = some bs := by
  have hf : (enc.EncodeToString bs).filter (fun c => !isNewline c) = enc.EncodeToString bs := by
    apply List.filter_eq_self.mpr
    intro x hx
    simp [EncodeToString_no_newline enc h bs x hx]
  rw [Encoding.DecodeString, hf]
  exact decodeQuanta_EncodeToString enc h bs

/-! ## Properties of the credential envelope -/

set_option maxRecDepth 100000

theorem splitOn_of_not_mem (sep : Byte) : ∀ a : Bytes, sep ∉ a → splitOn sep a = [a]
  | [], _ => rfl
  | c :: cs, h => by
    have hc : ¬ c = sep := fun e => h (e ▸ List.mem_cons_self _ _)
    have hcs : sep ∉ cs := fun e => h (List.mem_cons_of_mem _ e)
    simp [splitOn, hc, splitOn_of_not_mem sep cs hcs]

theorem splitOn_append_sep (sep : Byte) (rest : Bytes) :
    ∀ a : Bytes, sep ∉ a → splitOn sep (a ++ sep :: rest) = a :: splitOn sep rest
  | [], _ => by simp [splitOn]
  | c :: cs, h => by
    have hc : ¬ c = sep := fun e => h (e ▸ List.mem_cons_self _ _)
    have hcs : sep ∉ cs := fun e => h (List.mem_cons_of_mem _ e)
    simp [splitOn, hc, splitOn_append_sep sep rest cs hcs]

/-- A signed token splits on its dots into exactly its three segments. -/
theorem splitOn_three (a b c : Bytes) (ha : (46 : Byte) ∉ a) (hb : (46 : Byte) ∉ b)
    (hc : (46 : Byte) ∉ c) : splitOn 46 (a ++ [46] ++ b ++ [46] ++ c) = [a, b, c] := by
  have e : a ++ [46] ++ b ++ [46] ++ c = a ++ 46 :: (b ++ 46 :: c) := by simp
  rw [e, splitOn_append_sep 46 _ a ha, splitOn_append_sep 46 _ b hb, splitOn_of_not_mem 46 c hc]

/-- Parsing a token made by `SignedString`: when the JSON layer reads back what it
wrote and the key function gives the signing key, the parser checks nothing but the
time claims, and then returns the claims that were signed. -/
theorem ParseWithClaims_SignedString (lib : Primitives) (claims : JWTClaims) (key : Bytes)
    (keyFunc : SigningMethod → Except AuthError Bytes) (now : Int)
    (hheader : lib.headerAlg (lib.marshalHeader (ascii "HS256")) = some (some (ascii "HS256")))
    (hjson : lib.unmarshalClaims (lib.marshalClaims claims) = some claims)
    (hkey : keyFunc (.HMAC .SHA256) = .ok key) :
    ParseWithClaims lib (SignedString lib claims key) keyFunc now =
      match validateClaims claims now with
      | .error e => .error e
      | .ok _ => .ok claims := by
  have hsplit : splitOn 46 (SignedString lib claims key) =
      [RawURLEncoding.EncodeToString (lib.marshalHeader (ascii "HS256")),
       RawURLEncoding.EncodeToString (lib.marshalClaims claims),
       RawURLEncoding.EncodeToString
         (lib.hmac .SHA256 key (SigningString lib (ascii "HS256") claims))] := by
    unfold SignedString
    rw [show SigningString lib (ascii "HS256") claims ++ [46] ++
          RawURLEncoding.EncodeToString
            (lib.hmac .SHA256 key (SigningString lib (ascii "HS256") claims)) =
        RawURLEncoding.EncodeToString (lib.marshalHeader (ascii "HS256")) ++ [46] ++
          RawURLEncoding.EncodeToString (lib.marshalClaims claims) ++ [46] ++
          RawURLEncoding.EncodeToString
            (lib.hmac .SHA256 key (SigningString lib (ascii "HS256") claims)) from rfl]
    exact splitOn_three _ _ _ (EncodeToString_no_dot _ RawURLEncoding_WF _)
      (EncodeToString_no_dot _ RawURLEncoding_WF _) (EncodeToString_no_dot _ RawURLEncoding_WF _)
  have hmethod : GetSigningMethod (ascii "HS256") = some (.HMAC .SHA256) := by decide
  unfold ParseWithClaims
  rw [hsplit]
  simp only [DecodeString_EncodeToString _ RawURLEncoding_WF, hheader, hjson, Option.bind_some,
    hmethod, hkey, SigningMethod.Verify]
  have : (RawURLEncoding.EncodeToString (lib.marshalHeader (ascii "HS256")) ++ [46] ++
      RawURLEncoding.EncodeToString (lib.marshalClaims claims)) =
      SigningString lib (ascii "HS256") claims := rfl
  rw [this, Option.some_bind, hmethod]
  simp only [hkey, decide_True, if_true]

/-- What `Validate` answers on a token made by `SignedString` under the manager's
signing key. -/
theorem Validate_SignedString (lib : Primitives) (m : JWTManager) (claims : JWTClaims)
    (now : Int)
    (hheader : lib.headerAlg (lib.marshalHeader (ascii "HS256")) = some (some (ascii "HS256")))
    (hjson : lib.unmarshalClaims (lib.marshalClaims claims) = some claims) :
    m.Validate lib (SignedString lib claims m.secretKey) now =
      match validateClaims claims now with
      | .error e => .error e
      | .ok _ => .ok claims := by
  unfold JWTManager.Validate
  rw [ParseWithClaims_SignedString lib claims m.secretKey m.keyFunc now hheader hjson rfl]
  cases validateClaims claims now <;> rfl

/-- The round trip of `encrypt` and `decrypt`. -/
theorem decrypt_encrypt (lib : Primitives) (m : JWTManager) (p nonce : Bytes)
    (hkey : validAESKeySize m.encryptionKey.length = true)
    (hnonce : nonce.length = gcmNonceSize)
    (haead : lib.gcmOpen m.encryptionKey nonce (lib.gcmSeal m.encryptionKey nonce p []) []
      = some p) :
    m.encrypt lib p (some nonce) =
      .ok (StdEncoding.EncodeToString (nonce ++ lib.gcmSeal m.encryptionKey nonce p [])) ∧
    m.decrypt lib (StdEncoding.EncodeToString (nonce ++ lib.gcmSeal m.encryptionKey nonce p []))
      = .ok p := by
  refine ⟨by simp [JWTManager.encrypt, hkey], ?_⟩
  unfold JWTManager.decrypt
  rw [DecodeString_EncodeToString _ StdEncoding_WF]
  have hlen : ¬ (nonce ++ lib.gcmSeal m.encryptionKey nonce p []).length < gcmNonceSize := by
    simp [hnonce]
  have htake : (nonce ++ lib.gcmSeal m.encryptionKey nonce p []).take gcmNonceSize = nonce := by
    rw [← hnonce]; simp
  have hdrop : (nonce ++ lib.gcmSeal m.encryptionKey nonce p []).drop gcmNonceSize
      = lib.gcmSeal m.encryptionKey nonce p [] := by
    rw [← hnonce]; simp
  simp only [hkey, if_true, hlen, if_false, htake, hdrop, haead]

theorem validateClaims_newClaims (m : JWTManager) (u e : Bytes) (t tIat now : Int) :
    validateClaims (m.newClaims u e t tIat) now =
      if now < NewNumericDate (t + m.expiry) then .ok ()
      else .error (.tokenInvalidClaims true false) := by
  by_cases h : now < NewNumericDate (t + m.expiry) <;>
    simp [validateClaims, JWTManager.newClaims, h]

theorem NewNumericDate_le (t : Int) : NewNumericDate t ≤ t := by
  unfold NewNumericDate
  omega

/-- C1. Round trip of the credential: with an encryption key of a length AES accepts,
a nonce of the GCM nonce size, and a GCM whose `Open` inverts its `Seal` on this
input, `encrypt(p)` returns a string `e` that `DecryptPassword` turns back into `p`;
`Generate(u, p)` returns the signed token of claims whose `EncryptedPassword` is that
`e`, so `DecryptPassword` of the claim gives `p`, and so does `DecryptPassword` of the
`EncryptedPassword` of any claims `Validate` returns for that token (when the JSON
layer reads back the header and claims it wrote). -/
theorem C1_credential_round_trip (lib : Primitives) (m : JWTManager) (u p nonce : Bytes)
    (nowExp nowIat : Int)
    (hkey : validAESKeySize m.encryptionKey.length = true)
    (hnonce : nonce.length = gcmNonceSize)
    (haead : lib.gcmOpen m.encryptionKey nonce (lib.gcmSeal m.encryptionKey nonce p []) []
      = some p) :
    ∃ e, m.encrypt lib p (some nonce) = .ok e ∧
      m.DecryptPassword lib e = .ok p ∧
      m.Generate lib u p (some nonce) nowExp nowIat =
        .ok (SignedString lib (m.newClaims u e nowExp nowIat) m.secretKey) ∧
      m.DecryptPassword lib (m.newClaims u e nowExp nowIat).EncryptedPassword = .ok p ∧
      (lib.headerAlg (lib.marshalHeader (ascii "HS256")) = some (some (ascii "HS256")) →
        lib.unmarshalClaims (lib.marshalClaims (m.newClaims u e nowExp nowIat)) =
          some (m.newClaims u e nowExp nowIat) →
        ∀ now claims,
          m.Validate lib (SignedString lib (m.newClaims u e nowExp nowIat) m.secretKey) now
            = .ok claims →
          m.DecryptPassword lib claims.EncryptedPassword = .ok p) := by
  obtain ⟨henc, hdec⟩ := decrypt_encrypt lib m p nonce hkey hnonce haead
  refine ⟨_, henc, hdec, ?_, hdec, ?_⟩
  · simp [JWTManager.Generate, henc]
  · intro hheader hjson now claims hval
    rw [Validate_SignedString lib m _ now hheader hjson] at hval
    cases hv : validateClaims (m.newClaims u
        (StdEncoding.EncodeToString (nonce ++ lib.gcmSeal m.encryptionKey nonce p []))
        nowExp nowIat) now with
    | error err => rw [hv] at hval; simp at hval
    | ok x =>
      rw [hv] at hval
      simp only [Except.ok.injEq] at hval
      rw [← hval]
      exact hdec

/-- C1, run on `demoManager` with the password `hunter2`. -/
theorem C1_credential_round_trip_witness :
    validAESKeySize demoManager.encryptionKey.length = true ∧
    demoNonce.length = gcmNonceSize ∧
    ∃ e, demoManager.encrypt refPrimitives (ascii "hunter2") (some demoNonce) = .ok e ∧
      demoManager.DecryptPassword refPrimitives e = .ok (ascii "hunter2") :=
  ⟨by decide, by decide,
    (C1_credential_round_trip refPrimitives demoManager (ascii "alice") (ascii "hunter2")
      demoNonce 500000000 500000000 (by decide) (by decide) (by decide)).imp
      (fun _ h => ⟨h.1, h.2.1⟩)⟩

/-- C2, refuted as stated: a token generated at 0.5 s with a lifetime of 1 s is
rejected at 1.2 s, before 0.5 s + 1 s, because its `exp` is the whole second 1 s. -/
theorem C2_rejected_before_lifetime_elapses :
    (1200000000 : Int) < 500000000 + demoManager.expiry ∧
    (demoManager.Generate refPrimitives (ascii "alice") (ascii "hunter2") (some demoNonce)
        500000000 500000000).bind
      (fun tok => demoManager.Validate refPrimitives tok 1200000000)
      = .error (.tokenInvalidClaims true false) := by
  decide

/-- C2 as amended. With a key AES accepts and a JSON layer that reads back the header
and claims it wrote, `Generate(u, p)` at time `t` returns a token which `Validate`
(same manager) accepts at every time before `t + expiry` truncated to the whole
second, returning claims with `Username = u`, and rejects with an error at every time
from that truncated instant on, hence at every time from `t + expiry` on. -/
theorem C2_validate_until_truncated_expiry (lib : Primitives) (m : JWTManager)
    (u p nonce : Bytes) (t tIat : Int)
    (hkey : validAESKeySize m.encryptionKey.length = true)
    (hheader : lib.headerAlg (lib.marshalHeader (ascii "HS256")) = some (some (ascii "HS256")))
    (hjson : lib.unmarshalClaims (lib.marshalClaims (m.newClaims u (m.sealed lib p nonce) t tIat))
      = some (m.newClaims u (m.sealed lib p nonce) t tIat)) :
    ∃ tok claims, m.Generate lib u p (some nonce) t tIat = .ok tok ∧
      claims.Username = u ∧
      (∀ now, now < NewNumericDate (t + m.expiry) → m.Validate lib tok now = .ok claims) ∧
      (∀ now, NewNumericDate (t + m.expiry) ≤ now →
        m.Validate lib tok now = .error (.tokenInvalidClaims true false)) ∧
      (∀ now, t + m.expiry ≤ now →
        m.Validate lib tok now = .error (.tokenInvalidClaims true false)) := by
  have henc : m.encrypt lib p (some nonce) = .ok (m.sealed lib p nonce) := by
    simp [JWTManager.encrypt, JWTManager.sealed, hkey]
  have hgen : m.Generate lib u p (some nonce) t tIat =
      .ok (SignedString lib (m.newClaims u (m.sealed lib p nonce) t tIat) m.secretKey) := by
    simp [JWTManager.Generate, henc]
  have hrej : ∀ now, NewNumericDate (t + m.expiry) ≤ now →
      m.Validate lib (SignedString lib (m.newClaims u (m.sealed lib p nonce) t tIat) m.secretKey)
        now = .error (.tokenInvalidClaims true false) := by
    intro now hnow
    rw [Validate_SignedString lib m _ now hheader hjson, validateClaims_newClaims]
    simp [not_lt.mpr hnow]
  refine ⟨_, m.newClaims u (m.sealed lib p nonce) t tIat, hgen, rfl, ?_, hrej, ?_⟩
  · intro now hnow
    rw [Validate_SignedString lib m _ now hheader hjson, validateClaims_newClaims]
    simp [hnow]
  · intro now hnow
    exact hrej now (le_trans (NewNumericDate_le _) hnow)

/-- C2 as amended, run on `demoManager`. -/
theorem C2_validate_until_truncated_expiry_witness :
    ∃ tok claims, demoManager.Generate refPrimitives (ascii "alice") (ascii "hunter2")
        (some demoNonce) 500000000 500000000 = .ok tok ∧
      claims.Username = ascii "alice" ∧
      (∀ now, now < NewNumericDate (500000000 + demoManager.expiry) →
        demoManager.Validate refPrimitives tok now = .ok claims) :=
  (C2_validate_until_truncated_expiry refPrimitives demoManager (ascii "alice") (ascii "hunter2")
    demoNonce 500000000 500000000 (by decide) (by decide) (by decide)).imp
    (fun _ h => h.imp (fun _ h' => ⟨h'.1, h'.2.1, h'.2.2.1⟩))

/-- C10, refuted as stated: a token minted under the issuer `elsewhere` with the same
signing key is accepted, unexpired, by the manager configured with issuer
`photosync`, and the claims returned carry the issuer `elsewhere`. -/
theorem C10_other_issuer_accepted :
    demoManager.issuer = ascii "photosync" ∧
    ((otherIssuerManager.Generate refPrimitives (ascii "alice") (ascii "hunter2")
        (some demoNonce) 500000000 500000000).bind
      (fun tok => demoManager.Validate refPrimitives tok 900000000)).map
      (fun claims => claims.registered.Issuer) = .ok (ascii "elsewhere") := by
  decide

/-- C10 as amended. `Validate` does not examine the issuer: its answer is the same
for every manager holding the same signing key, whatever issuer it was configured
with, and a token signed with the manager's signing key whose `exp` (if any) is
after `now` and whose `nbf` (if any) is not after `now` is accepted and its claims
returned, whatever their issuer. -/
theorem C10_issuer_not_examined (lib : Primitives) (m : JWTManager) (claims : JWTClaims)
    (now : Int)
    (hheader : lib.headerAlg (lib.marshalHeader (ascii "HS256")) = some (some (ascii "HS256")))
    (hjson : lib.unmarshalClaims (lib.marshalClaims claims) = some claims)
    (hexp : ∀ exp, claims.registered.ExpiresAt = some exp → now < exp)
    (hnbf : ∀ nbf, claims.registered.NotBefore = some nbf → nbf ≤ now) :
    m.Validate lib (SignedString lib claims m.secretKey) now = .ok claims ∧
    ∀ (m' : JWTManager) (tok : Bytes) (now' : Int), m'.secretKey = m.secretKey →
      m'.Validate lib tok now' = m.Validate lib tok now' := by
  constructor
  · rw [Validate_SignedString lib m claims now hheader hjson]
    have hv : validateClaims claims now = .ok () := by
      unfold validateClaims
      cases he : claims.registered.ExpiresAt with
      | none =>
        cases hn : claims.registered.NotBefore with
        | none => simp
        | some nbf => simp [not_lt.mpr (hnbf nbf hn)]
      | some exp =>
        cases hn : claims.registered.NotBefore with
        | none => simp [hexp exp he]
        | some nbf => simp [hexp exp he, not_lt.mpr (hnbf nbf hn)]
    rw [hv]
  · intro m' tok now' hk
    have : m'.keyFunc = m.keyFunc := by
      funext method
      cases method <;> simp [JWTManager.keyFunc, hk]
    simp [JWTManager.Validate, this]

/-- C10 as amended, run on `demoManager` with claims issued by `elsewhere`. -/
theorem C10_issuer_not_examined_witness :
    (otherIssuerManager.newClaims (ascii "alice") (ascii "x") 500000000 0).registered.Issuer
      ≠ demoManager.issuer ∧
    demoManager.Validate refPrimitives
      (SignedString refPrimitives
        (otherIssuerManager.newClaims (ascii "alice") (ascii "x") 500000000 0)
        demoManager.secretKey) 900000000
      = .ok (otherIssuerManager.newClaims (ascii "alice") (ascii "x") 500000000 0) :=
  ⟨by decide,
    (C10_issuer_not_examined refPrimitives demoManager
      (otherIssuerManager.newClaims (ascii "alice") (ascii "x") 500000000 0) 900000000
      (by decide) (by decide)
      (by intro exp h; cases h; decide) (by intro nbf h; cases h)).1⟩

/-! ## Single-bit changes of a token -/

theorem flipByte_ne : ∀ (k : Fin 8) (b : Byte), flipByte b k.val ≠ b := by decide

theorem flipBit_append (x y : Bytes) : ∀ i : Nat,
    flipBit (x ++ y) i =
      if i < 8 * x.length then flipBit x i ++ y else x ++ flipBit y (i - 8 * x.length) := by
  induction x with
  | nil => intro i; simp [flipBit]
  | cons b bs ih =>
    intro i
    have hc : (b :: bs) ++ y = b :: (bs ++ y) := rfl
    have hstep : flipBit (b :: (bs ++ y)) i =
        if i < 8 then flipByte b i :: (bs ++ y) else b :: flipBit (bs ++ y) (i - 8) := rfl
    have hstep2 : flipBit (b :: bs) i =
        if i < 8 then flipByte b i :: bs else b :: flipBit bs (i - 8) := rfl
    rw [hc, hstep, hstep2, ih, List.length_cons]
    by_cases h : i < 8
    · have h1 : i < 8 * (bs.length + 1) := by omega
      simp [h, h1]
    · by_cases h2 : i - 8 < 8 * bs.length
      · have h1 : i < 8 * (bs.length + 1) := by omega
        simp [h, h1, h2]
      · have h1 : ¬ i < 8 * (bs.length + 1) := by omega
        have e : i - 8 - 8 * bs.length = i - 8 * (bs.length + 1) := by omega
        simp [h, h1, h2, e]

theorem flipBit_ne : ∀ (x : Bytes) (i : Nat), i < 8 * x.length → flipBit x i ≠ x
  | [], i, h => by simp at h
  | b :: bs, i, h => by
    by_cases h8 : i < 8
    · simp only [flipBit, h8, if_true]
      intro e
      exact flipByte_ne ⟨i, h8⟩ b (List.cons.inj e).1
    · simp only [flipBit, h8, if_false]
      intro e
      have hlen : i - 8 < 8 * bs.length := by simp at h; omega
      exact flipBit_ne bs (i - 8) hlen (List.cons.inj e).2

theorem splitOn_ne_nil (sep : Byte) : ∀ s : Bytes, splitOn sep s ≠ []
  | [] => by simp [splitOn]
  | c :: cs => by
    by_cases h : c = sep
    · simp [splitOn, h]
    · simp only [splitOn, h, if_false]
      split <;> simp

/-- `strings.Split` returns one part more than there are separators. -/
theorem splitOn_length (sep : Byte) : ∀ s : Bytes, (splitOn sep s).length = s.count sep + 1
  | [] => by simp [splitOn]
  | c :: cs => by
    have ih := splitOn_length sep cs
    by_cases h : c = sep
    · subst h
      simp [splitOn, ih]
    · have hne : (c == sep) = false := by simpa using h
      simp only [splitOn, h, if_false]
      rw [List.count_cons, hne]
      cases hs : splitOn sep cs with
      | nil => exact absurd hs (splitOn_ne_nil sep cs)
      | cons a t => rw [hs] at ih; simpa using ih

/-- What the parser has checked when it returns claims. -/
theorem ParseWithClaims_ok_inv (lib : Primitives) (tok : Bytes)
    (keyFunc : SigningMethod → Except AuthError Bytes) (now : Int) (claims : JWTClaims)
    (h : ParseWithClaims lib tok keyFunc now = .ok claims) :
    ∃ a b c hb alg? cb method sig key, splitOn 46 tok = [a, b, c] ∧
      RawURLEncoding.DecodeString a = some hb ∧ lib.headerAlg hb = some alg? ∧
      RawURLEncoding.DecodeString b = some cb ∧ lib.unmarshalClaims cb = some claims ∧
      alg?.bind GetSigningMethod = some method ∧
      RawURLEncoding.DecodeString c = some sig ∧
      keyFunc method = .ok key ∧
      method.Verify lib (a ++ [46] ++ b) sig key = true ∧
      validateClaims claims now = .ok () := by
  unfold ParseWithClaims at h
  split at h
  · rename_i seg0 seg1 seg2 hsplit
    split at h
    · cases h
    rename_i hb hdec0
    split at h
    · cases h
    rename_i alg? halg
    split at h
    · cases h
    rename_i cb hdec1
    split at h
    · cases h
    rename_i cl hcl
    split at h
    · cases h
    rename_i method hmeth
    split at h
    · cases h
    rename_i sig hsig
    split at h
    · cases h
    rename_i key hkey
    split at h
    · rename_i hver
      split at h
      · cases h
      · rename_i hval
        cases h
        exact ⟨seg0, seg1, seg2, hb, alg?, cb, method, sig, key, hsplit, hdec0, halg, hdec1, hcl,
          hmeth, hsig, hkey, hver, hval⟩
    · cases h
  · cases h

/-- An accepted token has three dot-separated segments, a header naming an HMAC
method, and a third segment that decodes to the HMAC of the first two under the
signing key. -/
theorem Validate_ok_inv (lib : Primitives) (m : JWTManager) (tok : Bytes) (now : Int)
    (claims : JWTClaims) (h : m.Validate lib tok now = .ok claims) :
    ∃ a b c hb alg hash sig, splitOn 46 tok = [a, b, c] ∧
      RawURLEncoding.DecodeString a = some hb ∧ lib.headerAlg hb = some (some alg) ∧
      GetSigningMethod alg = some (.HMAC hash) ∧
      RawURLEncoding.DecodeString c = some sig ∧
      lib.hmac hash m.secretKey (a ++ [46] ++ b) = sig := by
  have hp : ParseWithClaims lib tok m.keyFunc now = .ok claims := by
    unfold JWTManager.Validate at h
    split at h
    · cases h
    · rename_i c' hc'
      cases h
      exact hc'
  obtain ⟨a, b, c, hb, alg?, cb, method, sig, key, hsplit, hdec0, halg, _, _, hmeth, hsig, hkey,
    hver, _⟩ := ParseWithClaims_ok_inv lib tok m.keyFunc now claims hp
  cases alg? with
  | none => simp at hmeth
  | some alg =>
    simp only [Option.some_bind] at hmeth
    cases method with
    | HMAC hash =>
      simp only [JWTManager.keyFunc, Except.ok.injEq] at hkey
      subst hkey
      simp only [SigningMethod.Verify, decide_eq_true_eq] at hver
      exact ⟨a, b, c, hb, alg, hash, sig, hsplit, hdec0, halg, hmeth, hsig, hver⟩
    | RSA _ => simp [JWTManager.keyFunc] at hkey
    | RSAPSS _ => simp [JWTManager.keyFunc] at hkey
    | ECDSA _ => simp [JWTManager.keyFunc] at hkey
    | Ed25519 => simp [JWTManager.keyFunc] at hkey
    | none => simp [JWTManager.keyFunc] at hkey

/-- `Validate` reads the third segment only through its decoded bytes. -/
theorem Validate_congr_sig (lib : Primitives) (m : JWTManager) (tok tok' a b c c' : Bytes)
    (now : Int) (hs : splitOn 46 tok = [a, b, c]) (hs' : splitOn 46 tok' = [a, b, c'])
    (hdec : RawURLEncoding.DecodeString c' = RawURLEncoding.DecodeString c) :
    m.Validate lib tok' now = m.Validate lib tok now := by
  unfold JWTManager.Validate ParseWithClaims
  rw [hs, hs']
  simp only [hdec]

theorem count_dot_of_not_mem (x : Bytes) (h : (46 : Byte) ∉ x) : x.count 46 = 0 :=
  List.count_eq_zero.mpr h

/-- Where a single inverted bit can fall in a token of three dot-free segments: it
changes the number of dots, or it changes exactly one segment and leaves it dot-free. -/
theorem flipBit_token_cases (a b c : Bytes) (ha : (46 : Byte) ∉ a) (hb : (46 : Byte) ∉ b)
    (hc : (46 : Byte) ∉ c) (i : Nat) (hi : i < 8 * (a ++ [46] ++ b ++ [46] ++ c).length) :
    (flipBit (a ++ [46] ++ b ++ [46] ++ c) i).count 46 ≠ 2 ∨
    (∃ a', a' ≠ a ∧ (46 : Byte) ∉ a' ∧
      flipBit (a ++ [46] ++ b ++ [46] ++ c) i = a' ++ [46] ++ b ++ [46] ++ c) ∨
    (∃ b', b' ≠ b ∧ (46 : Byte) ∉ b' ∧
      flipBit (a ++ [46] ++ b ++ [46] ++ c) i = a ++ [46] ++ b' ++ [46] ++ c) ∨
    (∃ c', c' ≠ c ∧ (46 : Byte) ∉ c' ∧
      flipBit (a ++ [46] ++ b ++ [46] ++ c) i = a ++ [46] ++ b ++ [46] ++ c') := by
  have ca := count_dot_of_not_mem a ha
  have cb := count_dot_of_not_mem b hb
  have cc := count_dot_of_not_mem c hc
  have e : a ++ [46] ++ b ++ [46] ++ c = a ++ (46 :: (b ++ (46 :: c))) := by simp
  have hlen : i < 8 * (a.length + (b.length + (c.length + 1) + 1)) := by
    rw [e] at hi; simpa using hi
  rw [e, flipBit_append]
  by_cases h1 : i < 8 * a.length
  · rw [if_pos h1]
    by_cases hm : (46 : Byte) ∈ flipBit a i
    · left
      have : 0 < (flipBit a i).count 46 := List.count_pos_iff.mpr hm
      simp [List.count_append, List.count_cons, cb, cc]
      omega
    · right; left
      exact ⟨flipBit a i, flipBit_ne a i h1, hm, by simp⟩
  · rw [if_neg h1]
    have hstep : flipBit (46 :: (b ++ (46 :: c))) (i - 8 * a.length) =
        if i - 8 * a.length < 8 then flipByte 46 (i - 8 * a.length) :: (b ++ (46 :: c))
        else 46 :: flipBit (b ++ (46 :: c)) (i - 8 * a.length - 8) := rfl
    rw [hstep]
    by_cases h2 : i - 8 * a.length < 8
    · rw [if_pos h2]
      left
      have hx : flipByte 46 (i - 8 * a.length) ≠ 46 := flipByte_ne ⟨_, h2⟩ 46
      have hx' : (flipByte 46 (i - 8 * a.length) == (46 : Byte)) = false := by simpa using hx
      simp [List.count_append, List.count_cons, ca, cb, cc, hx']
    · rw [if_neg h2, flipBit_append]
      by_cases h3 : i - 8 * a.length - 8 < 8 * b.length
      · rw [if_pos h3]
        by_cases hm : (46 : Byte) ∈ flipBit b (i - 8 * a.length - 8)
        · left
          have : 0 < (flipBit b (i - 8 * a.length - 8)).count 46 := List.count_pos_iff.mpr hm
          simp [List.count_append, List.count_cons, ca, cc]
          omega
        · right; right; left
          exact ⟨flipBit b (i - 8 * a.length - 8), flipBit_ne b _ h3, hm, by simp⟩
      · rw [if_neg h3]
        have hstep2 : flipBit (46 :: c) (i - 8 * a.length - 8 - 8 * b.length) =
            if i - 8 * a.length - 8 - 8 * b.length < 8 then
              flipByte 46 (i - 8 * a.length - 8 - 8 * b.length) :: c
            else 46 :: flipBit c (i - 8 * a.length - 8 - 8 * b.length - 8) := rfl
        rw [hstep2]
        by_cases h4 : i - 8 * a.length - 8 - 8 * b.length < 8
        · rw [if_pos h4]
          left
          have hx : flipByte 46 (i - 8 * a.length - 8 - 8 * b.length) ≠ 46 :=
            flipByte_ne ⟨_, h4⟩ 46
          have hx' : (flipByte 46 (i - 8 * a.length - 8 - 8 * b.length) == (46 : Byte)) = false := by
            simpa using hx
          simp [List.count_append, List.count_cons, ca, cb, cc, hx']
        · rw [if_neg h4]
          have h5 : i - 8 * a.length - 8 - 8 * b.length - 8 < 8 * c.length := by omega
          by_cases hm : (46 : Byte) ∈ flipBit c (i - 8 * a.length - 8 - 8 * b.length - 8)
          · left
            have : 0 < (flipBit c (i - 8 * a.length - 8 - 8 * b.length - 8)).count 46 :=
              List.count_pos_iff.mpr hm
            simp [List.count_append, List.count_cons, ca, cb]
            omega
          · right; right; right
            exact ⟨flipBit c _, flipBit_ne c _ h5, hm, by simp⟩

theorem Generate_ok_inv (lib : Primitives) (m : JWTManager) (u p : Bytes)
    (randRead : Option Bytes) (t tIat : Int) (tok : Bytes)
    (hgen : m.Generate lib u p randRead t tIat = .ok tok) :
    ∃ e, m.encrypt lib p randRead = .ok e ∧
      tok = SignedString lib (m.newClaims u e t tIat) m.secretKey := by
  unfold JWTManager.Generate at hgen
  split at hgen
  · cases hgen
  · rename_i e he
    cases hgen
    exact ⟨e, he, rfl⟩

/-- C11 as amended. For every token produced by `Generate` and every bit position of
it, the string with that bit inverted is rejected by `Validate` with an error, unless
(a) the first two segments are unchanged and the third still decodes to the same
signature bytes (then `Validate` answers as on the original token), or (b) the flip
lies in the first two segments and the flipped token collides: its third segment is the
original signature, its first segment decodes to a header that names an HMAC method,
and the HMAC, under that method and the signing key, of its own first two segments
joined by a dot (which differ from the original signing input) equals the original
signature. -/
theorem C11_flip_rejected_unless_same_signature (lib : Primitives) (m : JWTManager)
    (u p : Bytes) (randRead : Option Bytes) (t tIat : Int) (tok : Bytes) (now : Int) (i : Nat)
    (hgen : m.Generate lib u p randRead t tIat = .ok tok)
    (hheader : lib.headerAlg (lib.marshalHeader (ascii "HS256")) = some (some (ascii "HS256")))
    (hi : i < 8 * tok.length) :
    ∃ claims, tok = SignedString lib claims m.secretKey ∧
      ((∃ err, m.Validate lib (flipBit tok i) now = .error err) ∨
       (∃ seg2, flipBit tok i = SigningString lib (ascii "HS256") claims ++ [46] ++ seg2 ∧
          RawURLEncoding.DecodeString seg2 =
            some (lib.hmac .SHA256 m.secretKey (SigningString lib (ascii "HS256") claims)) ∧
          m.Validate lib (flipBit tok i) now = m.Validate lib tok now) ∨
       (∃ seg0 seg1 hb alg hash,
          flipBit tok i = seg0 ++ [46] ++ seg1 ++ [46] ++
            RawURLEncoding.EncodeToString
              (lib.hmac .SHA256 m.secretKey (SigningString lib (ascii "HS256") claims)) ∧
          seg0 ++ [46] ++ seg1 ≠ SigningString lib (ascii "HS256") claims ∧
          RawURLEncoding.DecodeString seg0 = some hb ∧
          lib.headerAlg hb = some (some alg) ∧
          GetSigningMethod alg = some (.HMAC hash) ∧
          lib.hmac hash m.secretKey (seg0 ++ [46] ++ seg1) =
            lib.hmac .SHA256 m.secretKey (SigningString lib (ascii "HS256") claims))) := by
  obtain ⟨e, _, htok⟩ := Generate_ok_inv lib m u p randRead t tIat tok hgen
  refine ⟨m.newClaims u e t tIat, htok, ?_⟩
  generalize m.newClaims u e t tIat = claims at htok
  subst htok
  -- the three segments of the token
  have ha := EncodeToString_no_dot _ RawURLEncoding_WF (lib.marshalHeader (ascii "HS256"))
  have hb := EncodeToString_no_dot _ RawURLEncoding_WF (lib.marshalClaims claims)
  have hc := EncodeToString_no_dot _ RawURLEncoding_WF
    (lib.hmac .SHA256 m.secretKey (SigningString lib (ascii "HS256") claims))
  have hform : SignedString lib claims m.secretKey =
      RawURLEncoding.EncodeToString (lib.marshalHeader (ascii "HS256")) ++ [46] ++
        RawURLEncoding.EncodeToString (lib.marshalClaims claims) ++ [46] ++
        RawURLEncoding.EncodeToString
          (lib.hmac .SHA256 m.secretKey (SigningString lib (ascii "HS256") claims)) := rfl
  have htext : SigningString lib (ascii "HS256") claims =
      RawURLEncoding.EncodeToString (lib.marshalHeader (ascii "HS256")) ++ [46] ++
        RawURLEncoding.EncodeToString (lib.marshalClaims claims) := rfl
  have hsplit := splitOn_three _ _ _ ha hb hc
  rw [← hform] at hsplit
  cases hv : m.Validate lib (flipBit (SignedString lib claims m.secretKey) i) now with
  | error err => exact Or.inl ⟨err, rfl⟩
  | ok cl =>
    right
    obtain ⟨a1, b1, c1, hb1, alg, hash, sig, hs, hdec0, halg, hmeth, hsig, hmac⟩ :=
      Validate_ok_inv lib m _ now cl hv
    have hcount : (flipBit (SignedString lib claims m.secretKey) i).count 46 = 2 := by
      have := splitOn_length 46 (flipBit (SignedString lib claims m.secretKey) i)
      rw [hs] at this
      simp at this
      omega
    rw [hform] at hi hcount hs
    rcases flipBit_token_cases _ _ _ ha hb hc i hi with h | ⟨a', hne, hnd, hflip⟩ |
        ⟨b', hne, hnd, hflip⟩ | ⟨c', hne, hnd, hflip⟩
    · exact absurd hcount h
    · right
      rw [hflip, splitOn_three _ _ _ hnd hb hc] at hs
      simp only [List.cons.injEq, and_true] at hs
      obtain ⟨h1, h2, h3⟩ := hs
      subst h1; subst h2; subst h3
      rw [DecodeString_EncodeToString _ RawURLEncoding_WF, Option.some.injEq] at hsig
      refine ⟨_, _, hb1, alg, hash, by rw [hform, hflip], ?_, hdec0, halg, hmeth,
        hmac.trans hsig.symm⟩
      rw [htext]
      intro heq
      exact hne (List.append_cancel_right (List.append_cancel_right heq))
    · right
      rw [hflip, splitOn_three _ _ _ ha hnd hc] at hs
      simp only [List.cons.injEq, and_true] at hs
      obtain ⟨h1, h2, h3⟩ := hs
      subst h1; subst h2; subst h3
      rw [DecodeString_EncodeToString _ RawURLEncoding_WF, Option.some.injEq] at hsig
      refine ⟨_, _, hb1, alg, hash, by rw [hform, hflip], ?_, hdec0, halg, hmeth,
        hmac.trans hsig.symm⟩
      rw [htext]
      intro heq
      exact hne (List.append_cancel_left heq)
    · left
      have hs' := hs
      rw [hflip, splitOn_three _ _ _ ha hb hnd] at hs
      simp only [List.cons.injEq, and_true] at hs
      obtain ⟨h1, h2, h3⟩ := hs
      subst h1; subst h2; subst h3
      rw [DecodeString_EncodeToString _ RawURLEncoding_WF, Option.some.injEq] at hdec0
      subst hdec0
      rw [hheader] at halg
      simp only [Option.some.injEq] at halg
      subst halg
      have hm256 : GetSigningMethod (ascii "HS256") = some (.HMAC .SHA256) := by decide
      rw [hm256] at hmeth
      simp only [Option.some.injEq, SigningMethod.HMAC.injEq] at hmeth
      subst hmeth
      rw [← htext] at hmac
      refine ⟨c', ?_, ?_, ?_⟩
      · rw [hform, hflip, htext]
      · rw [hsig, hmac]
      · rw [← hv]
        rw [hflip] at hs'
        refine Validate_congr_sig lib m _ _ _ _ _ c' now hsplit ?_ ?_
        · rw [hform, hflip]; exact hs'
        · rw [hsig, DecodeString_EncodeToString _ RawURLEncoding_WF, hmac]

/-- C11, refuted as stated: in the token generated for `alice`, inverting bit 1 of the
last character (bit 809 of the string) gives a different string that `Validate`
accepts: the last character of the signature segment carries two unused low bits,
which the non-strict base64 decoder ignores. -/
theorem C11_flipped_signature_bit_accepted :
    demoManager.Generate refPrimitives (ascii "alice") (ascii "hunter2") (some demoNonce)
      500000000 500000000 = .ok demoToken ∧
    809 < 8 * demoToken.length ∧
    flipBit demoToken 809 ≠ demoToken ∧
    (demoManager.Validate refPrimitives (flipBit demoToken 809) 900000000).map
      (fun claims => claims.Username) = .ok (ascii "alice") := by
  decide

/-- C11 as amended, run on the token of `demoManager` at bit 809. -/
theorem C11_flip_rejected_unless_same_signature_witness :
    ∃ claims, demoToken = SignedString refPrimitives claims demoManager.secretKey ∧
      ((∃ err, demoManager.Validate refPrimitives (flipBit demoToken 809) 900000000
          = .error err) ∨
       (∃ seg2, flipBit demoToken 809 =
            SigningString refPrimitives (ascii "HS256") claims ++ [46] ++ seg2 ∧
          RawURLEncoding.DecodeString seg2 =
            some (refPrimitives.hmac .SHA256 demoManager.secretKey
              (SigningString refPrimitives (ascii "HS256") claims)) ∧
          demoManager.Validate refPrimitives (flipBit demoToken 809) 900000000 =
            demoManager.Validate refPrimitives demoToken 900000000) ∨
       (∃ seg0 seg1 hb alg hash,
          flipBit demoToken 809 = seg0 ++ [46] ++ seg1 ++ [46] ++
            RawURLEncoding.EncodeToString
              (refPrimitives.hmac .SHA256 demoManager.secretKey
                (SigningString refPrimitives (ascii "HS256") claims)) ∧
          seg0 ++ [46] ++ seg1 ≠ SigningString refPrimitives (ascii "HS256") claims ∧
          RawURLEncoding.DecodeString seg0 = some hb ∧
          refPrimitives.headerAlg hb = some (some alg) ∧
          GetSigningMethod alg = some (.HMAC hash) ∧
          refPrimitives.hmac hash demoManager.secretKey (seg0 ++ [46] ++ seg1) =
            refPrimitives.hmac .SHA256 demoManager.secretKey
              (SigningString refPrimitives (ascii "HS256") claims))) :=
  C11_flip_rejected_unless_same_signature refPrimitives demoManager (ascii "alice")
    (ascii "hunter2") (some demoNonce) 500000000 500000000 demoToken 900000000 809
    (by decide) (by decide) (by decide)

/-- Runs of `Validate` on the token of `demoManager` with one bit inverted in the
header (bit 3), in the claims (bits 64 and 100) and in the signature (bit 805): each
is rejected. -/
theorem Validate_flipped_examples :
    demoManager.Validate refPrimitives (flipBit demoToken 3) 900000000 =
      .error .tokenMalformed ∧
    demoManager.Validate refPrimitives (flipBit demoToken 64) 900000000 =
      .error .tokenSignatureInvalid ∧
    demoManager.Validate refPrimitives (flipBit demoToken 100) 900000000 =
      .error .tokenMalformed ∧
    demoManager.Validate refPrimitives (flipBit demoToken 805) 900000000 =
      .error .tokenSignatureInvalid := by
  decide

/-- C12. `DecryptPassword` returns a plaintext `p` exactly when the key has a length
AES accepts and the base64-decoded input is a nonce of the GCM nonce size followed by
a ciphertext that GCM `Open` authenticates under the manager's key and opens to `p`;
it returns an error for every input whose decoded length is below the nonce size, and
for every input on which `Open` fails to authenticate. -/
theorem C12_decrypt_only_authenticated (lib : Primitives) (m : JWTManager) (e : Bytes) :
    (∀ p, m.DecryptPassword lib e = .ok p ↔
      validAESKeySize m.encryptionKey.length = true ∧
      ∃ nonce ct, StdEncoding.DecodeString e = some (nonce ++ ct) ∧
        nonce.length = gcmNonceSize ∧
        lib.gcmOpen m.encryptionKey nonce ct [] = some p) ∧
    (∀ data, StdEncoding.DecodeString e = some data → data.length < gcmNonceSize →
      m.DecryptPassword lib e =
        .error (if validAESKeySize m.encryptionKey.length then .ciphertextTooShort
                else .keySizeError m.encryptionKey.length)) ∧
    (∀ data, StdEncoding.DecodeString e = some data →
      lib.gcmOpen m.encryptionKey (data.take gcmNonceSize) (data.drop gcmNonceSize) []
        = Option.none →
      ∃ err, m.DecryptPassword lib e = .error err) ∧
    (StdEncoding.DecodeString e = Option.none → m.DecryptPassword lib e = .error .corruptInput) := by
  refine ⟨?_, ?_, ?_, ?_⟩
  · intro p
    unfold JWTManager.DecryptPassword JWTManager.decrypt
    constructor
    · intro h
      split at h
      · cases h
      rename_i data hdata
      split at h
      · rename_i hkey
        split at h
        · cases h
        rename_i hlen
        split at h
        · cases h
        rename_i pt hopen
        cases h
        refine ⟨hkey, data.take gcmNonceSize, data.drop gcmNonceSize, ?_, ?_, hopen⟩
        · rw [List.take_append_drop]; exact hdata
        · rw [List.length_take]; omega
      · cases h
    · rintro ⟨hkey, nonce, ct, hdata, hn, hopen⟩
      have htake : (nonce ++ ct).take gcmNonceSize = nonce := by rw [← hn]; simp
      have hdrop : (nonce ++ ct).drop gcmNonceSize = ct := by rw [← hn]; simp
      have hlen : ¬ (nonce ++ ct).length < gcmNonceSize := by simp [hn]
      simp only [hdata, hkey, if_true, hlen, if_false, htake, hdrop, hopen]
  · intro data hdata hlen
    unfold JWTManager.DecryptPassword JWTManager.decrypt
    by_cases hkey : validAESKeySize m.encryptionKey.length = true
    · simp [hdata, hkey, hlen]
    · simp [hdata, hkey]
  · intro data hdata hopen
    unfold JWTManager.DecryptPassword JWTManager.decrypt
    by_cases hkey : validAESKeySize m.encryptionKey.length = true
    · by_cases hlen : data.length < gcmNonceSize
      · exact ⟨.ciphertextTooShort, by simp [hdata, hkey, hlen]⟩
      · exact ⟨.messageAuthenticationFailed,
          by simp only [hdata, hkey, if_true, hlen, if_false, hopen]⟩
    · exact ⟨.keySizeError m.encryptionKey.length, by simp [hdata, hkey]⟩
  · intro hdata
    unfold JWTManager.DecryptPassword JWTManager.decrypt
    simp [hdata]

theorem JWTMiddleware_of_parts (lib : Primitives) (m : JWTManager) (authHeader tok : Bytes)
    (now : Int) (hs : splitOn 32 authHeader = [ascii "Bearer", tok]) :
    JWTMiddleware lib m authHeader now =
      match m.Validate lib tok now with
      | .error _ => .respond (httpError "invalid token" StatusUnauthorized)
      | .ok claims => .next claims := by
  have hne : authHeader ≠ [] := by
    intro h
    rw [h] at hs
    simp [splitOn] at hs
  unfold JWTMiddleware
  simp [hne, hs]

/-- C13. Uniform rejection: for any two requests whose `Authorization` header splits
into `Bearer` and a token, if `Validate` rejects both tokens, whatever the two
errors, the middleware gives both the same answer, status 401 with the body
`invalid token`, and does not invoke the wrapped handler. -/
theorem C13_uniform_rejection (lib : Primitives) (m : JWTManager) (h1 h2 tok1 tok2 : Bytes)
    (now1 now2 : Int) (e1 e2 : AuthError)
    (hs1 : splitOn 32 h1 = [ascii "Bearer", tok1])
    (hs2 : splitOn 32 h2 = [ascii "Bearer", tok2])
    (hr1 : m.Validate lib tok1 now1 = .error e1)
    (hr2 : m.Validate lib tok2 now2 = .error e2) :
    JWTMiddleware lib m h1 now1 = JWTMiddleware lib m h2 now2 ∧
    JWTMiddleware lib m h1 now1 =
      .respond { status := 401, body := Body.text (ascii "invalid token" ++ [10]) } ∧
    (∀ claims, JWTMiddleware lib m h1 now1 ≠ .next claims) := by
  rw [JWTMiddleware_of_parts lib m h1 tok1 now1 hs1, JWTMiddleware_of_parts lib m h2 tok2 now2 hs2,
    hr1, hr2]
  refine ⟨rfl, rfl, ?_⟩
  intro claims h
  cases h

/-- C13, on three rejected tokens: one that is not a token at all and the expired
token of `demoManager`, and the same ones against each other. -/
theorem C13_uniform_rejection_witness :
    JWTMiddleware refPrimitives demoManager (ascii "Bearer garbage") 0 =
      JWTMiddleware refPrimitives demoManager (ascii "Bearer " ++ demoToken) 1200000000 ∧
    JWTMiddleware refPrimitives demoManager (ascii "Bearer garbage") 0 =
      .respond { status := 401, body := Body.text (ascii "invalid token" ++ [10]) } :=
  have h := C13_uniform_rejection refPrimitives demoManager (ascii "Bearer garbage")
    (ascii "Bearer " ++ demoToken) (ascii "garbage") demoToken 0 1200000000
    .tokenMalformed (.tokenInvalidClaims true false)
    (by decide) (by decide) (by decide) (by decide)
  ⟨h.1, h.2.1⟩

/-- C20. The middleware invokes the wrapped handler, with the context value `claims`
set to `c`, exactly when the `Authorization` header split on single spaces is the two
parts `Bearer` and a token that `Validate` accepts with claims `c`; in every other
case it answers with status 401 and does not invoke the handler. -/
theorem C20_middleware_gate (lib : Primitives) (m : JWTManager) (authHeader : Bytes) (now : Int) :
    (∀ c, JWTMiddleware lib m authHeader now = .next c ↔
      ∃ tok, splitOn 32 authHeader = [ascii "Bearer", tok] ∧ m.Validate lib tok now = .ok c) ∧
    ((¬ ∃ tok c, splitOn 32 authHeader = [ascii "Bearer", tok] ∧ m.Validate lib tok now = .ok c) →
      ∃ msg, JWTMiddleware lib m authHeader now =
        .respond { status := 401, body := Body.text msg }) := by
  by_cases hs : ∃ tok, splitOn 32 authHeader = [ascii "Bearer", tok]
  · obtain ⟨tok, hs⟩ := hs
    rw [JWTMiddleware_of_parts lib m authHeader tok now hs]
    constructor
    · intro c
      constructor
      · intro h
        refine ⟨tok, hs, ?_⟩
        cases hv : m.Validate lib tok now with
        | error e => rw [hv] at h; cases h
        | ok c' => rw [hv] at h; cases h; rfl
      · rintro ⟨tok', hs', hv⟩
        rw [hs] at hs'
        simp only [List.cons.injEq, and_true, true_and] at hs'
        subst hs'
        rw [hv]
    · intro hno
      cases hv : m.Validate lib tok now with
      | error e => exact ⟨_, rfl⟩
      | ok c => exact absurd ⟨tok, c, hs, hv⟩ hno
  · have hresp : ∃ msg, JWTMiddleware lib m authHeader now =
        .respond { status := 401, body := Body.text msg } := by
      unfold JWTMiddleware
      by_cases he : authHeader = []
      · exact ⟨ascii "missing authorization header" ++ [10],
          by simp [he, httpError, StatusUnauthorized]⟩
      · have hbad : (splitOn 32 authHeader).length ≠ 2 ∨
            (splitOn 32 authHeader).getD 0 [] ≠ ascii "Bearer" := by
          by_contra hcon
          simp only [not_or, not_not] at hcon
          obtain ⟨hl, hb⟩ := hcon
          match hsp : splitOn 32 authHeader, hl, hb with
          | [p0, p1], _, hb =>
            simp only [List.getD_cons_zero] at hb
            exact hs ⟨p1, by rw [hsp, hb]⟩
        exact ⟨ascii "invalid authorization header" ++ [10],
          by simp only [he, if_false, hbad, if_true, httpError, StatusUnauthorized]⟩
    constructor
    · intro c
      constructor
      · intro h
        obtain ⟨msg, hm⟩ := hresp
        rw [hm] at h
        cases h
      · rintro ⟨tok, hs', _⟩
        exact absurd ⟨tok, hs'⟩ hs
    · intro _
      exact hresp

/-- Runs of the middleware: no header, another scheme, two spaces, a lower-case
scheme name, a token that is not one, and the token of `demoManager` in its lifetime. -/
theorem JWTMiddleware_examples :
    JWTMiddleware refPrimitives demoManager [] 900000000 =
      .respond (httpError "missing authorization header" 401) ∧
    JWTMiddleware refPrimitives demoManager (ascii "Basic " ++ demoToken) 900000000 =
      .respond (httpError "invalid authorization header" 401) ∧
    JWTMiddleware refPrimitives demoManager (ascii "Bearer  " ++ demoToken) 900000000 =
      .respond (httpError "invalid authorization header" 401) ∧
    JWTMiddleware refPrimitives demoManager (ascii "bearer " ++ demoToken) 900000000 =
      .respond (httpError "invalid authorization header" 401) ∧
    JWTMiddleware refPrimitives demoManager (ascii "Bearer garbage") 900000000 =
      .respond (httpError "invalid token" 401) ∧
    JWTMiddleware refPrimitives demoManager (ascii "Bearer " ++ demoToken) 900000000 =
      .next (demoManager.newClaims (ascii "alice")
        (demoManager.sealed refPrimitives (ascii "hunter2") demoNonce) 500000000 500000000) := by
  decide

/-- C14. Credential errors never reach the backend: in each photo handler, when
`DecryptPassword` fails on the `EncryptedPassword` claim, the handler makes no call on
the pool (`GetConnection`, hence no backend `Connect` or `Close`) and none on the
backend (`List`, `Upload`, `Download`, `Delete`), leaves the pool as it was, and
answers 401 `authentication error`; `UploadPhoto` does so once the multipart form
has parsed and holds a `photo` part, which it checks before it decrypts (without
them it answers 400, also without any call). -/
theorem C14_credential_error_no_backend_call (lib : Primitives) (h : PhotoHandler)
    (claims : JWTClaims) (photoID : Bytes) (now : Int) (env : BackendReplies) (err : AuthError)
    (hdec : h.jwtManager.DecryptPassword lib claims.EncryptedPassword = .error err) :
    h.ListPhotos lib claims now env =
      ⟨httpError "authentication error" 401, h.pool, []⟩ ∧
    h.DownloadPhoto lib claims photoID now env =
      ⟨httpError "authentication error" 401, h.pool, []⟩ ∧
    h.DeletePhoto lib claims photoID now env =
      ⟨httpError "authentication error" 401, h.pool, []⟩ ∧
    h.GetPhotoInfo lib claims photoID now env =
      ⟨httpError "authentication error" 401, h.pool, []⟩ ∧
    (∀ filename data, h.UploadPhoto lib claims Option.none (.ok (filename, data)) now env =
      ⟨httpError "authentication error" 401, h.pool, []⟩) ∧
    (∀ parseForm formFile,
      (h.UploadPhoto lib claims parseForm formFile now env).calls = [] ∧
      (h.UploadPhoto lib claims parseForm formFile now env).pool = h.pool ∧
      ((h.UploadPhoto lib claims parseForm formFile now env).response.status = 401 ∨
       (h.UploadPhoto lib claims parseForm formFile now env).response.status = 400)) := by
  refine ⟨?_, ?_, ?_, ?_, ?_, ?_⟩
  · simp [PhotoHandler.ListPhotos, hdec, StatusUnauthorized]
  · simp [PhotoHandler.DownloadPhoto, hdec, StatusUnauthorized]
  · simp [PhotoHandler.DeletePhoto, hdec, StatusUnauthorized]
  · simp [PhotoHandler.GetPhotoInfo, hdec, StatusUnauthorized]
  · intro filename data
    simp [PhotoHandler.UploadPhoto, hdec, StatusUnauthorized]
  · intro parseForm formFile
    cases parseForm with
    | some e => simp [PhotoHandler.UploadPhoto, httpError]
    | none =>
      cases formFile with
      | error e => simp [PhotoHandler.UploadPhoto, httpError]
      | ok fd =>
        obtain ⟨filename, data⟩ := fd
        simp [PhotoHandler.UploadPhoto, hdec, httpError, StatusUnauthorized]

/-- C14, on a handler holding `demoManager` and a claim that is not base64. -/
theorem C14_credential_error_no_backend_call_witness :
    (PhotoHandler.mk (NewGenericConnectionPool 5) demoManager).ListPhotos refPrimitives
      (demoManager.newClaims (ascii "alice") (ascii "!") 0 0) 0
      ⟨.ok 1, .ok [], Option.none, .ok [], Option.none⟩ =
      ⟨httpError "authentication error" 401, NewGenericConnectionPool 5, []⟩ :=
  (C14_credential_error_no_backend_call refPrimitives
    (PhotoHandler.mk (NewGenericConnectionPool 5) demoManager)
    (demoManager.newClaims (ascii "alice") (ascii "!") 0 0) [] 0
    ⟨.ok 1, .ok [], Option.none, .ok [], Option.none⟩ .corruptInput (by decide)).1

/-! ## Properties of the configuration -/

theorem goSlice_isSome (s : Bytes) (lo hi : Nat) (h1 : lo ≤ hi) (h2 : hi ≤ s.length) :
    ∃ w, goSlice s lo hi = some w := by
  exact ⟨(s.drop lo).take (hi - lo), by simp [goSlice, h1, h2]⟩

/-- The loop of `containsSubstring` returns a boolean: no slice is out of range and the
fuel is enough. -/
theorem containsSubstringLoop_total (s substr : Bytes) :
    ∀ (fuel i : Nat), i ≤ s.length + 1 → s.length + 1 < fuel + i →
      ∃ b, containsSubstringLoop s substr fuel i = some b
  | 0, i, h1, h2 => by omega
  | fuel + 1, i, h1, h2 => by
    unfold containsSubstringLoop
    by_cases hc : (i : Int) ≤ (s.length : Int) - (substr.length : Int)
    · rw [if_pos hc]
      have hr : i + substr.length ≤ s.length := by omega
      obtain ⟨w, hw⟩ := goSlice_isSome s i (i + substr.length) (by omega) hr
      rw [hw]
      by_cases hws : w = substr
      · exact ⟨true, by simp [hws]⟩
      · simp only [hws, if_false]
        exact containsSubstringLoop_total s substr fuel (i + 1) (by omega) (by omega)
    · exact ⟨false, by rw [if_neg hc]⟩

theorem containsSubstring_total (s substr : Bytes) : ∃ b, containsSubstring s substr = some b :=
  containsSubstringLoop_total s substr (s.length + 2) 0 (by omega) (by omega)

theorem containsPlaceholderLoop_total (s : Bytes) :
    ∀ ps : List Bytes, ∃ b, containsPlaceholderLoop s ps = some b
  | [] => ⟨false, rfl⟩
  | p :: ps => by
    obtain ⟨b', hb'⟩ := containsPlaceholderLoop_total s ps
    obtain ⟨b, hb⟩ := containsSubstring_total s p
    unfold containsPlaceholderLoop
    by_cases h0 : s.length > 0
    · by_cases h1 : s = p
      · subst h1
        exact ⟨true, by simp only [h0, if_true]⟩
      · by_cases h2 : s.length > p.length
        · simp only [h0, if_true, h1, if_false, h2, hb]
          cases b
          · exact ⟨b', hb'⟩
          · exact ⟨true, rfl⟩
        · simp only [h0, if_true, h1, if_false, h2]
          exact ⟨b', hb'⟩
    · simp only [h0, if_false]
      exact ⟨b', hb'⟩

/-- The function `containsPlaceholder` returns a boolean for every string. -/
theorem containsPlaceholder_total (s : Bytes) : ∃ b, containsPlaceholder s = some b :=
  containsPlaceholderLoop_total s placeholders

theorem emptyOrPlaceholder_total (s : Bytes) : ∃ b, emptyOrPlaceholder s = some b := by
  unfold emptyOrPlaceholder
  by_cases h : s = []
  · exact ⟨true, by simp [h]⟩
  · simp only [h, if_false]
    exact containsPlaceholder_total s

/-- The method `validateJWT` returns an error when the encryption key is not 32 bytes
long, and returns `nil` only for a key of 32 bytes. -/
theorem validateJWT_key_length (c : Config) :
    (c.JWT.EncryptionKey.length ≠ 32 → ∃ msg, c.validateJWT = some (some msg)) ∧
    (c.validateJWT = some Option.none → c.JWT.EncryptionKey.length = 32) := by
  obtain ⟨b1, h1⟩ := emptyOrPlaceholder_total c.JWT.SecretKey
  obtain ⟨b2, h2⟩ := emptyOrPlaceholder_total c.JWT.EncryptionKey
  unfold Config.validateJWT
  rw [h1, h2]
  cases b1 <;> cases b2 <;> simp
  by_cases h : c.JWT.EncryptionKey.length = 32
  · simp [h]
  · simp [h]

/-- C18. `Config.Validate` returns an error (and does not panic) for every
configuration whose `jwt.encryption_key` is not exactly 32 bytes long; so for every
configuration it accepts, the encryption key handed to the `JWTManager` has 32 bytes,
a length AES accepts: `encrypt` returns a ciphertext for every password and nonce, and
`decrypt` never fails with a key size error. -/
theorem C18_accepted_config_has_aes256_key (c : Config) :
    (c.JWT.EncryptionKey.length ≠ 32 → ∃ msg, c.Validate = some (some msg)) ∧
    (c.Validate = some Option.none →
      c.JWT.EncryptionKey.length = 32 ∧
      ∀ (lib : Primitives) (jwtExpiry : Int),
        (c.jwtManager jwtExpiry).encryptionKey.length = 32 ∧
        validAESKeySize (c.jwtManager jwtExpiry).encryptionKey.length = true ∧
        (∀ p nonce, ∃ e, (c.jwtManager jwtExpiry).encrypt lib p (some nonce) = .ok e) ∧
        (∀ e n, (c.jwtManager jwtExpiry).decrypt lib e ≠ .error (.keySizeError n))) := by
  obtain ⟨hbad, hgood⟩ := validateJWT_key_length c
  have hlen : c.Validate = some Option.none → c.JWT.EncryptionKey.length = 32 := by
    intro hv
    apply hgood
    unfold Config.Validate at hv
    split at hv
    · cases hv
    split at hv
    · cases hv
    split at hv
    · cases hv
    · cases hv
    · rename_i hj
      exact hj
  constructor
  · intro hne
    unfold Config.Validate
    by_cases h1 : c.Server.Host = []
    · exact ⟨_, by rw [if_pos h1]⟩
    by_cases h2 : c.Server.Port = []
    · exact ⟨_, by rw [if_neg h1, if_pos h2]⟩
    obtain ⟨msg, hmsg⟩ := hbad hne
    exact ⟨msg, by rw [if_neg h1, if_neg h2, hmsg]⟩
  · intro hv
    have h32 := hlen hv
    refine ⟨h32, ?_⟩
    intro lib jwtExpiry
    have hk : (c.jwtManager jwtExpiry).encryptionKey.length = 32 := h32
    have hvk : validAESKeySize (c.jwtManager jwtExpiry).encryptionKey.length = true := by
      rw [hk]; decide
    refine ⟨hk, hvk, ?_, ?_⟩
    · intro p nonce
      exact ⟨StdEncoding.EncodeToString
          (nonce ++ lib.gcmSeal (c.jwtManager jwtExpiry).encryptionKey nonce p []),
        by simp [JWTManager.encrypt, hvk]⟩
    · intro e n hcon
      unfold JWTManager.decrypt at hcon
      split at hcon
      · cases hcon
      · rw [if_pos hvk] at hcon
        split at hcon
        · cases hcon
        · split at hcon <;> cases hcon

/-- C18, run on `demoConfig`, which `Validate` accepts, and on the same configuration
with a 16-byte encryption key, which it refuses. -/
theorem C18_accepted_config_has_aes256_key_witness :
    demoConfig.Validate = some Option.none ∧
    demoConfig.JWT.EncryptionKey.length = 32 ∧
    (∃ msg, ({ demoConfig with JWT := { demoConfig.JWT with
        EncryptionKey := ascii "0123456789abcdef" } } : Config).Validate = some (some msg)) :=
  ⟨by decide,
   ((C18_accepted_config_has_aes256_key demoConfig).2 (by decide)).1,
   (C18_accepted_config_has_aes256_key _).1 (by decide)⟩

/-! ## Properties of the storage backends -/

/-- C16, refuted as stated: the S3 backend returns a connection for a wrong password
without any call to a remote system, and the NFS backend mounts under the fixed
identity `photosync`, uid 1000, gid 1000, and returns a connection whatever the
username and password. -/
theorem C16_s3_and_nfs_do_not_present_the_credential :
    (NewS3Backend demoConfig.S3).Connect (ascii "alice") (ascii "wrong-password") =
      (.ok (.s3 ⟨ascii "alice"⟩), []) ∧
    (NewS3Backend demoConfig.S3).client.accessKey = ascii "AKIAEXAMPLE" ∧
    (NewNFSBackend demoConfig.NFS).Connect demoNFSRemote (ascii "alice") (ascii "wrong-password") =
      (.ok (.nfs ⟨5, ascii "alice"⟩),
        [.nfsDialMount (ascii "nfs.example"),
         .nfsMount (ascii "/export/photos") (ascii "photosync") 1000 1000]) := by
  decide

/-- C16 as amended. The SMB `Connect` presents the supplied username and password (with
the configured domain) in its session setup, presents no other credential, returns an
error when the server rejects them, and returns a connection exactly when the dial, the
session setup with these credentials and the mount succeed. The S3 `Connect` calls no
remote system and returns a connection for every username and password (the client
carries the access key and secret key of the configuration). The NFS `Connect` dials
the configured server and, when the dial succeeds, mounts the configured export under
the fixed `AUTH_UNIX` identity `photosync`, 1000, 1000, these being its only calls; its
calls do not depend on username or password and its result does not depend on the
password; it returns a connection (that of the mount, for the username) exactly when
`DialMount` and `Mount` succeed, and an error exactly when `DialMount` or `Mount`
fails. -/
theorem C16_connect_credentials (u p : Bytes) :
    (∀ (b : SMBBackend) (remote : SMBRemote),
      (remote.dial = Option.none →
        RemoteCall.smbSessionSetup u p b.config.Domain ∈ (b.Connect remote u p).2) ∧
      (∀ user pw dom, RemoteCall.smbSessionSetup user pw dom ∈ (b.Connect remote u p).2 →
        user = u ∧ pw = p ∧ dom = b.config.Domain) ∧
      (∀ err, remote.session u p b.config.Domain = .error err →
        ∃ msg, (b.Connect remote u p).1 = .error msg) ∧
      (∀ conn, (b.Connect remote u p).1 = .ok conn ↔
        remote.dial = Option.none ∧
        ∃ session share, remote.session u p b.config.Domain = .ok session ∧
          remote.mount = .ok share ∧ conn = .smb ⟨session, share, u⟩)) ∧
    (∀ cfg : S3Config, (NewS3Backend cfg).Connect u p = (.ok (.s3 ⟨u⟩), []) ∧
      (NewS3Backend cfg).client.accessKey = cfg.AccessKey ∧
      (NewS3Backend cfg).client.secretKey = cfg.SecretKey) ∧
    (∀ (b : NFSBackend) (remote : NFSRemote),
      (∀ u' p', (b.Connect remote u p).2 = (b.Connect remote u' p').2) ∧
      (∀ p', (b.Connect remote u p).1 = (b.Connect remote u p').1) ∧
      (∀ e mach uid gid, RemoteCall.nfsMount e mach uid gid ∈ (b.Connect remote u p).2 →
        e = b.config.Export ∧ mach = ascii "photosync" ∧ uid = 1000 ∧ gid = 1000) ∧
      (∀ err, remote.dialMount = some err →
        (b.Connect remote u p).2 = [RemoteCall.nfsDialMount b.config.Server] ∧
        ∃ msg, (b.Connect remote u p).1 = .error msg) ∧
      (remote.dialMount = Option.none →
        (b.Connect remote u p).2 =
          [RemoteCall.nfsDialMount b.config.Server,
           RemoteCall.nfsMount b.config.Export (ascii "photosync") 1000 1000]) ∧
      (∀ conn, (b.Connect remote u p).1 = .ok conn ↔
        remote.dialMount = Option.none ∧
        ∃ target, remote.mount b.config.Export (ascii "photosync") 1000 1000 = .ok target ∧
          conn = .nfs ⟨target, u⟩) ∧
      ((∃ msg, (b.Connect remote u p).1 = .error msg) ↔
        ((∃ err, remote.dialMount = some err) ∨
         ∃ err, remote.mount b.config.Export (ascii "photosync") 1000 1000 = .error err))) := by
  refine ⟨?_, ?_, ?_⟩
  · intro b remote
    unfold SMBBackend.Connect
    cases hdial : remote.dial with
    | some derr =>
      refine ⟨?_, ?_, ?_, ?_⟩
      · intro h; cases h
      · intro user pw dom hmem
        simp at hmem
      · intro err _
        exact ⟨_, rfl⟩
      · intro conn
        constructor
        · intro hc; cases hc
        · intro hc; cases hc.1
    | none =>
      cases hs : remote.session u p b.config.Domain with
      | error err =>
        refine ⟨fun _ => by simp, ?_, ?_, ?_⟩
        · intro user pw dom hmem
          simpa using hmem
        · intro err' _
          exact ⟨_, rfl⟩
        · intro conn
          constructor
          · intro hc; cases hc
          · rintro ⟨_, session, share, h1, _⟩; cases h1
      | ok session =>
        cases hm : remote.mount with
        | error err =>
          refine ⟨fun _ => by simp, ?_, ?_, ?_⟩
          · intro user pw dom hmem
            simpa using hmem
          · intro err' h'
            cases h'
          · intro conn
            constructor
            · intro hc; cases hc
            · rintro ⟨_, session, share, _, h2, _⟩; cases h2
        | ok share =>
          refine ⟨fun _ => by simp, ?_, ?_, ?_⟩
          · intro user pw dom hmem
            simpa using hmem
          · intro err' h'
            cases h'
          · intro conn
            constructor
            · intro hc
              cases hc
              exact ⟨rfl, session, share, rfl, rfl, rfl⟩
            · rintro ⟨_, session', share', h1, h2, h3⟩
              cases h1; cases h2; subst h3; rfl
  · intro cfg
    exact ⟨rfl, rfl, rfl⟩
  · intro b remote
    unfold NFSBackend.Connect
    cases hd : remote.dialMount with
    | some err =>
      refine ⟨by simp, by simp, by simp, ?_, by simp, ?_, ?_⟩
      · intro err' _
        exact ⟨rfl, _, rfl⟩
      · intro conn
        constructor
        · intro hc; cases hc
        · intro hc; cases hc.1
      · exact ⟨fun _ => Or.inl ⟨err, rfl⟩, fun _ => ⟨_, rfl⟩⟩
    | none =>
      cases hm : remote.mount b.config.Export (ascii "photosync") 1000 1000 with
      | error err =>
        refine ⟨by simp, by simp, ?_, ?_, fun _ => rfl, ?_, ?_⟩
        · intro e mach uid gid hmem
          simp at hmem
          exact hmem
        · intro err' h; cases h
        · intro conn
          constructor
          · intro hc; cases hc
          · rintro ⟨_, target, h1, _⟩; cases h1
        · exact ⟨fun _ => Or.inr ⟨err, rfl⟩, fun _ => ⟨_, rfl⟩⟩
      | ok target =>
        refine ⟨by simp, by simp, ?_, ?_, fun _ => rfl, ?_, ?_⟩
        · intro e mach uid gid hmem
          simp at hmem
          exact hmem
        · intro err' h; cases h
        · intro conn
          constructor
          · intro hc
            cases hc
            exact ⟨rfl, target, rfl, rfl⟩
          · rintro ⟨_, target', h1, h2⟩
            cases h1; subst h2; rfl
        · constructor
          · rintro ⟨msg, h⟩; cases h
          · rintro (⟨err, h⟩ | ⟨err, h⟩) <;> cases h

/-- C16 as amended, run for `alice` with a wrong password against the NFS server
`demoNFSRemote` and the SMB server `demoSMBRemote`: the NFS mount is made under the
fixed identity and gives a connection, the SMB session setup is refused. -/
theorem C16_connect_credentials_witness :
    ((NewNFSBackend demoConfig.NFS).Connect demoNFSRemote (ascii "alice")
      (ascii "wrong-password")).2 =
      [RemoteCall.nfsDialMount (NewNFSBackend demoConfig.NFS).config.Server,
       RemoteCall.nfsMount (NewNFSBackend demoConfig.NFS).config.Export (ascii "photosync")
         1000 1000] ∧
    ((NewNFSBackend demoConfig.NFS).Connect demoNFSRemote (ascii "alice")
      (ascii "wrong-password")).1 = .ok (.nfs ⟨5, ascii "alice"⟩) ∧
    (∃ msg, ((NewSMBBackend demoConfig.SMB).Connect demoSMBRemote (ascii "alice")
      (ascii "wrong-password")).1 = .error msg) :=
  have h := C16_connect_credentials (ascii "alice") (ascii "wrong-password")
  ⟨((h.2.2 (NewNFSBackend demoConfig.NFS) demoNFSRemote).2.2.2.2.1 rfl),
   ((h.2.2 (NewNFSBackend demoConfig.NFS) demoNFSRemote).2.2.2.2.2.1 _).mpr
     ⟨rfl, 5, by decide, rfl⟩,
   (h.1 (NewSMBBackend demoConfig.SMB) demoSMBRemote).2.2.1 "logon failure" (by decide)⟩

/-- Runs of the SMB `Connect` against a server that knows `alice` with `hunter2`: the
right password gives a connection, a wrong one an error. -/
theorem SMBBackend_Connect_examples :
    (NewSMBBackend demoConfig.SMB).Connect demoSMBRemote (ascii "alice") (ascii "hunter2") =
      (.ok (.smb ⟨7, 3, ascii "alice"⟩),
        [.tcpDial (ascii "files.example") 445,
         .smbSessionSetup (ascii "alice") (ascii "hunter2") (ascii "CORP"),
         .smbMount 7 (ascii "photos")]) ∧
    (NewSMBBackend demoConfig.SMB).Connect demoSMBRemote (ascii "alice") (ascii "wrong") =
      (.error "failed to establish SMB session: logon failure",
        [.tcpDial (ascii "files.example") 445,
         .smbSessionSetup (ascii "alice") (ascii "wrong") (ascii "CORP"), .tcpClose]) := by
  decide

/-- C17, refuted as stated: on the SMB backend a second `Close` of the same
connection returns an error when the second `Logoff` of the session does. -/
theorem C17_smb_close_returns_logoff_error :
    (NewSMBBackend demoConfig.SMB).Close Option.none (.smb ⟨7, 3, ascii "alice"⟩) =
      (.ok, [.smbLogoff 7]) ∧
    (NewSMBBackend demoConfig.SMB).Close (some "connection closed") (.smb ⟨7, 3, ascii "alice"⟩) =
      (.error "connection closed", [.smbLogoff 7]) := by
  decide

/-- C17 as amended. For the three backends `Close(nil)` returns no error and makes no
remote call. The S3 `Close` returns no error and makes no remote call for every
connection, the first time and again. The NFS `Close` of an NFS connection calls
`mount.Close()`, drops its result and returns no error, the first time and again. The
SMB `Close` of an SMB connection calls `session.Logoff()` and returns what it returns:
no error exactly when `Logoff` returns none, on a first as on a second call. -/
theorem C17_close_outcomes :
    (∀ (b : SMBBackend) (logoff : Option String), b.Close logoff .nil = (.ok, [])) ∧
    (∀ (b : S3Backend) (conn : ConnectionValue), b.Close conn = (.ok, [])) ∧
    (∀ b : NFSBackend, b.Close .nil = (.ok, [])) ∧
    (∀ (b : NFSBackend) (c : NFSConnection), b.Close (.nfs c) = (.ok, [.nfsClose c.mount])) ∧
    (∀ (b : SMBBackend) (logoff : Option String) (c : SMBConnection),
      (b.Close logoff (.smb c)).2 = [.smbLogoff c.session] ∧
      ((b.Close logoff (.smb c)).1 = .ok ↔ logoff = Option.none) ∧
      (∀ err, logoff = some err → (b.Close logoff (.smb c)).1 = .error err)) := by
  refine ⟨fun _ _ => rfl, fun _ _ => rfl, fun _ => rfl, fun _ _ => rfl, ?_⟩
  intro b logoff c
  cases logoff with
  | none => simp [SMBBackend.Close]
  | some e => simp [SMBBackend.Close]

/-! ## Provenance of the pooled connections -/

theorem mapGet_mem : ∀ (m : List (Bytes × PooledGenericConnection)) (k : Bytes)
    (e : PooledGenericConnection), mapGet m k = some e → (k, e) ∈ m
  | [], _, _, h => by simp [mapGet] at h
  | (k', v) :: rest, k, e, h => by
    by_cases hk : k' = k
    · subst hk
      simp only [mapGet, if_true, Option.some.injEq] at h
      subst h
      exact List.mem_cons_self _ _
    · simp only [mapGet, hk, if_false] at h
      exact List.mem_cons_of_mem _ (mapGet_mem rest k e h)

theorem mem_mapSet (m : List (Bytes × PooledGenericConnection)) (k : Bytes)
    (v : PooledGenericConnection) (x : Bytes × PooledGenericConnection)
    (h : x ∈ mapSet m k v) : x = (k, v) ∨ (x ∈ m ∧ x.1 ≠ k) := by
  simp only [mapSet, mapDelete, List.mem_cons, List.mem_filter, decide_eq_true_eq] at h
  exact h

theorem keysNodup_mapSet (m : List (Bytes × PooledGenericConnection)) (k : Bytes)
    (v : PooledGenericConnection) (h : keysNodup m) : keysNodup (mapSet m k v) := by
  unfold keysNodup mapSet mapDelete at *
  rw [List.map_cons, List.nodup_cons]
  constructor
  · intro hmem
    obtain ⟨x, hx, hxk⟩ := List.mem_map.mp hmem
    have := (List.mem_filter.mp hx).2
    simp only [decide_eq_true_eq] at this
    exact this hxk
  · exact (List.filter_sublist m).map _ |>.nodup h

/-- `GetConnection` keeps the keys of the map distinct. -/
theorem GetConnection_keysNodup (p : GenericConnectionPool) (u pw : Bytes) (now : Int)
    (r : Except String Connection) (h : keysNodup p.connections) :
    keysNodup (GetConnection p u pw now r).pool.connections := by
  cases hget : mapGet p.connections u with
  | none =>
    rw [GetConnection_of_absent p u pw now _ hget]
    cases r
    · exact h
    · exact keysNodup_mapSet _ _ _ h
  | some conn =>
    by_cases hfresh : now - conn.lastUsed < p.ttl
    · rw [GetConnection_of_fresh p u pw now _ conn hget hfresh]
      exact keysNodup_mapSet _ _ _ h
    · rw [GetConnection_of_stale p u pw now _ conn hget hfresh]
      cases r
      · exact h
      · exact keysNodup_mapSet _ _ _ h

/-- The sweep only removes entries. -/
theorem cleanupPass_sublist (p : GenericConnectionPool) (now : Int) :
    (cleanupPass p now).pool.connections.Sublist p.connections := by
  unfold cleanupPass
  rw [cleanup_foldl]
  exact List.filter_sublist _

/-- `GetConnection` keeps the provenance invariant, its own successful `Connect`
added to the log. -/
theorem GetConnection_entriesFrom (p : GenericConnectionPool) (u pw : Bytes) (now : Int)
    (r : Except String Connection) (L : List (Bytes × Connection)) (h : entriesFrom p L) :
    entriesFrom (GetConnection p u pw now r).pool
      (L ++ opConnects p (.getConnection u pw now r)) := by
  have hold : ∀ k e, (k, e) ∈ p.connections →
      e.username = k ∧ (k, e.connection) ∈ L ++ opConnects p (.getConnection u pw now r) :=
    fun k e hm => ⟨(h k e hm).1, List.mem_append_left _ (h k e hm).2⟩
  cases hget : mapGet p.connections u with
  | none =>
    have hpath := GetConnection_of_absent p u pw now r hget
    cases r with
    | error err =>
      rw [hpath]
      exact hold
    | ok c =>
      have hlog : opConnects p (.getConnection u pw now (.ok c)) = [(u, c)] := by
        simp [opConnects, hpath]
      rw [hlog, hpath]
      intro k e hm
      rcases mem_mapSet _ _ _ _ hm with heq | ⟨hm', _⟩
      · cases heq
        exact ⟨rfl, by simp⟩
      · exact ⟨(h k e hm').1, List.mem_append_left _ (h k e hm').2⟩
  | some conn =>
    have hconn := h u conn (mapGet_mem _ _ _ hget)
    by_cases hfresh : now - conn.lastUsed < p.ttl
    · rw [GetConnection_of_fresh p u pw now r conn hget hfresh]
      intro k e hm
      rcases mem_mapSet _ _ _ _ hm with heq | ⟨hm', _⟩
      · cases heq
        exact ⟨hconn.1, List.mem_append_left _ hconn.2⟩
      · exact hold k e hm'
    · have hpath := GetConnection_of_stale p u pw now r conn hget hfresh
      cases r with
      | error err =>
        rw [hpath]
        exact hold
      | ok c =>
        have hlog : opConnects p (.getConnection u pw now (.ok c)) = [(u, c)] := by
          simp [opConnects, hpath]
        rw [hlog, hpath]
        intro k e hm
        rcases mem_mapSet _ _ _ _ hm with heq | ⟨hm', _⟩
        · cases heq
          exact ⟨rfl, by simp⟩
        · exact ⟨(h k e hm').1, List.mem_append_left _ (h k e hm').2⟩

/-- Every operation keeps the keys distinct and the provenance invariant. -/
theorem runOp_invariant (p : GenericConnectionPool) (op : PoolOp)
    (L : List (Bytes × Connection)) (hk : keysNodup p.connections) (h : entriesFrom p L) :
    keysNodup (runOp p op).1.connections ∧ entriesFrom (runOp p op).1 (L ++ opConnects p op) := by
  cases op with
  | getConnection u pw now r =>
    exact ⟨GetConnection_keysNodup p u pw now r hk, GetConnection_entriesFrom p u pw now r L h⟩
  | sweep now =>
    have hsub := cleanupPass_sublist p now
    refine ⟨(hsub.map _).nodup hk, ?_⟩
    intro k e hm
    have := h k e (hsub.subset hm)
    exact ⟨this.1, List.mem_append_left _ this.2⟩
  | close =>
    refine ⟨List.nodup_nil, ?_⟩
    intro k e hm
    simp [runOp, Close] at hm

/-- The invariants hold after every run of operations. -/
theorem runOps_invariant : ∀ (ops : List PoolOp) (p : GenericConnectionPool)
    (L : List (Bytes × Connection)), keysNodup p.connections → entriesFrom p L →
    keysNodup (runOps p ops).1.connections ∧
    entriesFrom (runOps p ops).1 (L ++ runConnects p ops)
  | [], p, L, hk, h => by
    simpa [runOps, runConnects] using And.intro hk h
  | op :: ops, p, L, hk, h => by
    obtain ⟨hk1, h1⟩ := runOp_invariant p op L hk h
    have := runOps_invariant ops (runOp p op).1 (L ++ opConnects p op) hk1 h1
    simpa [runOps, runConnects, List.append_assoc] using this

/-- The pool after a run followed by one more operation. -/
theorem runOps_snoc (op : PoolOp) : ∀ (ops : List PoolOp) (p : GenericConnectionPool),
    (runOps p (ops ++ [op])).1 = (runOp (runOps p ops).1 op).1
  | [], p => by simp [runOps]
  | o :: ops, p => by
    have := runOps_snoc op ops (runOp p o).1
    simpa [runOps] using this

/-- The only `Close` call of `GetConnection(u, ·)` is on the connection held by the
entry of `u`. -/
theorem GetConnection_close_own (p : GenericConnectionPool) (u pw : Bytes) (now : Int)
    (r : Except String Connection) (d : Connection)
    (h : BackendCall.close d ∈ (GetConnection p u pw now r).calls) :
    ∃ e, mapGet p.connections u = some e ∧ e.connection = d := by
  cases hget : mapGet p.connections u with
  | none =>
    rw [GetConnection_of_absent p u pw now r hget] at h
    cases r <;> simp at h
  | some conn =>
    by_cases hfresh : now - conn.lastUsed < p.ttl
    · rw [GetConnection_of_fresh p u pw now r conn hget hfresh] at h
      simp at h
    · rw [GetConnection_of_stale p u pw now r conn hget hfresh] at h
      cases r <;> simp at h <;> exact ⟨conn, rfl, h.symm⟩

/-- C19. No cross-user hand-off: in every pool state reached from the empty pool by
`GetConnection` calls, sweep passes and `Close`, the keys are distinct and each entry
stored under key `u` has username field `u` and holds a connection that a backend
`Connect(u, ·)` call of the run returned; every connection `GetConnection(u, ·)`
then returns was returned by a `Connect(u, ·)` call (of the run or of this call);
and `GetConnection(u, ·)` leaves the entry of every other username as it was and
closes no connection but the one of the entry of `u`. -/
theorem C19_no_cross_user_handoff (ttl : Int) (ops : List PoolOp) :
    keysNodup (runOps (NewGenericConnectionPool ttl) ops).1.connections ∧
    (∀ k e, (k, e) ∈ (runOps (NewGenericConnectionPool ttl) ops).1.connections →
      e.username = k ∧ (k, e.connection) ∈ runConnects (NewGenericConnectionPool ttl) ops) ∧
    (∀ u pw now r c,
      (GetConnection (runOps (NewGenericConnectionPool ttl) ops).1 u pw now r).result = .ok c →
      (u, c) ∈ runConnects (NewGenericConnectionPool ttl) (ops ++ [.getConnection u pw now r])) ∧
    (∀ u pw now r v, v ≠ u →
      mapGet (GetConnection (runOps (NewGenericConnectionPool ttl) ops).1 u pw now r).pool.connections v
        = mapGet (runOps (NewGenericConnectionPool ttl) ops).1.connections v) ∧
    (∀ u pw now r d,
      BackendCall.close d ∈
        (GetConnection (runOps (NewGenericConnectionPool ttl) ops).1 u pw now r).calls →
      ∃ e, mapGet (runOps (NewGenericConnectionPool ttl) ops).1.connections u = some e ∧
        e.connection = d) := by
  have hinit : entriesFrom (NewGenericConnectionPool ttl) [] := by
    intro k e hm
    simp [NewGenericConnectionPool] at hm
  have hk0 : keysNodup (NewGenericConnectionPool ttl).connections := List.nodup_nil
  obtain ⟨hk, hinv⟩ := runOps_invariant ops (NewGenericConnectionPool ttl) [] hk0 hinit
  rw [List.nil_append] at hinv
  refine ⟨hk, hinv, ?_, ?_, ?_⟩
  · intro u pw now r c hok
    have := runOps_invariant (ops ++ [.getConnection u pw now r]) (NewGenericConnectionPool ttl) []
      hk0 hinit
    rw [List.nil_append] at this
    obtain ⟨e, hget, hc, _⟩ := GetConnection_ok_entry _ u pw now r c hok
    have hmem := mapGet_mem _ _ _ hget
    have hrun : (runOps (NewGenericConnectionPool ttl) (ops ++ [.getConnection u pw now r])).1 =
        (GetConnection (runOps (NewGenericConnectionPool ttl) ops).1 u pw now r).pool :=
      runOps_snoc _ ops _
    rw [hrun] at this
    have := (this.2 u e hmem).2
    rw [hc] at this
    exact this
  · intro u pw now r v hne
    exact GetConnection_other _ u v pw now r hne
  · intro u pw now r d hd
    exact GetConnection_close_own _ u pw now r d hd

/-! ## Placeholder detection -/

theorem goSlice_eq (s : Bytes) (i n : Nat) (h : i + n ≤ s.length) :
    goSlice s i (i + n) = some ((s.drop i).take n) := by
  have h1 : i ≤ i + n := Nat.le_add_right i n
  simp [goSlice, h]

/-- Occurrence at a position: `p` occurs in `s` exactly when some window of `s` of the
length of `p` equals `p`. -/
theorem occursIn_iff_window (p s : Bytes) :
    occursIn p s ↔ ∃ j, j + p.length ≤ s.length ∧ (s.drop j).take p.length = p := by
  constructor
  · rintro ⟨a, t, rfl⟩
    refine ⟨a.length, by simp, ?_⟩
    simp [List.append_assoc]
  · rintro ⟨j, _, hw⟩
    refine ⟨s.take j, (s.drop j).drop p.length, ?_⟩
    have e1 : (s.drop j).take p.length ++ (s.drop j).drop p.length = s.drop j :=
      List.take_append_drop _ _
    rw [hw] at e1
    rw [List.append_assoc, e1, List.take_append_drop]

/-- The loop of `containsSubstring` from index `i` answers true exactly when a window at
an index from `i` on equals `substr`. -/
theorem containsSubstringLoop_true_iff (s substr : Bytes) :
    ∀ (fuel i : Nat), i ≤ s.length + 1 → s.length + 1 < fuel + i →
      (containsSubstringLoop s substr fuel i = some true ↔
        ∃ j, i ≤ j ∧ j + substr.length ≤ s.length ∧
          (s.drop j).take substr.length = substr)
  | 0, i, h1, h2 => by omega
  | fuel + 1, i, h1, h2 => by
    unfold containsSubstringLoop
    by_cases hc : (i : Int) ≤ (s.length : Int) - (substr.length : Int)
    · rw [if_pos hc]
      have hr : i + substr.length ≤ s.length := by omega
      rw [goSlice_eq s i substr.length hr]
      by_cases hw : (s.drop i).take substr.length = substr
      · simp only [hw, if_true, true_iff]
        exact ⟨i, le_refl i, hr, hw⟩
      · simp only [hw, if_false]
        rw [containsSubstringLoop_true_iff s substr fuel (i + 1) (by omega) (by omega)]
        constructor
        · rintro ⟨j, hj, hjr, hjw⟩
          exact ⟨j, by omega, hjr, hjw⟩
        · rintro ⟨j, hj, hjr, hjw⟩
          have hne : j ≠ i := by
            intro e
            subst e
            exact hw hjw
          exact ⟨j, by omega, hjr, hjw⟩
    · rw [if_neg hc]
      constructor
      · intro h
        cases h
      · rintro ⟨j, hj, hjr, _⟩
        omega

/-- The function `containsSubstring` is substring containment. -/
theorem containsSubstring_true_iff (s substr : Bytes) :
    containsSubstring s substr = some true ↔ occursIn substr s := by
  unfold containsSubstring
  rw [containsSubstringLoop_true_iff s substr (s.length + 2) 0 (by omega) (by omega),
    occursIn_iff_window]
  constructor
  · rintro ⟨j, _, h1, h2⟩
    exact ⟨j, h1, h2⟩
  · rintro ⟨j, h1, h2⟩
    exact ⟨j, Nat.zero_le j, h1, h2⟩

theorem occursIn_length_le (p s : Bytes) (h : occursIn p s) : p.length ≤ s.length := by
  obtain ⟨a, t, rfl⟩ := h
  simp
  omega

theorem occursIn_eq_of_length (p s : Bytes) (h : occursIn p s) (hl : s.length ≤ p.length) :
    s = p := by
  obtain ⟨a, t, rfl⟩ := h
  simp only [List.length_append] at hl
  have ha : a = [] := List.eq_nil_of_length_eq_zero (by omega)
  have ht : t = [] := List.eq_nil_of_length_eq_zero (by omega)
  subst ha; subst ht
  simp

/-- The condition tested for one placeholder `p`, when `p` is not empty, is that `p`
occurs in `s`. -/
theorem placeholder_cond_iff (s p : Bytes) (hp : p ≠ []) :
    (s.length > 0 ∧ (s = p ∨ (s.length > p.length ∧ containsSubstring s p = some true))) ↔
      occursIn p s := by
  have hplen : 0 < p.length := List.length_pos.mpr hp
  constructor
  · rintro ⟨_, h | ⟨_, h⟩⟩
    · subst h
      exact ⟨[], [], by simp⟩
    · exact (containsSubstring_true_iff s p).mp h
  · intro h
    have hle := occursIn_length_le p s h
    refine ⟨by omega, ?_⟩
    by_cases heq : s.length ≤ p.length
    · exact Or.inl (occursIn_eq_of_length p s h heq)
    · exact Or.inr ⟨by omega, (containsSubstring_true_iff s p).mpr h⟩

/-- The loop of `containsPlaceholder` over non-empty placeholders answers true exactly
when one of them occurs in `s`. -/
theorem containsPlaceholderLoop_true_iff (s : Bytes) :
    ∀ ps : List Bytes, (∀ p ∈ ps, p ≠ []) →
      (containsPlaceholderLoop s ps = some true ↔ ∃ p ∈ ps, occursIn p s)
  | [], _ => by simp [containsPlaceholderLoop]
  | p :: ps, hne => by
    have hp : p ≠ [] := hne p (List.mem_cons_self _ _)
    have ih := containsPlaceholderLoop_true_iff s ps
      (fun q hq => hne q (List.mem_cons_of_mem _ hq))
    have hcond := placeholder_cond_iff s p hp
    obtain ⟨b, hb⟩ := containsSubstring_total s p
    unfold containsPlaceholderLoop
    simp only [List.mem_cons, exists_eq_or_imp]
    by_cases h0 : s.length > 0
    · by_cases h1 : s = p
      · have hocc : occursIn p s := hcond.mp ⟨h0, Or.inl h1⟩
        rw [if_pos h0, if_pos h1]
        simp only [true_iff]
        exact Or.inl hocc
      · by_cases h2 : s.length > p.length
        · simp only [h0, if_true, h1, if_false, h2, hb]
          cases b with
          | true =>
            simp only [true_iff]
            exact Or.inl (hcond.mp ⟨h0, Or.inr ⟨h2, hb⟩⟩)
          | false =>
            simp only []
            rw [ih]
            constructor
            · intro h; exact Or.inr h
            · rintro (h | h)
              · have := hcond.mpr h
                rcases this.2 with e | ⟨_, e⟩
                · exact absurd e h1
                · rw [hb] at e; cases e
              · exact h
        · simp only [h0, if_true, h1, if_false, h2]
          rw [ih]
          constructor
          · intro h; exact Or.inr h
          · rintro (h | h)
            · have := hcond.mpr h
              rcases this.2 with e | ⟨e, _⟩
              · exact absurd e h1
              · exact absurd e h2
            · exact h
    · simp only [h0, if_false]
      rw [ih]
      constructor
      · intro h; exact Or.inr h
      · rintro (h | h)
        · exact absurd (hcond.mpr h).1 h0
        · exact h

theorem placeholders_ne_nil : ∀ p ∈ placeholders, p ≠ [] := by decide

/-- The function `containsPlaceholder` answers true exactly when one of the five
placeholders occurs in `s`. -/
theorem containsPlaceholder_true_iff (s : Bytes) :
    containsPlaceholder s = some true ↔ ∃ p ∈ placeholders, occursIn p s :=
  containsPlaceholderLoop_true_iff s placeholders placeholders_ne_nil

/-- C22. For every string `s`: `containsSubstring(s, substr)` returns, without indexing
out of range, true exactly when `substr` occurs in `s` as a contiguous substring (false
when `s` is shorter than `substr`); `containsPlaceholder(s)` returns true exactly when
one of `CHANGE_ME`, `YOUR_VALUE_HERE`, `REQUIRED`, `PLACEHOLDER`, `CHANGEME` occurs in
`s`; and `Config.Validate` returns an error for every configuration whose jwt
`secret_key` or `encryption_key` is such an `s`. -/
theorem C22_placeholder_detection (s : Bytes) :
    (∀ substr, (∃ b, containsSubstring s substr = some b) ∧
      (containsSubstring s substr = some true ↔ occursIn substr s) ∧
      (s.length < substr.length → containsSubstring s substr = some false)) ∧
    (∃ b, containsPlaceholder s = some b) ∧
    (containsPlaceholder s = some true ↔
      (occursIn (ascii "CHANGE_ME") s ∨ occursIn (ascii "YOUR_VALUE_HERE") s ∨
       occursIn (ascii "REQUIRED") s ∨ occursIn (ascii "PLACEHOLDER") s ∨
       occursIn (ascii "CHANGEME") s)) ∧
    (∀ c : Config, (c.JWT.SecretKey = s ∨ c.JWT.EncryptionKey = s) →
      (occursIn (ascii "CHANGE_ME") s ∨ occursIn (ascii "YOUR_VALUE_HERE") s ∨
       occursIn (ascii "REQUIRED") s ∨ occursIn (ascii "PLACEHOLDER") s ∨
       occursIn (ascii "CHANGEME") s) →
      ∃ msg, c.Validate = some (some msg)) := by
  have hiff : containsPlaceholder s = some true ↔
      (occursIn (ascii "CHANGE_ME") s ∨ occursIn (ascii "YOUR_VALUE_HERE") s ∨
       occursIn (ascii "REQUIRED") s ∨ occursIn (ascii "PLACEHOLDER") s ∨
       occursIn (ascii "CHANGEME") s) := by
    rw [containsPlaceholder_true_iff]
    simp [placeholders]
  refine ⟨?_, containsPlaceholder_total s, hiff, ?_⟩
  · intro substr
    refine ⟨containsSubstring_total s substr, containsSubstring_true_iff s substr, ?_⟩
    intro hlt
    obtain ⟨b, hb⟩ := containsSubstring_total s substr
    cases b with
    | false => exact hb
    | true =>
      have := occursIn_length_le substr s ((containsSubstring_true_iff s substr).mp hb)
      omega
  · intro c hkey hocc
    have hph : containsPlaceholder s = some true := hiff.mpr hocc
    have hbad : emptyOrPlaceholder s = some true := by
      unfold emptyOrPlaceholder
      by_cases he : s = []
      · rw [if_pos he]
      · rw [if_neg he, hph]
    have hjwt : ∃ msg, c.validateJWT = some (some msg) := by
      unfold Config.validateJWT
      rcases hkey with hk | hk
      · rw [hk, hbad]
        exact ⟨_, rfl⟩
      · obtain ⟨b1, h1⟩ := emptyOrPlaceholder_total c.JWT.SecretKey
        rw [h1, hk, hbad]
        cases b1
        · exact ⟨_, rfl⟩
        · exact ⟨_, rfl⟩
    obtain ⟨msg, hmsg⟩ := hjwt
    unfold Config.Validate
    by_cases h1 : c.Server.Host = []
    · exact ⟨_, by rw [if_pos h1]⟩
    by_cases h2 : c.Server.Port = []
    · exact ⟨_, by rw [if_neg h1, if_pos h2]⟩
    exact ⟨msg, by rw [if_neg h1, if_neg h2, hmsg]⟩

/-- Runs of `containsSubstring` and `containsPlaceholder`: a string shorter than the
token, the token alone, the token inside a longer string, and a string without any. -/
theorem containsPlaceholder_examples :
    containsSubstring (ascii "ab") (ascii "abc") = some false ∧
    containsSubstring (ascii "xabcx") (ascii "abc") = some true ∧
    containsPlaceholder [] = some false ∧
    containsPlaceholder (ascii "CHANGE") = some false ∧
    containsPlaceholder (ascii "CHANGEME") = some true ∧
    containsPlaceholder (ascii "my-REQUIRED-key") = some true ∧
    containsPlaceholder (ascii "0123456789abcdef0123456789abcdef") = some false ∧
    (∃ msg, ({ demoConfig with JWT := { demoConfig.JWT with
        EncryptionKey := ascii "PLACEHOLDER-0123456789abcdef0123" } } : Config).Validate
      = some (some msg)) := by
  refine ⟨by decide, by decide, by decide, by decide, by decide, by decide, by decide, ?_⟩
  exact ⟨"jwt encryption_key must be set (no placeholders allowed)", by decide⟩

/-! ## Algorithm pinning -/

/-- C21. Algorithm pinning: the key function returns an error instead of the signing
key for every signing method outside the HMAC family, and `Validate` returns an error
for every token whose header declares an `alg` that is not the name of an HMAC method
(`none`, `RS256`, `ES256`, ...), whatever its payload and signature; when the header
names a registered method outside the HMAC family and the segments decode, that error
is the one raised for the failed key function. Conversely every token `Validate`
accepts has a header naming an HMAC method. -/
theorem C21_algorithm_pinning (lib : Primitives) (m : JWTManager) (tok : Bytes) (now : Int) :
    (∀ method, (∀ hash, method ≠ SigningMethod.HMAC hash) →
      m.keyFunc method = .error .unexpectedSigningMethod) ∧
    (∀ a b c hb alg, splitOn 46 tok = [a, b, c] →
      RawURLEncoding.DecodeString a = some hb → lib.headerAlg hb = some (some alg) →
      (∀ hash, GetSigningMethod alg ≠ some (.HMAC hash)) →
      ∃ err, m.Validate lib tok now = .error err) ∧
    (∀ a b c hb alg method cb claims sig, splitOn 46 tok = [a, b, c] →
      RawURLEncoding.DecodeString a = some hb → lib.headerAlg hb = some (some alg) →
      GetSigningMethod alg = some method → (∀ hash, method ≠ SigningMethod.HMAC hash) →
      RawURLEncoding.DecodeString b = some cb → lib.unmarshalClaims cb = some claims →
      RawURLEncoding.DecodeString c = some sig →
      m.Validate lib tok now = .error .tokenUnverifiable) ∧
    (∀ claims, m.Validate lib tok now = .ok claims →
      ∃ a b c hb alg hash, splitOn 46 tok = [a, b, c] ∧
        RawURLEncoding.DecodeString a = some hb ∧ lib.headerAlg hb = some (some alg) ∧
        GetSigningMethod alg = some (.HMAC hash)) ∧
    (GetSigningMethod (ascii "none") = some .none ∧
     GetSigningMethod (ascii "RS256") = some (.RSA .SHA256) ∧
     GetSigningMethod (ascii "ES256") = some (.ECDSA .SHA256)) := by
  have hkf : ∀ method, (∀ hash, method ≠ SigningMethod.HMAC hash) →
      m.keyFunc method = .error .unexpectedSigningMethod := by
    intro method hne
    cases method with
    | HMAC hash => exact absurd rfl (hne hash)
    | RSA _ => rfl
    | RSAPSS _ => rfl
    | ECDSA _ => rfl
    | Ed25519 => rfl
    | none => rfl
  refine ⟨hkf, ?_, ?_, ?_, by decide, by decide, by decide⟩
  · intro a b c hb alg hs hd hh hne
    cases hv : m.Validate lib tok now with
    | error err => exact ⟨err, rfl⟩
    | ok claims =>
      obtain ⟨a', b', c', hb', alg', hash, _, hs', hd', hh', hm', _, _⟩ :=
        Validate_ok_inv lib m tok now claims hv
      rw [hs] at hs'
      simp only [List.cons.injEq, and_true] at hs'
      obtain ⟨e1, e2, e3⟩ := hs'
      subst e1; subst e2; subst e3
      rw [hd, Option.some.injEq] at hd'
      subst hd'
      rw [hh] at hh'
      simp only [Option.some.injEq] at hh'
      subst hh'
      exact absurd hm' (hne hash)
  · intro a b c hb alg method cb claims sig hs hd hh hm hne hdb hcl hdc
    unfold JWTManager.Validate ParseWithClaims
    rw [hs]
    simp only [hd, hh, hdb, hcl, Option.some_bind, hm, hdc, hkf method hne]
  · intro claims hv
    obtain ⟨a, b, c, hb, alg, hash, _, hs, hd, hh, hm, _, _⟩ :=
      Validate_ok_inv lib m tok now claims hv
    exact ⟨a, b, c, hb, alg, hash, hs, hd, hh, hm⟩

/-- C21, run on three tokens with the claims of `demoToken`: one declaring `none` with
an empty signature, and two declaring `RS256` and `ES256` with the signature bytes a
correct HS256 token would carry. -/
theorem C21_algorithm_pinning_witness :
    demoManager.Validate refPrimitives (demoTokenWithAlg (ascii "none") []) 900000000
      = .error .tokenUnverifiable ∧
    demoManager.Validate refPrimitives
      (demoTokenWithAlg (ascii "RS256")
        (refPrimitives.hmac .SHA256 demoManager.secretKey
          (SigningString refPrimitives (ascii "HS256")
            (demoManager.newClaims (ascii "alice")
              (demoManager.sealed refPrimitives (ascii "hunter2") demoNonce)
              500000000 500000000)))) 900000000
      = .error .tokenUnverifiable ∧
    (∃ err, demoManager.Validate refPrimitives (demoTokenWithAlg (ascii "ES256") [1, 2]) 900000000
      = .error err) :=
  ⟨by decide, by decide,
   (C21_algorithm_pinning refPrimitives demoManager (demoTokenWithAlg (ascii "ES256") [1, 2])
      900000000).2.1
     (RawURLEncoding.EncodeToString (ascii "ES256"))
     (RawURLEncoding.EncodeToString (refPrimitives.marshalClaims
        (demoManager.newClaims (ascii "alice")
          (demoManager.sealed refPrimitives (ascii "hunter2") demoNonce) 500000000 500000000)))
     (RawURLEncoding.EncodeToString [1, 2])
     (ascii "ES256") (ascii "ES256") (by decide) (by decide) (by decide)
     (by intro hash; cases hash <;> decide)⟩

/-! ## Properties of concurrent calls -/

/-- `GetConnection` is its first lookup followed by the rest of its body. -/
theorem GetConnection_eq_GetConnectionAt (p : GenericConnectionPool) (u pw : Bytes)
    (now : Int) (r : Except String Connection) :
    GetConnection p u pw now r = GetConnectionAt (mapGet p.connections u) p u pw now r :=
  rfl

theorem GetConnectionAt_none_absent (p : GenericConnectionPool) (u pw : Bytes) (now : Int)
    (c : Connection) (h : mapGet p.connections u = none) :
    GetConnectionAt none p u pw now (.ok c) =
      { result := .ok c,
        pool := GenericConnectionPool.mk
          (mapSet p.connections u (PooledGenericConnection.mk c now u)) p.ttl,
        calls := [BackendCall.connect u pw] } := by
  simp [GetConnectionAt, h]

theorem GetConnectionAt_none_fresh (p : GenericConnectionPool) (u pw : Bytes) (now : Int)
    (r : Except String Connection) (e : PooledGenericConnection)
    (h : mapGet p.connections u = some e) (hfresh : now - e.lastUsed < p.ttl) :
    GetConnectionAt none p u pw now r =
      { result := .ok e.connection,
        pool := GenericConnectionPool.mk
          (mapSet p.connections u (PooledGenericConnection.mk e.connection now e.username))
          p.ttl,
        calls := [] } := by
  simp [GetConnectionAt, h, isFresh, hfresh]

theorem GetConnectionAt_some_fresh (p : GenericConnectionPool) (u pw : Bytes) (now : Int)
    (r : Except String Connection) (e : PooledGenericConnection)
    (hfresh : now - e.lastUsed < p.ttl) :
    GetConnectionAt (some e) p u pw now r =
      { result := .ok e.connection,
        pool := GenericConnectionPool.mk
          (mapSet p.connections u (PooledGenericConnection.mk e.connection now e.username))
          p.ttl,
        calls := [] } := by
  simp [GetConnectionAt, isFresh, hfresh]

theorem lookup_mem {β : Type} : ∀ (l : List (Nat × β)) (id : Nat) (v : β),
    l.lookup id = some v → (id, v) ∈ l
  | [], _, _, h => by simp at h
  | (k, w) :: l, id, v, h => by
    by_cases hk : id = k
    · subst hk
      simp [List.lookup] at h
      subst h
      exact List.mem_cons_self _ _
    · have hb : (id == k) = false := by simpa using hk
      simp only [List.lookup, hb] at h
      exact List.mem_cons_of_mem _ (lookup_mem l id v h)

theorem lookup_of_mem_keys {β : Type} : ∀ (l : List (Nat × β)) (id : Nat),
    id ∈ l.map Prod.fst → ∃ v, l.lookup id = some v
  | [], _, h => by simp at h
  | (k, w) :: l, id, h => by
    by_cases hk : id = k
    · subst hk
      exact ⟨w, by simp [List.lookup]⟩
    · have hb : (id == k) = false := by simpa using hk
      have h2 : id ∈ l.map Prod.fst := by
        simp only [List.map_cons, List.mem_cons] at h
        rcases h with h | h
        · exact absurd h hk
        · exact h
      obtain ⟨v, hv⟩ := lookup_of_mem_keys l id h2
      exact ⟨v, by simp only [List.lookup, hb]; exact hv⟩

theorem entryCount_le_one (p : GenericConnectionPool) (u : Bytes)
    (h : keysNodup p.connections) : entryCount p u ≤ 1 := by
  unfold entryCount keysNodup at *
  generalize p.connections = m at h
  induction m with
  | nil => simp
  | cons kv rest ih =>
    rw [List.map_cons, List.nodup_cons] at h
    by_cases hk : kv.1 = u
    · have hnone : rest.filter (fun kv => decide (kv.1 = u)) = [] := by
        rw [List.filter_eq_nil_iff]
        intro x hx hxu
        simp only [decide_eq_true_eq] at hxu
        exact h.1 (List.mem_map.mpr ⟨x, hx, hxu.trans hk.symm⟩)
      simp [List.filter_cons, hk, hnone]
    · simp only [List.filter_cons, hk, decide_False, Bool.false_eq_true, if_false]
      exact ih h.2

theorem concStep_inv (u : Bytes) (t0 ttl : Int) (s : ConcState) (ev : ConcEvent)
    (hinv : ConcInv u t0 ttl s) (hok : ev.okWithin t0 ttl = true) :
    ConcInv u t0 ttl (concStep u s ev) := by
  obtain ⟨hnd, httl, hcase⟩ := hinv
  cases ev with
  | lookup id =>
    refine ⟨hnd, httl, ?_⟩
    rcases hcase with ⟨hget, hcalls, hret, hpend⟩ | ⟨c, e, hget, hc, ht, hcc, hcl, hret, hpend⟩
    · left
      refine ⟨hget, hcalls, hret, ?_⟩
      intro x hx
      simp only [concStep, List.mem_cons] at hx
      rcases hx with hx | hx
      · subst hx; exact hget
      · exact hpend x hx
    · right
      refine ⟨c, e, hget, hc, ht, hcc, hcl, hret, ?_⟩
      intro x hx e2 he2
      simp only [concStep, List.mem_cons] at hx
      rcases hx with hx | hx
      · subst hx
        simp only at he2
        rw [hget] at he2
        cases he2
        exact ⟨hc, ht⟩
      · exact hpend x hx e2 he2
  | finish id pw now r =>
    cases r with
    | error err => simp [ConcEvent.okWithin] at hok
    | ok c0 =>
      simp only [ConcEvent.okWithin, Bool.and_eq_true, decide_eq_true_eq] at hok
      obtain ⟨hlo, hhi⟩ := hok
      cases hl : s.pending.lookup id with
      | none =>
        simp only [concStep, hl]
        exact ⟨hnd, httl, hcase⟩
      | some outer =>
        have hmem := lookup_mem _ _ _ hl
        simp only [concStep, hl]
        rcases hcase with ⟨hget, hcalls, hret, hpend⟩ |
          ⟨c, e, hget, hc, ht, hcc, hcl, hret, hpend⟩
        · have ho : outer = none := hpend _ hmem
          subst ho
          rw [GetConnectionAt_none_absent _ u pw now c0 hget]
          refine ⟨keysNodup_mapSet _ _ _ hnd, httl, Or.inr ⟨c0, ⟨c0, now, u⟩, ?_, rfl, hlo, ?_, ?_, ?_, ?_⟩⟩
          · exact mapGet_mapSet_self _ _ _
          · rw [hcalls]; rfl
          · intro c2; rw [hcalls]; simp [closeCount]
          · intro x hx
            rw [hret] at hx
            simp only [List.nil_append, List.mem_singleton] at hx
            subst hx; rfl
          · intro x hx e2 he2
            have := hpend x (List.mem_of_mem_filter hx)
            rw [this] at he2
            cases he2
        · have hfresh_of : ∀ e2 : PooledGenericConnection, t0 ≤ e2.lastUsed →
              now - e2.lastUsed < s.pool.ttl := by
            intro e2 h2
            rw [httl]; omega
          have hstep : GetConnectionAt outer s.pool u pw now (.ok c0) =
              { result := .ok c,
                pool := GenericConnectionPool.mk
                  (mapSet s.pool.connections u
                    (PooledGenericConnection.mk c now
                      (match outer with | some e2 => e2.username | none => e.username)))
                  s.pool.ttl,
                calls := [] } := by
            cases outer with
            | none =>
              rw [GetConnectionAt_none_fresh _ u pw now _ e hget (hfresh_of e ht), hc]
            | some e2 =>
              obtain ⟨h1, h2⟩ := hpend _ hmem e2 rfl
              rw [GetConnectionAt_some_fresh _ u pw now _ e2 (hfresh_of e2 h2), h1]
          rw [hstep]
          refine ⟨keysNodup_mapSet _ _ _ hnd, httl, Or.inr ⟨c, _, mapGet_mapSet_self _ _ _, rfl, hlo, ?_, ?_, ?_, ?_⟩⟩
          · simpa using hcc
          · intro c2; simpa using hcl c2
          · intro x hx
            simp only [List.mem_append, List.mem_singleton] at hx
            rcases hx with hx | hx
            · exact hret x hx
            · subst hx; rfl
          · intro x hx e2 he2
            exact hpend x (List.mem_of_mem_filter hx) e2 he2

theorem concRun_inv (u : Bytes) (t0 ttl : Int) : ∀ (evs : List ConcEvent) (s : ConcState),
    ConcInv u t0 ttl s → (∀ ev ∈ evs, ev.okWithin t0 ttl = true) →
    ConcInv u t0 ttl (concRun u s evs)
  | [], _, h, _ => h
  | ev :: evs, s, h, hok =>
    concRun_inv u t0 ttl evs _
      (concStep_inv u t0 ttl s ev h (hok ev (List.mem_cons_self _ _)))
      (fun ev2 h2 => hok ev2 (List.mem_cons_of_mem _ h2))

theorem length_filter_ne (id : Nat) : ∀ (l : List Nat), l.Nodup → id ∈ l →
    (l.filter (fun x => decide (x ≠ id))).length + 1 = l.length
  | [], _, h => by simp at h
  | x :: l, hnd, h => by
    rw [List.nodup_cons] at hnd
    by_cases hx : x = id
    · subst hx
      have hall : l.filter (fun y => decide (y ≠ x)) = l := by
        rw [List.filter_eq_self]
        intro y hy
        simp only [ne_eq, decide_not, Bool.not_eq_eq_eq_not, Bool.not_true, decide_eq_false_iff_not]
        intro hyx
        exact hnd.1 (hyx ▸ hy)
      rw [List.filter_cons]
      simp only [ne_eq, not_true_eq_false, decide_False, Bool.false_eq_true, if_false]
      rw [hall]
      rfl
    · have hmem : id ∈ l := by
        rcases List.mem_cons.mp h with h | h
        · exact absurd h.symm hx
        · exact h
      have ih := length_filter_ne id l hnd.2 hmem
      rw [List.filter_cons]
      simp only [ne_eq, hx, not_false_eq_true, decide_True, if_true, List.length_cons]
      rw [ih]

theorem concRun_returns (u : Bytes) : ∀ (evs : List ConcEvent) (s : ConcState)
    (pend started : List Nat),
    s.pending.map Prod.fst = pend → pend.Nodup → (∀ id ∈ pend, id ∈ started) →
    (∀ id ∈ s.returned.map Prod.fst, id ∈ started ∧ id ∉ pend) →
    (s.returned.map Prod.fst).Nodup →
    isInterleaving evs pend started = true →
    (concRun u s evs).pending = [] ∧
    (concRun u s evs).returned.length = s.returned.length + pend.length + callCount evs ∧
    ((concRun u s evs).returned.map Prod.fst).Nodup
  | [], s, pend, started, hp, _, _, _, hrn, hwf => by
    simp only [isInterleaving, List.isEmpty_iff] at hwf
    subst hwf
    have : s.pending = [] := List.map_eq_nil_iff.mp hp
    exact ⟨this, by simp [concRun, callCount], hrn⟩
  | .lookup id :: evs, s, pend, started, hp, hnd, hsub, hret, hrn, hwf => by
    simp only [isInterleaving, Bool.and_eq_true, decide_eq_true_eq] at hwf
    obtain ⟨hfreshId, hwf⟩ := hwf
    have ih := concRun_returns u evs (concStep u s (.lookup id)) (id :: pend) (id :: started)
      (by simp [concStep, hp])
      (List.nodup_cons.mpr ⟨fun h => hfreshId (hsub id h), hnd⟩)
      (by
        intro x hx
        rcases List.mem_cons.mp hx with hx | hx
        · exact hx ▸ List.mem_cons_self _ _
        · exact List.mem_cons_of_mem _ (hsub x hx))
      (by
        intro x hx
        have := hret x hx
        refine ⟨List.mem_cons_of_mem _ this.1, ?_⟩
        intro hx2
        rcases List.mem_cons.mp hx2 with hx2 | hx2
        · exact hfreshId (hx2 ▸ this.1)
        · exact this.2 hx2)
      hrn hwf
    obtain ⟨h1, h2, h3⟩ := ih
    refine ⟨h1, ?_, h3⟩
    show (concRun u (concStep u s (.lookup id)) evs).returned.length = _
    rw [h2]
    simp [concStep, callCount]
    omega
  | .finish id pw now r :: evs, s, pend, started, hp, hnd, hsub, hret, hrn, hwf => by
    simp only [isInterleaving, Bool.and_eq_true, decide_eq_true_eq] at hwf
    obtain ⟨hin, hwf⟩ := hwf
    obtain ⟨outer, hl⟩ := lookup_of_mem_keys s.pending id (hp ▸ hin)
    have hstep : concStep u s (.finish id pw now r) =
        { pool := (GetConnectionAt outer s.pool u pw now r).pool,
          pending := s.pending.filter (fun x => decide (x.1 ≠ id)),
          returned := s.returned ++ [(id, (GetConnectionAt outer s.pool u pw now r).result)],
          calls := s.calls ++ (GetConnectionAt outer s.pool u pw now r).calls } := by
      simp only [concStep, hl]
    have hnotret : id ∉ s.returned.map Prod.fst := fun h => (hret id h).2 hin
    have ih := concRun_returns u evs (concStep u s (.finish id pw now r))
      (pend.filter (fun x => decide (x ≠ id))) started
      (by
        rw [hstep, ← hp]
        simp only [List.filter_map]
        rfl)
      (hnd.filter _)
      (fun x hx => hsub x (List.mem_of_mem_filter hx))
      (by
        intro x hx
        rw [hstep] at hx
        simp only [List.map_append, List.map_cons, List.map_nil, List.mem_append,
          List.mem_singleton] at hx
        rcases hx with hx | hx
        · exact ⟨(hret x hx).1, fun h => (hret x hx).2 (List.mem_of_mem_filter h)⟩
        · subst hx
          refine ⟨hsub x hin, ?_⟩
          intro h
          have := (List.mem_filter.mp h).2
          simp at this)
      (by
        rw [hstep]
        simp only [List.map_append, List.map_cons, List.map_nil]
        rw [List.nodup_append]
        refine ⟨hrn, List.nodup_singleton _, ?_⟩
        intro x hx hx2
        rw [List.mem_singleton] at hx2
        subst hx2
        exact hnotret hx)
      hwf
    obtain ⟨h1, h2, h3⟩ := ih
    refine ⟨h1, ?_, h3⟩
    show (concRun u (concStep u s (.finish id pw now r)) evs).returned.length = _
    rw [h2, hstep]
    have hlen := length_filter_ne id pend hnd hin
    have hcc : callCount (ConcEvent.finish id pw now r :: evs) = callCount evs := by
      simp [callCount]
    rw [hcc, List.length_append, List.length_singleton]
    omega

/-- C15, refuted as stated. On a pool with no entry for `alice` and a TTL of 5, two
calls make their first lookup, the first runs the rest of its body at clock reading 10
and the second at 15: `Connect` is called twice and the calls return the connections 1
and 2 (connection 1 is replaced without a `Close`). With a TTL of 0 the same happens
when both read the clock at 10, and also when the two calls run one after the other. -/
theorem C15_two_connects :
    isInterleaving [.lookup 0, .lookup 1, .finish 0 (ascii "pw") 10 (.ok 1),
      .finish 1 (ascii "pw") 15 (.ok 2)] [] [] = true ∧
    mapGet (NewGenericConnectionPool 5).connections (ascii "alice") = none ∧
    (concRun (ascii "alice") (concStart (NewGenericConnectionPool 5))
      [.lookup 0, .lookup 1, .finish 0 (ascii "pw") 10 (.ok 1),
       .finish 1 (ascii "pw") 15 (.ok 2)]).calls =
      [BackendCall.connect (ascii "alice") (ascii "pw"),
       BackendCall.connect (ascii "alice") (ascii "pw")] ∧
    (concRun (ascii "alice") (concStart (NewGenericConnectionPool 5))
      [.lookup 0, .lookup 1, .finish 0 (ascii "pw") 10 (.ok 1),
       .finish 1 (ascii "pw") 15 (.ok 2)]).returned = [(0, .ok 1), (1, .ok 2)] ∧
    (concRun (ascii "alice") (concStart (NewGenericConnectionPool 0))
      [.lookup 0, .lookup 1, .finish 0 (ascii "pw") 10 (.ok 1),
       .finish 1 (ascii "pw") 10 (.ok 2)]).calls =
      [BackendCall.connect (ascii "alice") (ascii "pw"),
       BackendCall.connect (ascii "alice") (ascii "pw")] ∧
    (concRun (ascii "alice") (concStart (NewGenericConnectionPool 0))
      [.lookup 0, .lookup 1, .finish 0 (ascii "pw") 10 (.ok 1),
       .finish 1 (ascii "pw") 10 (.ok 2)]).returned = [(0, .ok 1), (1, .ok 2)] ∧
    (runOps (NewGenericConnectionPool 0)
      [.getConnection (ascii "alice") (ascii "pw") 10 (.ok 1),
       .getConnection (ascii "alice") (ascii "pw") 10 (.ok 2)]).2 =
      [BackendCall.connect (ascii "alice") (ascii "pw"), BackendCall.close 1,
       BackendCall.connect (ascii "alice") (ascii "pw")] := by
  decide

/-- C15 as amended. Take a pool with no entry for `u`, and `N ≥ 1` calls of
`GetConnection(u, ·)` run concurrently: each call makes its first lookup under the read
lock and later runs the rest of its body as one step, in any interleaving. If `Connect`
succeeds and every clock reading lies in a window `[t0, t0 + ttl)` shorter than the TTL,
then backend `Connect` is invoked exactly once and `Close` never, all `N` calls return,
each once, and return the same connection, and after every event of the run at most
one entry exists for `u`. -/
theorem C15_single_connect_within_ttl (p : GenericConnectionPool) (u : Bytes) (t0 : Int)
    (evs : List ConcEvent) (N : Nat)
    (hnone : mapGet p.connections u = none) (hkeys : keysNodup p.connections)
    (hsched : isInterleaving evs [] [] = true) (hN : callCount evs = N) (hpos : 1 ≤ N)
    (hok : ∀ ev ∈ evs, ev.okWithin t0 p.ttl = true) :
    connectCount (concRun u (concStart p) evs).calls = 1 ∧
    (∀ c, closeCount (concRun u (concStart p) evs).calls c = 0) ∧
    (concRun u (concStart p) evs).pending = [] ∧
    (concRun u (concStart p) evs).returned.length = N ∧
    ((concRun u (concStart p) evs).returned.map Prod.fst).Nodup ∧
    (∃ c, ∀ x ∈ (concRun u (concStart p) evs).returned, x.2 = .ok c) ∧
    (∀ k, entryCount (concRun u (concStart p) (evs.take k)).pool u ≤ 1) := by
  have hstart : ConcInv u t0 p.ttl (concStart p) :=
    ⟨hkeys, rfl, Or.inl ⟨hnone, rfl, rfl, by simp [concStart]⟩⟩
  obtain ⟨h1, h2, h3⟩ := concRun_returns u evs (concStart p) [] [] rfl List.nodup_nil
    (by simp) (by simp [concStart]) (by simp [concStart]) hsched
  have hlen : (concRun u (concStart p) evs).returned.length = N := by
    rw [h2, hN]; simp [concStart]
  obtain ⟨_, _, hcase⟩ := concRun_inv u t0 p.ttl evs (concStart p) hstart hok
  have hprefix : ∀ k, entryCount (concRun u (concStart p) (evs.take k)).pool u ≤ 1 := by
    intro k
    exact entryCount_le_one _ _
      (concRun_inv u t0 p.ttl (evs.take k) (concStart p) hstart
        (fun ev h => hok ev (List.mem_of_mem_take h))).1
  rcases hcase with ⟨_, _, hret, _⟩ | ⟨c, e, _, _, _, hcc, hcl, hret, _⟩
  · rw [hret] at hlen
    simp at hlen
    omega
  · exact ⟨hcc, hcl, h1, hlen, h3, ⟨c, hret⟩, hprefix⟩

/-- C15 as amended, run on three calls for `alice` on a new pool with a TTL of 5, all
clock readings in `[10, 15)`. -/
theorem C15_single_connect_within_ttl_witness :
    connectCount (concRun (ascii "alice") (concStart (NewGenericConnectionPool 5))
      [.lookup 0, .lookup 1, .finish 1 (ascii "pw") 10 (.ok 1), .lookup 2,
       .finish 0 (ascii "pw") 12 (.ok 2), .finish 2 (ascii "pw") 14 (.ok 3)]).calls = 1 ∧
    (concRun (ascii "alice") (concStart (NewGenericConnectionPool 5))
      [.lookup 0, .lookup 1, .finish 1 (ascii "pw") 10 (.ok 1), .lookup 2,
       .finish 0 (ascii "pw") 12 (.ok 2), .finish 2 (ascii "pw") 14 (.ok 3)]).returned.length
      = 3 ∧
    (∃ c, ∀ x ∈ (concRun (ascii "alice") (concStart (NewGenericConnectionPool 5))
      [.lookup 0, .lookup 1, .finish 1 (ascii "pw") 10 (.ok 1), .lookup 2,
       .finish 0 (ascii "pw") 12 (.ok 2), .finish 2 (ascii "pw") 14 (.ok 3)]).returned,
      x.2 = .ok c) :=
  have h := C15_single_connect_within_ttl (NewGenericConnectionPool 5) (ascii "alice") 10
    [.lookup 0, .lookup 1, .finish 1 (ascii "pw") 10 (.ok 1), .lookup 2,
     .finish 0 (ascii "pw") 12 (.ok 2), .finish 2 (ascii "pw") 14 (.ok 3)] 3
    (by decide) (by simp [keysNodup, NewGenericConnectionPool]) (by decide) (by decide)
    (by decide) (by decide)
  ⟨h.1, h.2.2.2.1, h.2.2.2.2.2.1⟩

end PhotoSync
